import Mathlib

/-! # libasciidoc: attribute resolution, counters, substitution steps and footnotes

A shallow embedding of `pkg/parser/document_processing_apply_substitutions.go`
(the attribute/counter resolver, the substitution selector, the placeholder
codec, the grammar-backed and line-splitting steps, and the functions that
apply them on the elements of a document), and of the parts of `pkg/types`
they work on: the footnote collector, the preamble and the attributes of the
raw document among them.

Conventions of the embedding

* A Go `interface{}` value of the document tree is an `Element`; Go structs
  are constructors that keep the struct's name and fields.  `Location`
  (scheme and path) is inlined in the constructors that own one.
* A Go `interface{}` value held by the attribute store or pinned by a counter
  reference is a `Value`.
* A Go `map[string]T` is an association list with unique keys (`GoMap`); a
  map is always allocated (writing to a nil map is outside the model).
* Go hands the attribute store to the resolver as a struct of maps, so the
  callee's writes are visible to the caller: every function returns the store
  it leaves behind next to its Go result, also when that result is an error.
* Go `int` is a 64-bit and `rune` a 32-bit two's complement integer: both
  are `Int` here, and `++` wraps explicitly.
* A Go interface with methods is the subtype of the elements whose type has
  the methods (`BlockWithSubstitution`).
* A Go function value of type `elementsSubstitution` is known by its name;
  the selector returns a list of such names.
* `fmt.Sprintf("%v", ..)` on a struct of the document model is a parameter,
  `render`, of the functions that may call it.
* The generated parser is a parameter, `ParseReader`, of the functions that
  call it; the functions that reach further outside of src take a `Library`,
  which holds the parser and the other functions of this kind.
* A call that stops with a run-time panic has no result: the functions that
  may panic return an `Option`, and `none` is the panic.
* A function that writes into a slice or through a pointer it was given
  returns the value it leaves behind; the document trees are trees, without
  sharing between slices.
-/

namespace Libasciidoc

/-! ## Go maps -/

/-- A Go `map[string]V`. -/
abbrev GoMap (V : Type) := List (String × V)

namespace GoMap

/-- Value of `m[k]` with the comma-ok flag as `Option`. -/
def get {V : Type} (m : GoMap V) (k : String) : Option V :=
  match m with
  | [] => none
  | (k', v) :: rest => if k' = k then some v else get rest k

/-- Effect of `m[k] = v`. -/
def set {V : Type} (m : GoMap V) (k : String) (v : V) : GoMap V :=
  match m with
  | [] => [(k, v)]
  | (k', v') :: rest => if k' = k then (k', v) :: rest else (k', v') :: set rest k v

end GoMap

/-! ## Elements -/

/-- A Go `interface{}` value that is not a struct of the document model: what
the attribute store and a counter reference hold. -/
inductive Value where
  /-- The nil interface value. -/
  | nil
  /-- A Go `string`. -/
  | str (s : String)
  /-- A Go `bool`. -/
  | bool (b : Bool)
  /-- A Go `int`. -/
  | int (n : Int)
  /-- A Go `rune` (`int32`). -/
  | rune (r : Int)
  /-- A value of any other Go type, known by its type name (`%T`) and its
  default rendering (`%v`). -/
  | other (typeName : String) (rendering : String)
  deriving DecidableEq, Repr

/-- A Go `interface{}` value of the document tree. -/
inductive Element where
  /-- A value that is not a struct of the document model. -/
  | raw (v : Value)
  /-- A Go `[]interface{}`. -/
  | slice (elements : List Element)
  | ElementRole (elements : List Element)
  | StringElement (Content : String)
  | SingleLineComment (Content : String)
  | BlankLine
  | LineBreak
  | SpecialCharacter (Name : String)
  | ElementPlaceHolder (Ref : String)
  | AttributeDeclaration (Name : String) (Value : String)
  | AttributeReset (Name : String)
  | AttributeSubstitution (Name : String)
  | PredefinedAttribute (Name : String)
  | CounterSubstitution (Name : String) (Hidden : Bool) (Value : Value)
  | Paragraph (Attributes : List (String × Element)) (Lines : List (List Element))
  | ImageBlock (Scheme : String) (Path : List Element) (Attributes : List (String × Element))
  | Section (Level : Int) (Attributes : List (String × Element)) (Title : List Element)
      (Elements : List Element)
  | OrderedListItem (Attributes : List (String × Element)) (Level : Int) (Style : String)
      (Elements : List Element)
  | UnorderedListItem (Level : Int) (BulletStyle : String) (CheckStyle : String)
      (Attributes : List (String × Element)) (Elements : List Element)
  | LabeledListItem (Term : List Element) (Level : Int) (Attributes : List (String × Element))
      (Elements : List Element)
  | ContinuedListItemElement (Offset : Int) (Element : Element)
  | ExampleBlock (Attributes : List (String × Element)) (Elements : List Element)
  | QuoteBlock (Attributes : List (String × Element)) (Elements : List Element)
  | SidebarBlock (Attributes : List (String × Element)) (Elements : List Element)
  | FencedBlock (Attributes : List (String × Element)) (Lines : List (List Element))
  | ListingBlock (Attributes : List (String × Element)) (Lines : List (List Element))
  | VerseBlock (Attributes : List (String × Element)) (Lines : List (List Element))
  | MarkdownQuoteBlock (Attributes : List (String × Element)) (Lines : List (List Element))
  | PassthroughBlock (Attributes : List (String × Element)) (Lines : List (List Element))
  | CommentBlock (Attributes : List (String × Element)) (Lines : List (List Element))
  | LiteralBlock (Attributes : List (String × Element)) (Lines : List (List Element))
  | InlineImage (Scheme : String) (Path : List Element) (Attributes : List (String × Element))
  | InlineLink (Scheme : String) (Path : List Element) (Attributes : List (String × Element))
  | ExternalCrossReference (Scheme : String) (Path : List Element) (Label : List Element)
  | InternalCrossReference (ID : String) (Label : String)
  | QuotedText (Kind : Nat) (Elements : List Element) (Attributes : List (String × Element))
  | QuotedString (Kind : Nat) (Elements : List Element)
  | InlinePassthrough (Kind : Nat) (Elements : List Element)
  | IndexTerm (Term : List Element)
  | Footnote (ID : Int) (Ref : String) (Elements : List Element)
  | FootnoteReference (ID : Int) (Ref : String) (Duplicate : Bool)

/-! ## Go primitives used by the resolver -/

/-- Result of `++` on a Go `int`: the successor, wrapped to 64 bits. -/
def incInt (n : Int) : Int := (n + 1 + 2 ^ 63) % 2 ^ 64 - 2 ^ 63

/-- Result of `++` on a Go `rune`: the successor, wrapped to 32 bits. -/
def incRune (r : Int) : Int := (r + 1 + 2 ^ 31) % 2 ^ 32 - 2 ^ 31

/-- Go `strconv.Itoa`. -/
def Itoa (n : Int) : String := toString n

/-- Whether a rune is a Unicode scalar value, a code point that is not a surrogate. -/
def isScalar (r : Int) : Bool :=
  (0 ≤ r && r < 0xD800) || (0xDFFF < r && r ≤ 0x10FFFF)

/-- Go conversion `string(r)` of a rune: the character with that code point,
U+FFFD when the rune is not a valid one. -/
def runeToString (r : Int) : String :=
  if isScalar r then String.singleton (Char.ofNat r.toNat) else String.singleton (Char.ofNat 0xFFFD)

/-- Go `fmt.Sprintf("%T", v)`. -/
def Value.typeName : Value → String
  | .nil => "<nil>"
  | .str _ => "string"
  | .bool _ => "bool"
  | .int _ => "int"
  | .rune _ => "int32"
  | .other t _ => t

/-- Go `fmt.Sprintf("%v", v)`. -/
def Value.sprint : Value → String
  | .nil => "<nil>"
  | .str s => s
  | .bool b => if b then "true" else "false"
  | .int n => Itoa n
  | .rune r => Itoa r
  | .other _ s => s

/-! ## The attribute store -/

/-- The `types.Attributes` map of the attribute store. -/
abbrev Attributes := GoMap Value

/-- `Attributes.GetAsString`: the string value for the key and `true`, or the
empty string and `false` if none was found; a nil value means the attribute
was reset. -/
def Attributes.GetAsString (a : Attributes) (key : String) : String × Bool :=
  match GoMap.get a key with
  | some .nil => ("", false)
  | some (.str value) => (value, true)
  | some v => (v.sprint, true)
  | none => ("", false)

/-- `Attributes.GetAsStringWithDefault`: the string value for the key, or the
given default value. -/
def Attributes.GetAsStringWithDefault (a : Attributes) (key defaultValue : String) : String :=
  match GoMap.get a key with
  | some .nil => ""
  | some (.str value) => value
  | some v => v.sprint
  | none => defaultValue

/-- The `types.AttributesWithOverrides` struct, with the fields that
`ApplySubstitutions` fills: the live attributes, the overrides and the
counters. -/
structure AttributesWithOverrides where
  Content : Attributes
  Overrides : GoMap String
  Counters : GoMap Value
  deriving DecidableEq, Repr

/-- Modelled from the spec: the method `AttributesWithOverrides.Set` is not
under src.  It declares or resets an attribute in the live mapping and never
touches the overrides. -/
def AttributesWithOverrides.Set (a : AttributesWithOverrides) (key : String) (value : Value) :
    AttributesWithOverrides :=
  { a with Content := GoMap.set a.Content key value }

/-- Modelled from the spec: the method `AttributesWithOverrides.GetAsString`
is not under src.  An override always takes precedence over a live
declaration; without an override the live mapping answers, through
`Attributes.GetAsString`. -/
def AttributesWithOverrides.GetAsString (a : AttributesWithOverrides) (key : String) :
    String × Bool :=
  match GoMap.get a.Overrides key with
  | some value => (value, true)
  | none => Attributes.GetAsString a.Content key

/-! ## Merging text elements -/

/-- Modelled from the spec: `types.Merge` is not under src.  It merges
adjacent text elements: every maximal run of text elements becomes one text
element holding the concatenation of their contents, and the other elements
stay where they are.  This is the call `types.Merge(result)` on one slice of
elements; the spec says nothing more, so a run whose texts are all empty
stays one empty text element. -/
def Merge : List Element → List Element
  | [] => []
  | .StringElement a :: rest =>
    match Merge rest with
    | .StringElement b :: rest' => .StringElement (a ++ b) :: rest'
    | rest' => .StringElement a :: rest'
  | e :: rest => e :: Merge rest

/-! ## The attribute and counter resolver -/

/-- What a resolver function hands back: its Go result and the store it leaves. -/
abbrev Resolved (α : Type) := Except String α × AttributesWithOverrides

/-- Go `x.f, err = g(..); return x, err` and its like: the value of a
successful call is passed on, an error is handed up as it is. -/
def Resolved.map {α β : Type} (f : α → β) : Resolved α → Resolved β
  | (.ok x, attrs) => (.ok (f x), attrs)
  | (.error err, attrs) => (.error err, attrs)

/-- The local `counter` of `applyCounterSubstitution` when it reaches its type
switch: the pinned value `c.Value` when there is one, otherwise the stored
value, otherwise (nothing stored, or nil) the integer 0. -/
def applyCounterSubstitution.counter (Name : String) (Value : Value)
    (attrs : AttributesWithOverrides) : Libasciidoc.Value :=
  if Value ≠ .nil then Value
  else
    match GoMap.get attrs.Counters Name with
    | none => .int 0
    | some .nil => .int 0
    | some v => v

/-- The store of `applyCounterSubstitution` when it reaches its type switch:
a pinned value has been written to the counters. -/
def applyCounterSubstitution.pinned (Name : String) (Value : Value)
    (attrs : AttributesWithOverrides) : AttributesWithOverrides :=
  if Value ≠ .nil then { attrs with Counters := GoMap.set attrs.Counters Name Value } else attrs

/-- `applyCounterSubstitution`, on the fields `Name`, `Hidden` and `Value` of
the counter reference `c`. -/
def applyCounterSubstitution (Name : String) (Hidden : Bool) (Value : Value)
    (attrs : AttributesWithOverrides) : Resolved Element :=
  let counter := applyCounterSubstitution.counter Name Value attrs
  let increment : Bool := decide (Value = .nil)
  let attrs := applyCounterSubstitution.pinned Name Value attrs
  match counter with
  | .int counter =>
    let counter := if increment then incInt counter else counter
    let attrs := { attrs with Counters := GoMap.set attrs.Counters Name (.int counter) }
    if Hidden then (.ok (.StringElement ""), attrs)
    else (.ok (.StringElement (Itoa counter)), attrs)
  | .rune counter =>
    let counter := if increment then incRune counter else counter
    let attrs := { attrs with Counters := GoMap.set attrs.Counters Name (.rune counter) }
    if Hidden then (.ok (.StringElement ""), attrs)
    else (.ok (.StringElement (runeToString counter)), attrs)
  | counter => (.error ("invalid counter type " ++ counter.typeName), attrs)

mutual

/-- The loop of `applyAttributeSubstitutionsOnElements`: the elements are
resolved one after the other and collected, up to the first error. -/
def applyAttributeSubstitutionsOnElementsLoop (elements : List Element)
    (attrs : AttributesWithOverrides) : Resolved (List Element) :=
  match elements with
  | [] => (.ok [], attrs)
  | element :: rest =>
    match applyAttributeSubstitutionsOnElement element attrs with
    | (.error err, attrs) => (.error err, attrs)
    | (.ok e, attrs) => Resolved.map (e :: ·) (applyAttributeSubstitutionsOnElementsLoop rest attrs)

/-- `applyAttributeSubstitutionsOnLines`: every line goes through
`applyAttributeSubstitutionsOnElements`, the loop followed by `Merge`. -/
def applyAttributeSubstitutionsOnLines (lines : List (List Element))
    (attrs : AttributesWithOverrides) : Resolved (List (List Element)) :=
  match lines with
  | [] => (.ok [], attrs)
  | line :: rest =>
    match Resolved.map Merge (applyAttributeSubstitutionsOnElementsLoop line attrs) with
    | (.error err, attrs) => (.error err, attrs)
    | (.ok line, attrs) => Resolved.map (line :: ·) (applyAttributeSubstitutionsOnLines rest attrs)

/-- `applyAttributeSubstitutionsOnElement`; a call of
`applyAttributeSubstitutionsOnElements` on the children is the loop followed
by `Merge`. -/
def applyAttributeSubstitutionsOnElement (element : Element)
    (attrs : AttributesWithOverrides) : Resolved Element :=
  match element with
  | .Paragraph as lines =>
    Resolved.map (.Paragraph as ·) (applyAttributeSubstitutionsOnLines lines attrs)
  | .AttributeDeclaration name value =>
    (.ok (.AttributeDeclaration name value), attrs.Set name (.str value))
  | .AttributeReset name =>
    (.ok (.AttributeReset name), attrs.Set name .nil)
  | .ImageBlock scheme path as =>
    Resolved.map (fun path => .ImageBlock scheme (Merge path) as)
      (applyAttributeSubstitutionsOnElementsLoop path attrs)
  | .Section level as title elements =>
    Resolved.map (fun title => .Section level as (Merge title) elements)
      (applyAttributeSubstitutionsOnElementsLoop title attrs)
  | .OrderedListItem as level style elements =>
    Resolved.map (fun elements => .OrderedListItem as level style (Merge elements))
      (applyAttributeSubstitutionsOnElementsLoop elements attrs)
  | .UnorderedListItem level bullet check as elements =>
    Resolved.map (fun elements => .UnorderedListItem level bullet check as (Merge elements))
      (applyAttributeSubstitutionsOnElementsLoop elements attrs)
  | .LabeledListItem term level as elements =>
    Resolved.map (fun elements => .LabeledListItem term level as (Merge elements))
      (applyAttributeSubstitutionsOnElementsLoop elements attrs)
  | .ContinuedListItemElement offset element =>
    Resolved.map (.ContinuedListItemElement offset ·)
      (applyAttributeSubstitutionsOnElement element attrs)
  | .ExampleBlock as elements =>
    Resolved.map (fun elements => .ExampleBlock as (Merge elements))
      (applyAttributeSubstitutionsOnElementsLoop elements attrs)
  | .QuoteBlock as elements =>
    Resolved.map (fun elements => .QuoteBlock as (Merge elements))
      (applyAttributeSubstitutionsOnElementsLoop elements attrs)
  | .SidebarBlock as elements =>
    Resolved.map (fun elements => .SidebarBlock as (Merge elements))
      (applyAttributeSubstitutionsOnElementsLoop elements attrs)
  | .FencedBlock as lines =>
    Resolved.map (.FencedBlock as ·) (applyAttributeSubstitutionsOnLines lines attrs)
  | .ListingBlock as lines =>
    Resolved.map (.ListingBlock as ·) (applyAttributeSubstitutionsOnLines lines attrs)
  | .VerseBlock as lines =>
    Resolved.map (.VerseBlock as ·) (applyAttributeSubstitutionsOnLines lines attrs)
  | .MarkdownQuoteBlock as lines =>
    Resolved.map (.MarkdownQuoteBlock as ·) (applyAttributeSubstitutionsOnLines lines attrs)
  | .PassthroughBlock as lines =>
    Resolved.map (.PassthroughBlock as ·) (applyAttributeSubstitutionsOnLines lines attrs)
  | .CommentBlock as lines =>
    Resolved.map (.CommentBlock as ·) (applyAttributeSubstitutionsOnLines lines attrs)
  | .LiteralBlock as lines =>
    Resolved.map (.LiteralBlock as ·) (applyAttributeSubstitutionsOnLines lines attrs)
  | .AttributeSubstitution name =>
    match attrs.GetAsString name with
    | (value, true) => (.ok (.StringElement value), attrs)
    | (_, false) =>
      -- log.Warnf("unable to find attribute '%s'", e.Name)
      (.ok (.StringElement ("\x7b" ++ name ++ "\x7d")), attrs)
  | .CounterSubstitution name hidden value => applyCounterSubstitution name hidden value attrs
  | .InlineImage scheme path as =>
    Resolved.map (fun path => .InlineImage scheme (Merge path) as)
      (applyAttributeSubstitutionsOnElementsLoop path attrs)
  | .InlineLink scheme path as =>
    Resolved.map (fun path => .InlineLink scheme (Merge path) as)
      (applyAttributeSubstitutionsOnElementsLoop path attrs)
  | .ExternalCrossReference scheme path label =>
    Resolved.map (fun path => .ExternalCrossReference scheme (Merge path) label)
      (applyAttributeSubstitutionsOnElementsLoop path attrs)
  | .QuotedText kind elements as =>
    Resolved.map (fun elements => .QuotedText kind (Merge elements) as)
      (applyAttributeSubstitutionsOnElementsLoop elements attrs)
  | e => (.ok e, attrs)

end

/-- `applyAttributeSubstitutionsOnElements`: the loop over the elements, then
`types.Merge` on the collected result. -/
def applyAttributeSubstitutionsOnElements (elements : List Element)
    (attrs : AttributesWithOverrides) : Resolved (List Element) :=
  Resolved.map Merge (applyAttributeSubstitutionsOnElementsLoop elements attrs)

/-! ## The substitution selector -/

/-- Go `strings.Split` of a list of characters at every occurrence of a
separating character. -/
def splitChars (sep : Char) : List Char → List (List Char)
  | [] => [[]]
  | c :: cs =>
    if c = sep then [] :: splitChars sep cs
    else
      match splitChars sep cs with
      | [] => [[c]]
      | w :: ws => (c :: w) :: ws

/-- Go `strings.Split(s, sep)` for a separator of one character, such as `","`. -/
def Split (s : String) (sep : Char) : List String :=
  (splitChars sep s.data).map String.mk

/-- Go `strings.ReplaceAll(s, old, "")` for an `old` of one character, such as
`"+"` and `"-"`: every occurrence of the character is removed. -/
def ReplaceAllByNothing (s : String) (old : Char) : String :=
  String.mk (s.data.filter (· ≠ old))

/-- The map `types.Attributes` of an element: its values are values of the
document tree. -/
abbrev ElementAttributes := GoMap Element

/-- `types.AttrSubstitutions`. -/
def AttrSubstitutions : String := "subs"

/-- `types.AttrBlockKind`. -/
def AttrBlockKind : String := "block-kind"

/-- `types.Listing`, a value of the Go type `BlockKind`. -/
def Listing : Element := .raw (.other "types.BlockKind" "listing")

/-- Go `fmt.Sprintf("%v", v)` on a value of the document tree.  The rendering
of a struct of the document model belongs to the `fmt` library and is the
parameter `render`. -/
def Element.sprint (render : Element → String) : Element → String
  | .raw v => v.sprint
  | e => render e

/-- `Attributes.GetAsString` on the attributes of an element. -/
def ElementAttributes.GetAsString (render : Element → String) (a : ElementAttributes)
    (key : String) : String × Bool :=
  match GoMap.get a key with
  | some (.raw .nil) => ("", false)
  | some (.raw (.str value)) => (value, true)
  | some v => (v.sprint render, true)
  | none => ("", false)

/-- `Attributes.GetAsStringWithDefault` on the attributes of an element. -/
def ElementAttributes.GetAsStringWithDefault (render : Element → String)
    (a : ElementAttributes) (key defaultValue : String) : String :=
  match GoMap.get a key with
  | some (.raw .nil) => ""
  | some (.raw (.str value)) => value
  | some v => v.sprint render
  | none => defaultValue

/-- Whether the type of the element has the method `SubstitutionsToApply`,
that is, implements `types.BlockWithSubstitution`. -/
def Element.isBlockWithSubstitution : Element → Bool
  | .Paragraph _ _ => true
  | .ExampleBlock _ _ => true
  | .QuoteBlock _ _ => true
  | .SidebarBlock _ _ => true
  | .FencedBlock _ _ => true
  | .ListingBlock _ _ => true
  | .VerseBlock _ _ => true
  | .PassthroughBlock _ _ => true
  | .LiteralBlock _ _ => true
  | _ => false

/-- The interface `types.BlockWithSubstitution`. -/
def BlockWithSubstitution := { block : Element // block.isBlockWithSubstitution = true }

/-- The method `SubstitutionsToApply` of the types that have it. -/
def BlockWithSubstitution.SubstitutionsToApply (render : Element → String)
    (block : BlockWithSubstitution) : String :=
  match block.val with
  | .Paragraph as _ =>
    match ElementAttributes.GetAsString render as AttrSubstitutions with
    | (subs, true) => subs
    | (_, false) => ""
  | .ExampleBlock as _ => ElementAttributes.GetAsStringWithDefault render as AttrSubstitutions ""
  | .QuoteBlock as _ => ElementAttributes.GetAsStringWithDefault render as AttrSubstitutions ""
  | .SidebarBlock as _ => ElementAttributes.GetAsStringWithDefault render as AttrSubstitutions ""
  | .FencedBlock as _ => ElementAttributes.GetAsStringWithDefault render as AttrSubstitutions ""
  | .ListingBlock as _ => ElementAttributes.GetAsStringWithDefault render as AttrSubstitutions ""
  | .VerseBlock as _ => ElementAttributes.GetAsStringWithDefault render as AttrSubstitutions ""
  | .PassthroughBlock as _ =>
    ElementAttributes.GetAsStringWithDefault render as AttrSubstitutions ""
  | .LiteralBlock as _ => ElementAttributes.GetAsStringWithDefault render as AttrSubstitutions ""
  | _ => ""

/-- The Go type `elementsSubstitution`: a substitution function, known by the
variable or function that names it. -/
inductive elementsSubstitution where
  | substituteInlinePassthrough
  | substituteCallouts
  | substituteSpecialCharacters
  | substituteQuotedTexts
  | substituteAttributes
  | substituteReplacements
  | substituteInlineMacros
  | substitutePostReplacements
  | substituteNone
  | splitLines
  deriving DecidableEq, Repr

/-- The map `substitutions` from step names to their implementation. -/
def substitutions : GoMap elementsSubstitution :=
  [("inline_passthrough", .substituteInlinePassthrough),
   ("callouts", .substituteCallouts),
   ("specialcharacters", .substituteSpecialCharacters),
   ("specialchars", .substituteSpecialCharacters),
   ("quotes", .substituteQuotedTexts),
   ("attributes", .substituteAttributes),
   ("replacements", .substituteReplacements),
   ("macros", .substituteInlineMacros),
   ("post_replacements", .substitutePostReplacements),
   ("none", .substituteNone)]

/-- The default of the blocks of blocks. -/
def defaultSubstitutionsForBlockElements : List String :=
  ["inline_passthrough", "specialcharacters", "quotes", "attributes", "replacements", "macros",
    "post_replacements"]

def defaultExampleBlockSubstitutions : List String := defaultSubstitutionsForBlockElements

def defaultQuoteBlockSubstitutions : List String := defaultSubstitutionsForBlockElements

def defaultSidebarBlockSubstitutions : List String := defaultSubstitutionsForBlockElements

/-- Even though it is a block of lines, not a block of blocks. -/
def defaultVerseBlockSubstitutions : List String := defaultSubstitutionsForBlockElements

/-- Even though it is a block of lines, not a block of blocks. -/
def defaultParagraphSubstitutions : List String := defaultSubstitutionsForBlockElements

/-- The default of the blocks of lines; `callouts` must be executed before
`specialcharacters`. -/
def defaultSubstitutionsForBlockLines : List String := ["callouts", "specialcharacters"]

def defaultFencedBlockSubstitutions : List String := defaultSubstitutionsForBlockLines

def defaultListingBlockSubstitutions : List String := defaultSubstitutionsForBlockLines

def defaultLiteralBlockSubstitutions : List String := defaultSubstitutionsForBlockLines

def defaultPassthroughBlockSubstitutions : List String := []

def defaultCommentBlockSubstitutions : List String := ["none"]

/-- The Go type `funcs`, a list of step names. -/
abbrev funcs := List String

/-- `funcs.append`. -/
def funcs.append (f : funcs) (others : List String) : funcs := f ++ others

/-- `funcs.prepend`: `append(funcs{other}, f...)`. -/
def funcs.prepend (f : funcs) (other : String) : funcs := [other] ++ f

/-- `funcs.remove`: the list without the first entry equal to `other`, the
list itself when there is none. -/
def funcs.remove (f : funcs) (other : String) : funcs :=
  match f with
  | [] => []
  | s :: rest => if s = other then rest else s :: funcs.remove rest other

/-- `defaultSubstitutionsFor`; a paragraph whose block kind is `Listing` is
treated as a verbatim block. -/
def defaultSubstitutionsFor (block : Element) : List String :=
  match block with
  | .ExampleBlock _ _ => defaultExampleBlockSubstitutions
  | .QuoteBlock _ _ => defaultQuoteBlockSubstitutions
  | .SidebarBlock _ _ => defaultSidebarBlockSubstitutions
  | .FencedBlock _ _ => defaultFencedBlockSubstitutions
  | .ListingBlock _ _ => defaultListingBlockSubstitutions
  | .VerseBlock _ _ => defaultVerseBlockSubstitutions
  | .LiteralBlock _ _ => defaultLiteralBlockSubstitutions
  | .PassthroughBlock _ _ => defaultPassthroughBlockSubstitutions
  | .CommentBlock _ _ => defaultCommentBlockSubstitutions
  | .Paragraph as _ =>
    match GoMap.get as AttrBlockKind with
    | some (.raw (.other "types.BlockKind" "listing")) => defaultListingBlockSubstitutions
    | _ => defaultParagraphSubstitutions
  | _ =>
    -- log.Warnf("unsupported substitutions on block of type: '%T'", block)
    []

/-- The tokens of the first `case` list of `substitutionsFor`: the bare step names. -/
def substitutionsFor.names : List String :=
  ["callouts", "specialcharacters", "specialchars", "quotes", "attributes", "macros",
    "replacements", "post_replacements", "none"]

/-- The tokens of the `case` list of `substitutionsFor` with a leading `+`. -/
def substitutionsFor.appended : List String :=
  ["+callouts", "+specialcharacters", "+specialchars", "+quotes", "+attributes", "+macros",
    "+replacements", "+post_replacements", "+none"]

/-- The tokens of the `case` list of `substitutionsFor` with a trailing `+`. -/
def substitutionsFor.prepended : List String :=
  ["callouts+", "specialcharacters+", "specialchars+", "quotes+", "attributes+", "macros+",
    "replacements+", "post_replacements+", "none+"]

/-- The tokens of the `case` list of `substitutionsFor` with a leading `-`. -/
def substitutionsFor.removed : List String :=
  ["-callouts", "-specialcharacters", "-specialchars", "-quotes", "-attributes", "-macros",
    "-replacements", "-post_replacements", "-none"]

/-- What `substitutionsFor` does at `if len(subs) == 0`: an empty set is
seeded with the defaults of the block. -/
def substitutionsFor.seeded (block : Element) (subs : funcs) : funcs :=
  if subs.length = 0 then funcs.append subs (defaultSubstitutionsFor block) else subs

/-- The body of the first loop of `substitutionsFor`: the `switch` on one
token `s` of the directive, from the accumulated `subs` to the new one. -/
def substitutionsFor.token (block : Element) (subs : funcs) (s : String) : Except String funcs :=
  if s = "" then .ok (funcs.append subs (defaultSubstitutionsFor block))
  else if s = "normal" then
    .ok (funcs.append subs ["inline_passthrough", "specialcharacters", "quotes", "attributes",
      "replacements", "macros", "post_replacements"])
  else if s ∈ substitutionsFor.names then .ok (funcs.append subs [s])
  else if s ∈ substitutionsFor.appended then
    .ok (funcs.append (substitutionsFor.seeded block subs) [ReplaceAllByNothing s '+'])
  else if s ∈ substitutionsFor.prepended then
    .ok (funcs.prepend (substitutionsFor.seeded block subs) (ReplaceAllByNothing s '+'))
  else if s ∈ substitutionsFor.removed then
    .ok (funcs.remove (substitutionsFor.seeded block subs) (ReplaceAllByNothing s '-'))
  else .error ("unsupported substitution: '" ++ s)

/-- The first loop of `substitutionsFor`: the tokens of the directive are
processed in order, up to the first unsupported one; the result is the value
of the local `subs` after the loop. -/
def substitutionsFor.subs (block : Element) (tokens : List String) (subs : funcs) :
    Except String funcs :=
  match tokens with
  | [] => .ok subs
  | s :: rest =>
    match substitutionsFor.token block subs s with
    | .error err => .error err
    | .ok subs => substitutionsFor.subs block rest subs

/-- The second loop of `substitutionsFor`: the implementations of the names
that `substitutions` holds, then `splitLines`. -/
def substitutionsFor.result (subs : funcs) : List elementsSubstitution :=
  subs.filterMap (GoMap.get substitutions) ++ [.splitLines]

/-- `substitutionsFor`. -/
def substitutionsFor (render : Element → String) (block : BlockWithSubstitution) :
    Except String (List elementsSubstitution) :=
  match substitutionsFor.subs block.val
      (Split (block.SubstitutionsToApply render) ',') [] with
  | .error err => .error err
  | .ok subs => .ok (substitutionsFor.result subs)

/-! ## Predicates used to state the properties -/

/-- Whether an element is an attribute declaration or an attribute reset. -/
def Element.isDeclarationOrReset : Element → Bool
  | .AttributeDeclaration _ _ => true
  | .AttributeReset _ => true
  | _ => false

/-- Whether an element of a line is a text element, or an attribute reference
whose name the store resolves to a string. -/
def Element.isTextOrResolved (attrs : AttributesWithOverrides) : Element → Bool
  | .StringElement _ => true
  | .AttributeSubstitution name => (attrs.GetAsString name).2
  | _ => false

/-- The text that a text element or an attribute reference stands for: the
content, or the string the store resolves the name to. -/
def Element.resolvedText (attrs : AttributesWithOverrides) : Element → String
  | .StringElement content => content
  | .AttributeSubstitution name => (attrs.GetAsString name).1
  | _ => ""

/-- The in-order concatenation of the texts of a line. -/
def concatenation (attrs : AttributesWithOverrides) (line : List Element) : String :=
  (line.map (Element.resolvedText attrs)).foldr (· ++ ·) ""

/-- Whether the type switch of `applyCounterSubstitution` has a case for the
value: a Go `int` or a `rune`. -/
def Value.isCounterType : Value → Bool
  | .int _ => true
  | .rune _ => true
  | _ => false

/-- The value a counter name stands for in a store, as `applyCounterSubstitution`
reads it: the stored value, or the integer 0 when nothing (or nil) is stored. -/
def currentCounter (attrs : AttributesWithOverrides) (name : String) : Value :=
  applyCounterSubstitution.counter name .nil attrs

/-- The value of the counter `name` once `applyAttributeSubstitutionsOnElements`
has processed the first `k` elements of the sequence. -/
def storedAfter (elements : List Element) (attrs : AttributesWithOverrides) (name : String)
    (k : Nat) : Value :=
  currentCounter (applyAttributeSubstitutionsOnElements (elements.take k) attrs).2 name

/-- The order of counter values: integers and characters by their number, any
other pair only when the two values are the same. -/
def Value.counterLe : Value → Value → Bool
  | .int a, .int b => decide (a ≤ b)
  | .rune a, .rune b => decide (a ≤ b)
  | a, b => decide (a = b)

/-- Whether the `switch` of `substitutionsFor` has a `case` for the token: the
empty token, `normal`, a supported step name, or a supported step name with a
leading `+`, a trailing `+` or a leading `-`. -/
def substitutionsFor.supported (s : String) : Bool :=
  decide (s = "" ∨ s = "normal" ∨ s ∈ substitutionsFor.names ∨ s ∈ substitutionsFor.appended
    ∨ s ∈ substitutionsFor.prepended ∨ s ∈ substitutionsFor.removed)

/-! ## Footnotes -/

/-- The struct `types.Footnote`. -/
structure Footnote where
  ID : Int
  Ref : String
  Elements : List Element

/-- The struct `types.FootnoteReference`. -/
structure FootnoteReference where
  ID : Int
  Ref : String
  Duplicate : Bool
  deriving DecidableEq, Repr

/-- The struct `sequence`.  Its counter counts calls of `nextVal`, each of
which is followed by the storage of a note: it stays far below `2^63`, so the
wrap of Go's `++` plays no part and the counter is a plain integer here. -/
structure sequence where
  counter : Int
  deriving DecidableEq, Repr

/-- `sequence.nextVal`: the counter is incremented and returned. -/
def sequence.nextVal (s : sequence) : Int × sequence :=
  (s.counter + 1, { counter := s.counter + 1 })

/-- The struct `types.Footnotes`. -/
structure Footnotes where
  sequence : sequence
  notes : List Footnote

/-- `NewFootnotes`. -/
def NewFootnotes : Footnotes := { sequence := { counter := 0 }, notes := [] }

/-- The loop of `Footnotes.indexOf` over the stored notes. -/
def Footnotes.indexOf.loop (notes : List Footnote) (actual : Footnote) : Int × Bool :=
  match notes with
  | [] => (-1, false)
  | note :: rest => if note.Ref = actual.Ref then (note.ID, true) else indexOf.loop rest actual

/-- `Footnotes.indexOf`: the ID of the first stored note with the reference
name of the given note. -/
def Footnotes.indexOf (f : Footnotes) (actual : Footnote) : Int × Bool :=
  Footnotes.indexOf.loop f.notes actual

/-- `types.InvalidFootnoteReference`. -/
def InvalidFootnoteReference : Int := -1

/-- `Footnotes.Reference`: the reference that replaces the note, and the
collector after the call. -/
def Footnotes.Reference (f : Footnotes) (note : Footnote) : FootnoteReference × Footnotes :=
  if note.Elements.length > 0 then
    let (id, sequence) := f.sequence.nextVal
    let note := { note with ID := id }
    ({ ID := note.ID, Ref := note.Ref, Duplicate := false },
      { sequence := sequence, notes := f.notes ++ [note] })
  else
    match f.indexOf note with
    | (id, true) => ({ ID := id, Ref := note.Ref, Duplicate := true }, f)
    | (_, false) =>
      -- logrus.Warnf("no footnote with reference '%s'", note.Ref)
      ({ ID := InvalidFootnoteReference, Ref := note.Ref, Duplicate := false }, f)

/-- A sequence of calls of `Footnotes.Reference`, in order: the references
they return and the collector after the last call. -/
def Footnotes.References (f : Footnotes) (calls : List Footnote) :
    List FootnoteReference × Footnotes :=
  match calls with
  | [] => ([], f)
  | note :: rest =>
    let (ref, f) := f.Reference note
    let (refs, f) := Footnotes.References f rest
    (ref :: refs, f)

/-- Whether a footnote has content. -/
def Footnote.hasContent (note : Footnote) : Bool := decide (note.Elements.length > 0)

/-! ## The placeholder codec -/

/-- The struct `types.ElementPlaceHolder`, as returned by `placeholders.add`. -/
structure ElementPlaceHolder where
  Ref : String
  deriving DecidableEq, Repr

/-- `ElementPlaceHolder.String`: the reference between two U+FFFD. -/
def ElementPlaceHolder.String (p : ElementPlaceHolder) : String :=
  "\uFFFD" ++ p.Ref ++ "\uFFFD"

/-- The struct `placeholders`: the sequence number and the table of the
elements that were replaced, by reference.  The Go `int` sequence number is
an integer here: it grows by one per element of the lines in memory, so the
wrap at 2^63 plays no part. -/
structure placeholders where
  seq : Int
  elements : GoMap Element

/-- `newPlaceHolders`. -/
def newPlaceHolders : placeholders := { seq := 0, elements := [] }

/-- `placeholders.add`: the placeholder of the element, and the table that
holds the element under the next sequence number. -/
def placeholders.add (p : placeholders) (element : Element) : ElementPlaceHolder × placeholders :=
  ({ Ref := Itoa (p.seq + 1) },
    { seq := p.seq + 1, elements := GoMap.set p.elements (Itoa (p.seq + 1)) element })

/-- The inner loop of `serializeLines` over the elements of one line: the
text written so far and the table.  A text element writes its content, any
other element (a single-line comment as well) is added to the table and
writes its placeholder. -/
def serializeLines.line (line : List Element) (result : String) (p : placeholders) :
    String × placeholders :=
  match line with
  | [] => (result, p)
  | .StringElement Content :: rest => serializeLines.line rest (result ++ Content) p
  | e :: rest => serializeLines.line rest (result ++ (p.add e).1.String) (p.add e).2

/-- The outer loop of `serializeLines`: a newline is written after every line
but the last one (`i < len(lines)-1`). -/
def serializeLines.lines (lines : List (List Element)) (result : String) (p : placeholders) :
    String × placeholders :=
  match lines with
  | [] => (result, p)
  | line :: rest =>
    let r := serializeLines.line line result p
    serializeLines.lines rest (if rest.length > 0 then r.1 ++ "\n" else r.1) r.2

/-- `serializeLines`: the text of the lines and the table after the call. -/
def serializeLines (lines : List (List Element)) (p : placeholders) : String × placeholders :=
  serializeLines.lines lines "" p

mutual
/-- `restoreElements`: the placeholders are replaced with their original
element.  The source tests `len(placeholders.elements) == 0` once and then
loops; the nested calls come with the same table, so the test is repeated
here at every element without a change of the result (see
`restoreElements_eq`).  The source writes into the slice it was given; the
value returned is the one described here. -/
def restoreElements (elmts : List Element) (p : placeholders) : List Element :=
  match elmts with
  | [] => []
  | elmt :: rest =>
    if p.elements.length = 0 then elmt :: rest
    else restoreElements.element elmt p :: restoreElements rest p
/-- The type switch of `restoreElements` on one element; a reference that is
not a key of the table reads the zero value of the map, nil. -/
def restoreElements.element (elmt : Element) (p : placeholders) : Element :=
  match elmt with
  | .ElementPlaceHolder Ref => (GoMap.get p.elements Ref).getD (.raw .nil)
  | .Paragraph Attributes Lines => .Paragraph Attributes (restoreElements.lines Lines p)
  | .InlineLink Scheme Path Attributes =>
    .InlineLink Scheme (restoreElements Path p) (restoreAttributes Attributes p)
  | .QuotedText Kind Elements Attributes =>
    .QuotedText Kind (restoreElements Elements p) (restoreAttributes Attributes p)
  | .QuotedString Kind Elements => .QuotedString Kind (restoreElements Elements p)
  | .IndexTerm Term => .IndexTerm (restoreElements Term p)
  | .ExternalCrossReference Scheme Path Label =>
    .ExternalCrossReference Scheme Path (restoreElements Label p)
  | .Footnote ID Ref Elements => .Footnote ID Ref (restoreElements Elements p)
  | .ElementRole elements => .ElementRole (restoreElements elements p)
  | .slice elements => .slice (restoreElements elements p)
  | .raw v => .raw v
  | .StringElement Content => .StringElement Content
  | .SingleLineComment Content => .SingleLineComment Content
  | .BlankLine => .BlankLine
  | .LineBreak => .LineBreak
  | .SpecialCharacter Name => .SpecialCharacter Name
  | .AttributeDeclaration Name Value => .AttributeDeclaration Name Value
  | .AttributeReset Name => .AttributeReset Name
  | .AttributeSubstitution Name => .AttributeSubstitution Name
  | .PredefinedAttribute Name => .PredefinedAttribute Name
  | .CounterSubstitution Name Hidden Value => .CounterSubstitution Name Hidden Value
  | .ImageBlock Scheme Path Attributes => .ImageBlock Scheme Path Attributes
  | .Section Level Attributes Title Elements => .Section Level Attributes Title Elements
  | .OrderedListItem Attributes Level Style Elements =>
    .OrderedListItem Attributes Level Style Elements
  | .UnorderedListItem Level BulletStyle CheckStyle Attributes Elements =>
    .UnorderedListItem Level BulletStyle CheckStyle Attributes Elements
  | .LabeledListItem Term Level Attributes Elements =>
    .LabeledListItem Term Level Attributes Elements
  | .ContinuedListItemElement Offset Element => .ContinuedListItemElement Offset Element
  | .ExampleBlock Attributes Elements => .ExampleBlock Attributes Elements
  | .QuoteBlock Attributes Elements => .QuoteBlock Attributes Elements
  | .SidebarBlock Attributes Elements => .SidebarBlock Attributes Elements
  | .FencedBlock Attributes Lines => .FencedBlock Attributes Lines
  | .ListingBlock Attributes Lines => .ListingBlock Attributes Lines
  | .VerseBlock Attributes Lines => .VerseBlock Attributes Lines
  | .MarkdownQuoteBlock Attributes Lines => .MarkdownQuoteBlock Attributes Lines
  | .PassthroughBlock Attributes Lines => .PassthroughBlock Attributes Lines
  | .CommentBlock Attributes Lines => .CommentBlock Attributes Lines
  | .LiteralBlock Attributes Lines => .LiteralBlock Attributes Lines
  | .InlineImage Scheme Path Attributes => .InlineImage Scheme Path Attributes
  | .InternalCrossReference ID Label => .InternalCrossReference ID Label
  | .InlinePassthrough Kind Elements => .InlinePassthrough Kind Elements
  | .FootnoteReference ID Ref Duplicate => .FootnoteReference ID Ref Duplicate
/-- The loop of `restoreElements` over the lines of a paragraph. -/
def restoreElements.lines (lines : List (List Element)) (p : placeholders) :
    List (List Element) :=
  match lines with
  | [] => []
  | line :: rest => restoreElements line p :: restoreElements.lines rest p
/-- `restoreAttributes`: the placeholders are replaced with their original
element in the values of the attributes. -/
def restoreAttributes (attrs : List (String × Element)) (p : placeholders) :
    List (String × Element) :=
  match attrs with
  | [] => []
  | (key, value) :: rest => (key, restoreAttributes.value value p) :: restoreAttributes rest p
/-- The type switch of `restoreAttributes` on one value. -/
def restoreAttributes.value (value : Element) (p : placeholders) : Element :=
  match value with
  | .ElementPlaceHolder Ref => (GoMap.get p.elements Ref).getD (.raw .nil)
  | .ElementRole elements => .ElementRole (restoreElements elements p)
  | .slice elements => .slice (restoreElements elements p)
  | .raw v => .raw v
  | .StringElement Content => .StringElement Content
  | .SingleLineComment Content => .SingleLineComment Content
  | .BlankLine => .BlankLine
  | .LineBreak => .LineBreak
  | .SpecialCharacter Name => .SpecialCharacter Name
  | .AttributeDeclaration Name Value => .AttributeDeclaration Name Value
  | .AttributeReset Name => .AttributeReset Name
  | .AttributeSubstitution Name => .AttributeSubstitution Name
  | .PredefinedAttribute Name => .PredefinedAttribute Name
  | .CounterSubstitution Name Hidden Value => .CounterSubstitution Name Hidden Value
  | .Paragraph Attributes Lines => .Paragraph Attributes Lines
  | .ImageBlock Scheme Path Attributes => .ImageBlock Scheme Path Attributes
  | .Section Level Attributes Title Elements => .Section Level Attributes Title Elements
  | .OrderedListItem Attributes Level Style Elements =>
    .OrderedListItem Attributes Level Style Elements
  | .UnorderedListItem Level BulletStyle CheckStyle Attributes Elements =>
    .UnorderedListItem Level BulletStyle CheckStyle Attributes Elements
  | .LabeledListItem Term Level Attributes Elements =>
    .LabeledListItem Term Level Attributes Elements
  | .ContinuedListItemElement Offset Element => .ContinuedListItemElement Offset Element
  | .ExampleBlock Attributes Elements => .ExampleBlock Attributes Elements
  | .QuoteBlock Attributes Elements => .QuoteBlock Attributes Elements
  | .SidebarBlock Attributes Elements => .SidebarBlock Attributes Elements
  | .FencedBlock Attributes Lines => .FencedBlock Attributes Lines
  | .ListingBlock Attributes Lines => .ListingBlock Attributes Lines
  | .VerseBlock Attributes Lines => .VerseBlock Attributes Lines
  | .MarkdownQuoteBlock Attributes Lines => .MarkdownQuoteBlock Attributes Lines
  | .PassthroughBlock Attributes Lines => .PassthroughBlock Attributes Lines
  | .CommentBlock Attributes Lines => .CommentBlock Attributes Lines
  | .LiteralBlock Attributes Lines => .LiteralBlock Attributes Lines
  | .InlineImage Scheme Path Attributes => .InlineImage Scheme Path Attributes
  | .InlineLink Scheme Path Attributes => .InlineLink Scheme Path Attributes
  | .ExternalCrossReference Scheme Path Label => .ExternalCrossReference Scheme Path Label
  | .InternalCrossReference ID Label => .InternalCrossReference ID Label
  | .QuotedText Kind Elements Attributes => .QuotedText Kind Elements Attributes
  | .QuotedString Kind Elements => .QuotedString Kind Elements
  | .InlinePassthrough Kind Elements => .InlinePassthrough Kind Elements
  | .IndexTerm Term => .IndexTerm Term
  | .Footnote ID Ref Elements => .Footnote ID Ref Elements
  | .FootnoteReference ID Ref Duplicate => .FootnoteReference ID Ref Duplicate
end


/-! ## The grammar-backed steps and the line-splitting step -/

/-- The generated parser `ParseReader(filename, reader, options...)` is not
under src: it is a parameter.  Its arguments here are the file name, the
content of the reader, the value of the global store entry `imagesdir` when
the option `GlobalStore("imagesdir", ..)` is passed, and the name of the
entry point, the option `Entrypoint(..)` that every call passes. -/
abbrev Grammar := String → String → Option String → String → Except String Element

/-- Modelled from the spec: the method
`AttributesWithOverrides.GetAsStringWithDefault` is not under src.  An
override always takes precedence over a live declaration; without an override
the live mapping answers, through `Attributes.GetAsStringWithDefault`. -/
def AttributesWithOverrides.GetAsStringWithDefault (a : AttributesWithOverrides)
    (key defaultValue : String) : String :=
  match GoMap.get a.Overrides key with
  | some value => value
  | none => Attributes.GetAsStringWithDefault a.Content key defaultValue

/-- `parseContent`: the content goes through the grammar; a result that is a
slice of elements is merged, any other result is returned as the one element
of a slice.  An error is wrapped (`errors.Wrapf`). -/
def parseContent (ParseReader : Grammar) (filename content imagesdir entrypoint : String) :
    Except String (List Element) :=
  match ParseReader filename content (some imagesdir) entrypoint with
  | .error err => .error ("unable to parse '" ++ content ++ "': " ++ err)
  | .ok (.slice result) => .ok (Merge result)
  | .ok result => .ok [result]

/-- `parserPlaceHolderElements`: the text elements are parsed, the other
elements are kept. -/
def parserPlaceHolderElements (ParseReader : Grammar) (elements : List Element)
    (imagesdir entrypoint : String) : Except String (List Element) :=
  match elements with
  | [] => .ok []
  | .StringElement Content :: rest =>
    match parseContent ParseReader "" Content imagesdir entrypoint with
    | .error err => .error err
    | .ok elmts =>
      match parserPlaceHolderElements ParseReader rest imagesdir entrypoint with
      | .error err => .error err
      | .ok result => .ok (elmts ++ result)
  | element :: rest =>
    match parserPlaceHolderElements ParseReader rest imagesdir entrypoint with
    | .error err => .error err
    | .ok result => .ok (element :: result)

/-- The loop of a grammar-backed step over the table of placeholders: the
elements of a quoted string and of a quoted text are parsed under the
placeholder rule and written back under the same reference.  `todo` is what
is left of the entries to visit (the entries of the table when the loop
starts, in the order of the table: Go visits a map in an unspecified order,
which shows only in which error is returned when several entries fail). -/
def newElementsSubstitution.placeholders (ParseReader : Grammar)
    (imagesdir placeholderRuleName : String) (todo : List (String × Element))
    (elements : GoMap Element) : Except String (GoMap Element) :=
  match todo with
  | [] => .ok elements
  | (ref, .QuotedString Kind Elements) :: rest =>
    match parserPlaceHolderElements ParseReader Elements imagesdir placeholderRuleName with
    | .error err => .error err
    | .ok Elements =>
      newElementsSubstitution.placeholders ParseReader imagesdir placeholderRuleName rest
        (GoMap.set elements ref (.QuotedString Kind Elements))
  | (ref, .QuotedText Kind Elements Attributes) :: rest =>
    match parserPlaceHolderElements ParseReader Elements imagesdir placeholderRuleName with
    | .error err => .error err
    | .ok Elements =>
      newElementsSubstitution.placeholders ParseReader imagesdir placeholderRuleName rest
        (GoMap.set elements ref (.QuotedText Kind Elements Attributes))
  | _ :: rest =>
    newElementsSubstitution.placeholders ParseReader imagesdir placeholderRuleName rest elements

/-- `newElementsSubstitution(contentRuleName, placeholderRuleName)`: the step
that serializes the lines, parses the text under the content rule and
restores the placeholders in the elements that come back; these elements are
the one line of the result. -/
def newElementsSubstitution (ParseReader : Grammar) (contentRuleName placeholderRuleName : String)
    (lines : List (List Element)) (attrs : AttributesWithOverrides) :
    Except String (List (List Element)) :=
  let s := serializeLines lines newPlaceHolders
  let imagesdirOption := attrs.GetAsStringWithDefault "imagesdir" ""
  match newElementsSubstitution.placeholders ParseReader imagesdirOption placeholderRuleName
      s.2.elements s.2.elements with
  | .error err => .error err
  | .ok elements =>
    match parseContent ParseReader "" s.1 imagesdirOption contentRuleName with
    | .error err => .error err
    | .ok elmts => .ok [restoreElements elmts { seq := s.2.seq, elements := elements }]

/-- The step `substituteNone`, which is
`newElementsSubstitution("NoneSubs", "NoneSubs")`. -/
def substituteNone (ParseReader : Grammar) (lines : List (List Element))
    (attrs : AttributesWithOverrides) : Except String (List (List Element)) :=
  newElementsSubstitution ParseReader "NoneSubs" "NoneSubs" lines attrs

/-- The loop of `splitLines` over the pieces of one text element, split at the
newlines: a piece that is not empty is appended to the pending line, and the
pending line is closed after every piece but the last one. -/
def splitLines.pieces (split : List String) (result : List (List Element))
    (pendingLine : List Element) : List (List Element) × List Element :=
  match split with
  | [] => (result, pendingLine)
  | s :: rest =>
    let pendingLine := if s.length > 0 then pendingLine ++ [.StringElement s] else pendingLine
    if rest.length > 0 then splitLines.pieces rest (result ++ [pendingLine]) []
    else splitLines.pieces rest result pendingLine

/-- The loop of `splitLines` over the elements of one line. -/
def splitLines.line (line : List Element) (result : List (List Element))
    (pendingLine : List Element) : List (List Element) × List Element :=
  match line with
  | [] => (result, pendingLine)
  | .StringElement Content :: rest =>
    let r := splitLines.pieces (Split Content '\n') result pendingLine
    splitLines.line rest r.1 r.2
  | element :: rest => splitLines.line rest result (pendingLine ++ [element])

/-- The loop of `splitLines` over the lines: the pending line is appended at
the end of every line. -/
def splitLines.lines (lines : List (List Element)) (result : List (List Element)) :
    List (List Element) :=
  match lines with
  | [] => result
  | line :: rest =>
    let r := splitLines.line line result []
    splitLines.lines rest (r.1 ++ [r.2])

/-- `splitLines`: every text element is split at its newlines, which close
the line; the attributes are not used. -/
def splitLines (lines : List (List Element)) (_attrs : AttributesWithOverrides) :
    Except String (List (List Element)) :=
  .ok (splitLines.lines lines [])

/-! ## Predicates used to state the properties of the placeholder codec -/

/-- Whether an element is a text element. -/
def Element.isStringElement : Element → Bool
  | .StringElement _ => true
  | _ => false

/-- The elements of a line that are not text elements, from left to right. -/
def nonTextElementsOf (line : List Element) : List Element :=
  line.filter fun e => !e.isStringElement

/-- The elements of the lines that are not text elements, in reading order. -/
def nonTextElements (lines : List (List Element)) : List Element :=
  nonTextElementsOf lines.flatten

/-- The reference token of the `k`-th element: U+FFFD, the decimal numeral of
`k`, U+FFFD. -/
def referenceToken (k : Nat) : String := "\uFFFD" ++ Itoa k ++ "\uFFFD"

/-- In the words of the spec, the text of one line when `seen` elements that
are not text came before it: a text element contributes its content, the next
element that is not text contributes its reference token. -/
def lineText (seen : Nat) : List Element → String
  | [] => ""
  | .StringElement Content :: rest => Content ++ lineText seen rest
  | _ :: rest => referenceToken (seen + 1) ++ lineText (seen + 1) rest

/-- In the words of the spec, the texts of the lines, one per line. -/
def lineTexts (seen : Nat) : List (List Element) → List String
  | [] => []
  | line :: rest => lineText seen line :: lineTexts (seen + (nonTextElementsOf line).length) rest

/-- The texts joined by single newlines, none after the last one. -/
def joinedByNewlines : List String → String
  | [] => ""
  | [a] => a
  | a :: b :: rest => a ++ "\n" ++ joinedByNewlines (b :: rest)

/-- The table that maps the numerals of `seen + 1`, `seen + 2`, ... to the
given elements, in this order. -/
def numberedTable (seen : Nat) : List Element → GoMap Element
  | [] => []
  | e :: es => (Itoa ((seen + 1 : Nat) : Int), e) :: numberedTable (seen + 1) es

/-- An element of a sequence that came back from the grammar, made of texts
and of references to the table: the text element of a text, the placeholder
with the numeral of the number as reference. -/
def reparsedElement : String ⊕ Nat → Element
  | .inl text => .StringElement text
  | .inr k => .ElementPlaceHolder (Itoa (k : Int))

/-- What `reparsedElement` is expected to be restored to when `es` are the
elements that were replaced: the text element itself, the `k`-th of the
elements for the reference `k`. -/
def expectedElement (es : List Element) : String ⊕ Nat → Option Element
  | .inl text => some (.StringElement text)
  | .inr k => es[k - 1]?

/-- The number of newlines in an element of a line: those of the content of a
text element, none for any other element. -/
def Element.newlines : Element → Nat
  | .StringElement Content => Content.data.count '\n'
  | _ => 0

/-- Whether no text element of the line is empty or holds a newline. -/
def isSplit (line : List Element) : Prop :=
  ∀ Content : String, Element.StringElement Content ∈ line →
    Content ≠ "" ∧ '\n' ∉ Content.data

/-! ## The preamble -/

/-- The struct `types.Preamble`. -/
structure Preamble where
  Elements : List Element

/-- The loop of `Preamble.HasContent`: a blank line is skipped, any other
element returns `true`. -/
def Preamble.HasContent.loop : List Element → Bool
  | [] => false
  | .BlankLine :: rest => Preamble.HasContent.loop rest
  | _ :: _ => true

/-- `Preamble.HasContent`. -/
def Preamble.HasContent (p : Preamble) : Bool :=
  Preamble.HasContent.loop p.Elements

/-- Whether an element is a blank line. -/
def Element.isBlankLine : Element → Bool
  | .BlankLine => true
  | _ => false

/-! ## Running the steps -/

/-- The loop of `substituteAttributes` over the lines that came back from the
grammar: every line goes through `applyAttributeSubstitutionsOnElements` and
then through `types.Merge`. -/
def substituteAttributes.lines (lines : List (List Element)) (attrs : AttributesWithOverrides) :
    Resolved (List (List Element)) :=
  match lines with
  | [] => (.ok [], attrs)
  | line :: rest =>
    match applyAttributeSubstitutionsOnElements line attrs with
    | (.error err, attrs) => (.error err, attrs)
    | (.ok line, attrs) => Resolved.map (Merge line :: ·) (substituteAttributes.lines rest attrs)

/-- The step `substituteAttributes`: the step
`newElementsSubstitution("AttributeSubs", "AttributeSubs")`, then the
resolution of the attribute and counter references of every line. -/
def substituteAttributes (ParseReader : Grammar) (lines : List (List Element))
    (attrs : AttributesWithOverrides) : Resolved (List (List Element)) :=
  match newElementsSubstitution ParseReader "AttributeSubs" "AttributeSubs" lines attrs with
  | .error err => (.error err, attrs)
  | .ok lines => substituteAttributes.lines lines attrs

/-- The function that a value of type `elementsSubstitution` stands for.  A
step built by `newElementsSubstitution` and `splitLines` leave the store as
it is. -/
def elementsSubstitution.apply (ParseReader : Grammar) (sub : elementsSubstitution)
    (lines : List (List Element)) (attrs : AttributesWithOverrides) :
    Resolved (List (List Element)) :=
  match sub with
  | .substituteInlinePassthrough =>
    (newElementsSubstitution ParseReader "InlinePassthroughSubs" "InlinePassthroughSubs" lines
      attrs, attrs)
  | .substituteSpecialCharacters =>
    (newElementsSubstitution ParseReader "SpecialCharacterSubs" "SpecialCharacterSubs" lines
      attrs, attrs)
  | .substituteQuotedTexts =>
    (newElementsSubstitution ParseReader "QuotedTextSubs" "QuotedTextSubs" lines attrs, attrs)
  | .substituteReplacements =>
    (newElementsSubstitution ParseReader "ReplacementSubs" "ReplacementSubs" lines attrs, attrs)
  | .substituteInlineMacros =>
    (newElementsSubstitution ParseReader "InlineMacroSubs" "InlineMacroSubs" lines attrs, attrs)
  | .substitutePostReplacements =>
    (newElementsSubstitution ParseReader "PostReplacementSubs" "PostReplacementSubs" lines
      attrs, attrs)
  | .substituteNone => (Libasciidoc.substituteNone ParseReader lines attrs, attrs)
  | .substituteCallouts =>
    (newElementsSubstitution ParseReader "CalloutSubs" "CalloutSubs" lines attrs, attrs)
  | .substituteAttributes => Libasciidoc.substituteAttributes ParseReader lines attrs
  | .splitLines => (Libasciidoc.splitLines lines attrs, attrs)

/-- `applySubstitutionsOnLines`: the steps run one after the other, each one
on the lines of the one before, up to the first error. -/
def applySubstitutionsOnLines (ParseReader : Grammar) (lines : List (List Element))
    (subs : List elementsSubstitution) (attrs : AttributesWithOverrides) :
    Resolved (List (List Element)) :=
  match subs with
  | [] => (.ok lines, attrs)
  | sub :: rest =>
    match sub.apply ParseReader lines attrs with
    | (.error err, attrs) => (.error err, attrs)
    | (.ok lines, attrs) => applySubstitutionsOnLines ParseReader lines rest attrs

/-! ## Markdown quote blocks -/

/-- `types.AttrQuoteAuthor`. -/
def AttrQuoteAuthor : String := "quoteAuthor"

/-- `extractMarkdownQuoteAttribution`: the lines that stay and the author.
The result is `none` when the call stops with a run-time panic, at the index
expression `lines[len(lines)-1][0]` on a last line without element. -/
def extractMarkdownQuoteAttribution (ParseReader : Grammar) (lines : List (List Element)) :
    Option (List (List Element) × String) :=
  match lines.getLast? with
  | none => some (lines, "")
  | some [] => none
  | some (.StringElement Content :: _) =>
    match ParseReader "" Content none "MarkdownQuoteAttribution" with
    | .error _ => some (lines, "")
    | .ok (.raw (.str a)) => some (lines.dropLast, a)
    | .ok _ => some (lines, "")
  | some (_ :: _) => some (lines, "")

/-- The second half of `applySubstitutionsOnMarkdownQuoteBlock`, after the
attribution was looked for: a block that has no line left is returned as it
is, otherwise the eight steps run on its lines; an error comes with the zero
value of the block. -/
def applySubstitutionsOnMarkdownQuoteBlock.substitute (ParseReader : Grammar)
    (Attributes : List (String × Element)) (Lines : List (List Element))
    (attrs : AttributesWithOverrides) : Resolved Element :=
  if Lines.length = 0 then (.ok (.MarkdownQuoteBlock Attributes []), attrs)
  else
    match applySubstitutionsOnLines ParseReader Lines
        [.substituteInlinePassthrough, .substituteSpecialCharacters, .substituteQuotedTexts,
          .substituteAttributes, .substituteReplacements, .substituteInlineMacros,
          .substitutePostReplacements, .splitLines] attrs with
    | (.error err, attrs) => (.error err, attrs)
    | (.ok Lines, attrs) => (.ok (.MarkdownQuoteBlock Attributes Lines), attrs)

/-- `applySubstitutionsOnMarkdownQuoteBlock`, on the fields `Attributes` and
`Lines` of the block: an author that is not empty is written to the
attributes of the block.  The result is `none` when the call stops with a
run-time panic. -/
def applySubstitutionsOnMarkdownQuoteBlock (ParseReader : Grammar)
    (Attributes : List (String × Element)) (Lines : List (List Element))
    (attrs : AttributesWithOverrides) : Option (Resolved Element) :=
  match extractMarkdownQuoteAttribution ParseReader Lines with
  | none => none
  | some (Lines, author) =>
    some (applySubstitutionsOnMarkdownQuoteBlock.substitute ParseReader
      (if author ≠ "" then GoMap.set Attributes AttrQuoteAuthor (.raw (.str author))
        else Attributes)
      Lines attrs)

/-- The texts of the lines, each one followed by a newline, when `seen`
elements that are not text came before the lines. -/
def closedText (seen : Nat) : List (List Element) → String
  | [] => ""
  | line :: rest =>
    lineText seen line ++ "\n" ++ closedText (seen + (nonTextElementsOf line).length) rest

/-- Whether the type switch of `applyAttributeSubstitutionsOnElement` has a
case for the element; the other elements go to `default`. -/
def Element.hasResolverCase : Element → Bool
  | .Paragraph _ _ => true
  | .AttributeDeclaration _ _ => true
  | .AttributeReset _ => true
  | .ImageBlock _ _ _ => true
  | .Section _ _ _ _ => true
  | .OrderedListItem _ _ _ _ => true
  | .UnorderedListItem _ _ _ _ _ => true
  | .LabeledListItem _ _ _ _ => true
  | .ContinuedListItemElement _ _ => true
  | .ExampleBlock _ _ => true
  | .QuoteBlock _ _ => true
  | .SidebarBlock _ _ => true
  | .FencedBlock _ _ => true
  | .ListingBlock _ _ => true
  | .VerseBlock _ _ => true
  | .MarkdownQuoteBlock _ _ => true
  | .PassthroughBlock _ _ => true
  | .CommentBlock _ _ => true
  | .LiteralBlock _ _ => true
  | .AttributeSubstitution _ => true
  | .CounterSubstitution _ _ _ => true
  | .InlineImage _ _ _ => true
  | .InlineLink _ _ _ => true
  | .ExternalCrossReference _ _ _ => true
  | .QuotedText _ _ _ => true
  | _ => false

/-! ## The raw document and its attributes -/

/-- `types.AttrID`. -/
def AttrID : String := "id"

/-- `types.AttrCustomID`. -/
def AttrCustomID : String := "@customID"

/-- `types.AttrAuthors`. -/
def AttrAuthors : String := "authors"

/-- `types.AttrRevision`. -/
def AttrRevision : String := "revision"

/-- What the code reaches outside of src, as parameters: the generated parser
and library functions, together with the functions of the repository that
work on Go types without a value in this embedding. -/
structure Library where
  /-- The generated parser. -/
  ParseReader : Grammar
  /-- `fmt.Sprintf("%v", e)` on an element. -/
  render : Element → String
  /-- `fmt.Sprintf("%s", e)` on an element. -/
  renderS : Element → String
  /-- The type assertion `.([]DocumentAuthor)` on the value of a section
  attribute followed by `expandAuthors`: the attributes of the authors, `none`
  when the value is not of this type. -/
  expandAuthors : Element → Option Attributes
  /-- The type assertion `.(DocumentRevision)` on the value of a section
  attribute followed by `expandRevision`. -/
  expandRevision : Element → Option Attributes
  /-- `types.ReplaceNonAlphanumerics`, which is not under src. -/
  ReplaceNonAlphanumerics : List Element → String → Except String String
  /-- `url.Parse` followed by `IsAbs`: `none` when the URL does not parse. -/
  urlIsAbs : String → Option Bool
  /-- `filepath.Base`. -/
  Base : String → String
  /-- `filepath.Ext`. -/
  Ext : String → String
  /-- `AttributesWithOverrides.All`, which is not under src and of which the
  spec says nothing. -/
  All : AttributesWithOverrides → Attributes

/-- `Attributes.Set`. -/
def Attributes.Set (a : Attributes) (key : String) (value : Value) : Attributes :=
  GoMap.set a key value

/-- `Attributes.Add`: every entry of `attrs` is written to `a`, and the flag
`@customID` is set when one of them is the ID.  The entries are visited in the
order of the list (Go visits a map in an unspecified order). -/
def Attributes.Add (a : Attributes) (attrs : Attributes) : Attributes :=
  match attrs with
  | [] => a
  | (k, v) :: rest =>
    Attributes.Add
      (if k = AttrID then GoMap.set (GoMap.set a k v) AttrCustomID (.bool true)
        else GoMap.set a k v)
      rest

/-- The struct `types.FrontMatter`. -/
structure FrontMatter where
  Content : GoMap Value

/-- The struct `types.RawDocument`. -/
structure RawDocument where
  FrontMatter : FrontMatter
  Elements : List Element

/-- What a section of level 0 adds to the attributes of the document: the
attributes of its authors, then those of its revision. -/
def RawDocument.Attributes.section (lib : Library) (SectionAttributes : List (String × Element))
    (result : Attributes) : Attributes :=
  let result :=
    match (GoMap.get SectionAttributes AttrAuthors).bind lib.expandAuthors with
    | some authors => result.Add authors
    | none => result
  match (GoMap.get SectionAttributes AttrRevision).bind lib.expandRevision with
  | some revision => result.Add revision
  | none => result

/-- The loop of `RawDocument.Attributes`: a section of level 0 and an
attribute declaration are read and the loop goes on; any other element, a
section of another level among them, ends the loop. -/
def RawDocument.Attributes.loop (lib : Library) (elements : List Element)
    (result : Attributes) : Attributes :=
  match elements with
  | [] => result
  | .Section Level SectionAttributes _ _ :: rest =>
    if Level = 0 then
      RawDocument.Attributes.loop lib rest
        (RawDocument.Attributes.section lib SectionAttributes result)
    else result
  | .AttributeDeclaration Name Value :: rest =>
    RawDocument.Attributes.loop lib rest (result.Set Name (.str Value))
  | _ :: _ => result

/-- `RawDocument.Attributes`: the attributes that the call returns. -/
def RawDocument.Attributes (lib : Library) (d : RawDocument) : Attributes :=
  RawDocument.Attributes.loop lib d.Elements []

/-- Whether the loop of `RawDocument.Attributes` goes on after the element: an
attribute declaration or a section of level 0. -/
def Element.isDocumentHeader : Element → Bool
  | .AttributeDeclaration _ _ => true
  | .Section Level _ _ _ => decide (Level = 0)
  | _ => false

/-- Whether the element is a section of level 0 that holds authors or a
revision to expand. -/
def Element.expands (lib : Library) : Element → Bool
  | .Section _ SectionAttributes _ _ =>
    ((GoMap.get SectionAttributes AttrAuthors).bind lib.expandAuthors).isSome
      || ((GoMap.get SectionAttributes AttrRevision).bind lib.expandRevision).isSome
  | _ => false

/-- The value of the last declaration of the name among the elements. -/
def lastDeclaration (name : String) : List Element → Option String
  | [] => none
  | .AttributeDeclaration Name Value :: rest =>
    match lastDeclaration name rest with
    | some later => some later
    | none => if Name = name then some Value else none
  | _ :: rest => lastDeclaration name rest

/-- A library to evaluate the functions on given documents: its parser
returns the content as one text element, and nothing is expanded. -/
def exampleLibrary : Library where
  ParseReader := fun _ content _ _ => .ok (.StringElement content)
  render := fun _ => ""
  renderS := fun _ => ""
  expandAuthors := fun _ => none
  expandRevision := fun _ => none
  ReplaceNonAlphanumerics := fun _ _ => .ok ""
  urlIsAbs := fun _ => some false
  Base := fun s => s
  Ext := fun _ => ""
  All := fun attrs => attrs.Content

/-! ## Applying the substitutions on a document -/

/-- `types.AttrIDPrefix`. -/
def AttrIDPrefix : String := "idprefix"

/-- `types.DefaultIDPrefix`. -/
def DefaultIDPrefix : String := "_"

/-- `types.AttrIDSeparator`. -/
def AttrIDSeparator : String := "idseparator"

/-- `types.DefaultIDSeparator`. -/
def DefaultIDSeparator : String := "_"

/-- `types.AttrImageAlt`. -/
def AttrImageAlt : String := "alt"

/-- `Attributes.GetAsBool` on the attributes of an element. -/
def ElementAttributes.GetAsBool (a : ElementAttributes) (key : String) : Bool :=
  match GoMap.get a key with
  | some (.raw (.bool v)) => v
  | _ => false

/-- `Attributes.Has` on the attributes of an element. -/
def ElementAttributes.Has (a : ElementAttributes) (key : String) : Bool :=
  (GoMap.get a key).isSome

/-- Go `delete(m, k)`. -/
def GoMap.delete {V : Type} (m : GoMap V) (k : String) : GoMap V :=
  m.filter fun kv => decide (kv.1 ≠ k)

/-- Modelled from the spec: the method `AttributesWithOverrides.Add` is not
under src.  The store is seeded with the given attributes: each of them is
declared in the live mapping, and the overrides are not touched. -/
def AttributesWithOverrides.Add (a : AttributesWithOverrides) (attrs : Attributes) :
    AttributesWithOverrides :=
  match attrs with
  | [] => a
  | (k, v) :: rest => AttributesWithOverrides.Add (a.Set k v) rest

/-- The struct `configuration.Configuration`, with the one field that
`ApplySubstitutions` reads. -/
structure Configuration where
  AttributeOverrides : GoMap String

/-- The struct `types.DraftDocument`. -/
structure DraftDocument where
  Attributes : Attributes
  FrontMatter : FrontMatter
  Elements : List Element

/-- The attributes of a section of level 0 after `RawDocument.Attributes`:
the authors and the revision that were expanded are deleted from the map,
which the section of the document shares. -/
def RawDocument.Attributes.deleted (lib : Library)
    (SectionAttributes : List (String × Element)) : List (String × Element) :=
  let SectionAttributes :=
    match (GoMap.get SectionAttributes AttrAuthors).bind lib.expandAuthors with
    | some _ => GoMap.delete SectionAttributes AttrAuthors
    | none => SectionAttributes
  match (GoMap.get SectionAttributes AttrRevision).bind lib.expandRevision with
  | some _ => GoMap.delete SectionAttributes AttrRevision
  | none => SectionAttributes

/-- The elements of the document after the loop of `RawDocument.Attributes`. -/
def RawDocument.Attributes.elements (lib : Library) : List Element → List Element
  | [] => []
  | .Section Level SectionAttributes Title Elements :: rest =>
    if Level = 0 then
      .Section Level (RawDocument.Attributes.deleted lib SectionAttributes) Title Elements
        :: RawDocument.Attributes.elements lib rest
    else .Section Level SectionAttributes Title Elements :: rest
  | .AttributeDeclaration Name Value :: rest =>
    .AttributeDeclaration Name Value :: RawDocument.Attributes.elements lib rest
  | e :: rest => e :: rest

/-- Whether the type of the element implements
`types.BlockWithElementSubstitution`. -/
def Element.isBlockWithElementSubstitution : Element → Bool
  | .ExampleBlock _ _ => true
  | .QuoteBlock _ _ => true
  | .SidebarBlock _ _ => true
  | _ => false

/-- Whether the type of the element implements
`types.BlockWithLineSubstitution`. -/
def Element.isBlockWithLineSubstitution : Element → Bool
  | .Paragraph _ _ => true
  | .FencedBlock _ _ => true
  | .ListingBlock _ _ => true
  | .VerseBlock _ _ => true
  | .PassthroughBlock _ _ => true
  | .LiteralBlock _ _ => true
  | _ => false

/-- The method `ElementsToSubstitute` of the types that have it. -/
def Element.ElementsToSubstitute : Element → List Element
  | .ExampleBlock _ Elements => Elements
  | .QuoteBlock _ Elements => Elements
  | .SidebarBlock _ Elements => Elements
  | _ => []

/-- The method `ReplaceElements` of the types that have it. -/
def Element.ReplaceElements (block : Element) (elements : List Element) : Element :=
  match block with
  | .ExampleBlock Attributes _ => .ExampleBlock Attributes elements
  | .QuoteBlock Attributes _ => .QuoteBlock Attributes elements
  | .SidebarBlock Attributes _ => .SidebarBlock Attributes elements
  | e => e

/-- The method `LinesToSubstitute` of the types that have it. -/
def Element.LinesToSubstitute : Element → List (List Element)
  | .Paragraph _ Lines => Lines
  | .FencedBlock _ Lines => Lines
  | .ListingBlock _ Lines => Lines
  | .VerseBlock _ Lines => Lines
  | .PassthroughBlock _ Lines => Lines
  | .LiteralBlock _ Lines => Lines
  | _ => []

/-- The method `ReplaceLines` of the types that have it. -/
def Element.ReplaceLines (block : Element) (lines : List (List Element)) : Element :=
  match block with
  | .Paragraph Attributes _ => .Paragraph Attributes lines
  | .FencedBlock Attributes _ => .FencedBlock Attributes lines
  | .ListingBlock Attributes _ => .ListingBlock Attributes lines
  | .VerseBlock Attributes _ => .VerseBlock Attributes lines
  | .PassthroughBlock Attributes _ => .PassthroughBlock Attributes lines
  | .LiteralBlock Attributes _ => .LiteralBlock Attributes lines
  | e => e

mutual
/-- `applySubstitutionsOnElements`: the steps of the enclosing block are
applied on the lines of the blocks of lines among the elements, and on the
elements of the blocks of elements among them; the other elements are kept. -/
def applySubstitutionsOnElements (ParseReader : Grammar) (elements : List Element)
    (subs : List elementsSubstitution) (attrs : AttributesWithOverrides) :
    Resolved (List Element) :=
  match elements with
  | [] => (.ok [], attrs)
  | element :: rest =>
    match applySubstitutionsOnElements.element ParseReader element subs attrs with
    | (.error err, attrs) => (.error err, attrs)
    | (.ok e, attrs) =>
      Resolved.map (e :: ·) (applySubstitutionsOnElements ParseReader rest subs attrs)
/-- The type switch of `applySubstitutionsOnElements` on one element. -/
def applySubstitutionsOnElements.element (ParseReader : Grammar) (element : Element)
    (subs : List elementsSubstitution) (attrs : AttributesWithOverrides) : Resolved Element :=
  match element with
  | .ExampleBlock Attributes Elements =>
    Resolved.map (.ExampleBlock Attributes ·)
      (applySubstitutionsOnElements ParseReader Elements subs attrs)
  | .QuoteBlock Attributes Elements =>
    Resolved.map (.QuoteBlock Attributes ·)
      (applySubstitutionsOnElements ParseReader Elements subs attrs)
  | .SidebarBlock Attributes Elements =>
    Resolved.map (.SidebarBlock Attributes ·)
      (applySubstitutionsOnElements ParseReader Elements subs attrs)
  | .Paragraph Attributes Lines =>
    Resolved.map (.Paragraph Attributes ·) (applySubstitutionsOnLines ParseReader Lines subs attrs)
  | .FencedBlock Attributes Lines =>
    Resolved.map (.FencedBlock Attributes ·)
      (applySubstitutionsOnLines ParseReader Lines subs attrs)
  | .ListingBlock Attributes Lines =>
    Resolved.map (.ListingBlock Attributes ·)
      (applySubstitutionsOnLines ParseReader Lines subs attrs)
  | .VerseBlock Attributes Lines =>
    Resolved.map (.VerseBlock Attributes ·) (applySubstitutionsOnLines ParseReader Lines subs attrs)
  | .PassthroughBlock Attributes Lines =>
    Resolved.map (.PassthroughBlock Attributes ·)
      (applySubstitutionsOnLines ParseReader Lines subs attrs)
  | .LiteralBlock Attributes Lines =>
    Resolved.map (.LiteralBlock Attributes ·)
      (applySubstitutionsOnLines ParseReader Lines subs attrs)
  | .raw v => (.ok (.raw v), attrs)
  | .slice elements => (.ok (.slice elements), attrs)
  | .ElementRole elements => (.ok (.ElementRole elements), attrs)
  | .StringElement Content => (.ok (.StringElement Content), attrs)
  | .SingleLineComment Content => (.ok (.SingleLineComment Content), attrs)
  | .BlankLine => (.ok .BlankLine, attrs)
  | .LineBreak => (.ok .LineBreak, attrs)
  | .SpecialCharacter Name => (.ok (.SpecialCharacter Name), attrs)
  | .ElementPlaceHolder Ref => (.ok (.ElementPlaceHolder Ref), attrs)
  | .AttributeDeclaration Name Value => (.ok (.AttributeDeclaration Name Value), attrs)
  | .AttributeReset Name => (.ok (.AttributeReset Name), attrs)
  | .AttributeSubstitution Name => (.ok (.AttributeSubstitution Name), attrs)
  | .PredefinedAttribute Name => (.ok (.PredefinedAttribute Name), attrs)
  | .CounterSubstitution Name Hidden Value => (.ok (.CounterSubstitution Name Hidden Value), attrs)
  | .ImageBlock Scheme Path Attributes => (.ok (.ImageBlock Scheme Path Attributes), attrs)
  | .Section Level Attributes Title Elements =>
    (.ok (.Section Level Attributes Title Elements), attrs)
  | .OrderedListItem Attributes Level Style Elements =>
    (.ok (.OrderedListItem Attributes Level Style Elements), attrs)
  | .UnorderedListItem Level BulletStyle CheckStyle Attributes Elements =>
    (.ok (.UnorderedListItem Level BulletStyle CheckStyle Attributes Elements), attrs)
  | .LabeledListItem Term Level Attributes Elements =>
    (.ok (.LabeledListItem Term Level Attributes Elements), attrs)
  | .ContinuedListItemElement Offset Element =>
    (.ok (.ContinuedListItemElement Offset Element), attrs)
  | .MarkdownQuoteBlock Attributes Lines => (.ok (.MarkdownQuoteBlock Attributes Lines), attrs)
  | .CommentBlock Attributes Lines => (.ok (.CommentBlock Attributes Lines), attrs)
  | .InlineImage Scheme Path Attributes => (.ok (.InlineImage Scheme Path Attributes), attrs)
  | .InlineLink Scheme Path Attributes => (.ok (.InlineLink Scheme Path Attributes), attrs)
  | .ExternalCrossReference Scheme Path Label =>
    (.ok (.ExternalCrossReference Scheme Path Label), attrs)
  | .InternalCrossReference ID Label => (.ok (.InternalCrossReference ID Label), attrs)
  | .QuotedText Kind Elements Attributes => (.ok (.QuotedText Kind Elements Attributes), attrs)
  | .QuotedString Kind Elements => (.ok (.QuotedString Kind Elements), attrs)
  | .InlinePassthrough Kind Elements => (.ok (.InlinePassthrough Kind Elements), attrs)
  | .IndexTerm Term => (.ok (.IndexTerm Term), attrs)
  | .Footnote ID Ref Elements => (.ok (.Footnote ID Ref Elements), attrs)
  | .FootnoteReference ID Ref Duplicate => (.ok (.FootnoteReference ID Ref Duplicate), attrs)
end

/-- `Section.ResolveID`, on the fields of the section: without a custom ID,
the ID of the section is made of the prefix and of the title.  An error of
`ReplaceNonAlphanumerics` is wrapped (`errors.Wrapf`). -/
def Section.ResolveID (lib : Library) (Level : Int) (Attributes : List (String × Element))
    (Title Elements : List Element) (docAttributes : AttributesWithOverrides) :
    Except String Element :=
  if !ElementAttributes.GetAsBool Attributes AttrCustomID then
    match lib.ReplaceNonAlphanumerics Title
        (docAttributes.GetAsStringWithDefault AttrIDSeparator DefaultIDSeparator) with
    | .error err => .error ("failed to generate default ID on Section element: " ++ err)
    | .ok replacement =>
      .ok (.Section Level
        (GoMap.set Attributes AttrID
          (.raw (.str (docAttributes.GetAsStringWithDefault AttrIDPrefix DefaultIDPrefix
            ++ replacement))))
        Title Elements)
  else .ok (.Section Level Attributes Title Elements)

/-- `applySubstitutionsOnSection`, on the fields of the section: seven steps
on the title, then `ResolveID`.  The result is `none` when the call stops
with a run-time panic, at the index expression `elements[0]`. -/
def applySubstitutionsOnSection (lib : Library) (Level : Int)
    (Attributes : List (String × Element)) (Title Elements : List Element)
    (attrs : AttributesWithOverrides) : Option (Resolved Element) :=
  match applySubstitutionsOnLines lib.ParseReader [Title]
      [.substituteInlinePassthrough, .substituteSpecialCharacters, .substituteQuotedTexts,
        .substituteAttributes, .substituteReplacements, .substituteInlineMacros,
        .substitutePostReplacements] attrs with
  | (.error err, attrs) => some (.error err, attrs)
  | (.ok [], _) => none
  | (.ok (Title :: _), attrs) =>
    match Section.ResolveID lib Level Attributes Title Elements attrs with
    | .error err => some (.error err, attrs)
    | .ok s => some (.ok s, attrs)

/-- `Location.Stringify`: the scheme, then the elements of the path with a
`/` after each of them but the last. -/
def Location.Stringify (lib : Library) (Scheme : String) (Path : List Element) : String :=
  Scheme ++ "/".intercalate (Path.map fun e =>
    match e with
    | .raw (.str s) => s
    | .StringElement Content => Content
    | e => lib.renderS e)

/-- `Location.WithPathPrefix` for a prefix that is a string: the path of the
location after the call. -/
def Location.WithPathPrefix (lib : Library) (Scheme : String) (Path : List Element)
    (p : String) : List Element :=
  if p ≠ "" then
    if Scheme = "" ∧ ¬ (Location.Stringify lib Scheme Path).startsWith "/" then
      match lib.urlIsAbs (Location.Stringify lib Scheme Path) with
      | some false => .StringElement p :: Path
      | _ => Path
    else Path
  else Path

/-- `applySubstitutionsOnImageBlock`, on the fields of the block: the step
`substituteAttributes` on the path, then the prefix of the path and the
default of the attribute `alt`, the base name of the path without its
extension (`filepath.Ext` returns a suffix of its argument, so that the slice
`alt[0 : len(alt)-len(ext)]` is `alt` without this suffix).  The result is
`none` when the call stops with a run-time panic, at the index expression
`elements[0]`. -/
def applySubstitutionsOnImageBlock (lib : Library) (Scheme : String) (Path : List Element)
    (Attributes : List (String × Element)) (attrs : AttributesWithOverrides) :
    Option (Resolved Element) :=
  match applySubstitutionsOnLines lib.ParseReader [Path] [.substituteAttributes] attrs with
  | (.error err, attrs) => some (.error err, attrs)
  | (.ok [], _) => none
  | (.ok (Path :: _), attrs) =>
    let Path := Location.WithPathPrefix lib Scheme Path
      (attrs.GetAsStringWithDefault "imagesdir" "")
    let alt := lib.Base (Location.Stringify lib Scheme Path)
    let ext := lib.Ext alt
    some (.ok (.ImageBlock Scheme Path
      (if !ElementAttributes.Has Attributes AttrImageAlt then
        GoMap.set Attributes AttrImageAlt
          (.raw (.str (String.mk (alt.data.take (alt.length - ext.length)))))
      else Attributes)), attrs)

/-- The type switch of `applySubstitutions` on one element.  For a continued
list item element the source calls `applySubstitutions` on the slice that
holds its element alone and takes `r[0]`, which is the result of the type
switch on this element.  The result is `none` when the call stops with a
run-time panic. -/
def applySubstitutions.element (lib : Library) (e : Element) (attrs : AttributesWithOverrides) :
    Option (Resolved Element) :=
  match e with
  | .ContinuedListItemElement Offset Element =>
    match applySubstitutions.element lib Element attrs with
    | none => none
    | some (.error err, attrs) => some (.error err, attrs)
    | some (.ok r, attrs) => some (.ok (.ContinuedListItemElement Offset r), attrs)
  | .MarkdownQuoteBlock Attributes Lines =>
    applySubstitutionsOnMarkdownQuoteBlock lib.ParseReader Attributes Lines attrs
  | .ImageBlock Scheme Path Attributes =>
    applySubstitutionsOnImageBlock lib Scheme Path Attributes attrs
  | .Section Level Attributes Title Elements =>
    applySubstitutionsOnSection lib Level Attributes Title Elements attrs
  | e =>
    if h : e.isBlockWithSubstitution = true then
      if e.isBlockWithElementSubstitution then
        match substitutionsFor lib.render ⟨e, h⟩ with
        | .error err => some (.error err, attrs)
        | .ok subs =>
          some (Resolved.map e.ReplaceElements
            (applySubstitutionsOnElements lib.ParseReader e.ElementsToSubstitute subs attrs))
      else
        match substitutionsFor lib.render ⟨e, h⟩ with
        | .error err => some (.error err, attrs)
        | .ok subs =>
          some (Resolved.map e.ReplaceLines
            (applySubstitutionsOnLines lib.ParseReader e.LinesToSubstitute subs attrs))
    else some (applyAttributeSubstitutionsOnElement e attrs)

/-- `applySubstitutions`: the elements are processed one after the other, up
to the first error; no element gives no element. -/
def applySubstitutions (lib : Library) (elements : List Element)
    (attrs : AttributesWithOverrides) : Option (Resolved (List Element)) :=
  match elements with
  | [] => some (.ok [], attrs)
  | e :: rest =>
    match applySubstitutions.element lib e attrs with
    | none => none
    | some (.error err, attrs) => some (.error err, attrs)
    | some (.ok e, attrs) =>
      match applySubstitutions lib rest attrs with
      | none => none
      | some r => some (Resolved.map (e :: ·) r)

/-- `ApplySubstitutions`: the draft document and the error that the call
returns, `none` as error standing for `nil`; an error comes with the zero
value of the draft document.  The result is `none` when the call stops with
a run-time panic. -/
def ApplySubstitutions (lib : Library) (rawDoc : RawDocument) (config : Configuration) :
    Option (DraftDocument × Option String) :=
  let attrs : AttributesWithOverrides :=
    { Content := [], Overrides := config.AttributeOverrides, Counters := [] }
  let attrs := attrs.Add rawDoc.FrontMatter.Content
  let attrs := attrs.Add (rawDoc.Attributes lib)
  match applySubstitutions lib (RawDocument.Attributes.elements lib rawDoc.Elements) attrs with
  | none => none
  | some (.error err, _) => some ({ Attributes := [], FrontMatter := ⟨[]⟩, Elements := [] }, some err)
  | some (.ok elements, attrs) =>
    some ({ Attributes := lib.All attrs, FrontMatter := rawDoc.FrontMatter,
            Elements := elements }, none)

/-- What `parseContent` makes of the value that the parser returned: a slice
of elements is merged, any other value is the one element of a slice. -/
def parseContent.elements : Element → List Element
  | .slice result => Merge result
  | result => [result]

/-- Whether an element is a counter reference, with or without a pinned
value. -/
def Element.isCounterReference : Element → Bool
  | .CounterSubstitution _ _ _ => true
  | _ => false

/-- The value stored for a counter name, if any: a name without an entry, or
with a nil entry, has no stored value. -/
def storedCounter (attrs : AttributesWithOverrides) (name : String) : Option Value :=
  match GoMap.get attrs.Counters name with
  | some .nil => none
  | some v => some v
  | none => none

/-- The value stored for the counter `name` once
`applyAttributeSubstitutionsOnElements` has processed the first `k` elements
of the sequence. -/
def storedCounterAfter (elements : List Element) (attrs : AttributesWithOverrides)
    (name : String) (k : Nat) : Option Value :=
  storedCounter (applyAttributeSubstitutionsOnElements (elements.take k) attrs).2 name

/-- Whether the second stored value is not below the first one: nothing is
below a first stored value, and two stored values compare as counter
values. -/
def notLowered : Option Value → Option Value → Bool
  | none, _ => true
  | some a, some b => a.counterLe b
  | some _, none => false

/-- Whether `++` on the counter value stays in its Go type: an `int` is below
the largest `int`, a `rune` below the largest `int32`. -/
def Value.canIncrement : Value → Bool
  | .int v => decide (-2 ^ 63 ≤ v ∧ v < 2 ^ 63 - 1)
  | .rune c => decide (-2 ^ 31 ≤ c ∧ c < 2 ^ 31 - 1)
  | _ => true

/-- The elements of the test `should increment correctly`: references to the
counters `foo`, `bar` and `foo`, a hidden reference that pins `alpha` to the
character `a` and a reference to `alpha`, a hidden reference that pins `set`
to 33, a hidden reference to `set` and a reference to `set`. -/
def shouldIncrementCorrectly : List Element :=
  [.CounterSubstitution "foo" false .nil, .CounterSubstitution "bar" false .nil,
    .CounterSubstitution "foo" false .nil, .CounterSubstitution "alpha" true (.rune 97),
    .CounterSubstitution "alpha" false .nil, .CounterSubstitution "set" true (.int 33),
    .CounterSubstitution "set" true .nil, .CounterSubstitution "set" false .nil]

/-- The text that stands for a reference to the attribute `name` in a store:
the string the store resolves the name to, or the name between braces when
the store has none. -/
def referenceText (attrs : AttributesWithOverrides) (name : String) : String :=
  if (attrs.GetAsString name).2 then (attrs.GetAsString name).1
  else "\x7b" ++ name ++ "\x7d"

mutual

/-- The spec's words for the resolver, on one store: an attribute reference
becomes the text element of its resolved text; a node that owns children (the
elements of a list item, of an example, quote or sidebar block and of a
quoted text, the lines of a paragraph and of a block of lines, the title of a
section, the path of an image, of a link and of a cross-reference, the element
of a continued list item) is rebuilt with these children resolved and merged,
its other fields being kept; any other element is kept. -/
def Element.withResolvedChildren (attrs : AttributesWithOverrides) : Element → Element
  | .AttributeSubstitution name => .StringElement (referenceText attrs name)
  | .Paragraph as lines => .Paragraph as (withResolvedChildren.lines attrs lines)
  | .ImageBlock scheme path as =>
    .ImageBlock scheme (Merge (withResolvedChildren.elements attrs path)) as
  | .Section level as title elements =>
    .Section level as (Merge (withResolvedChildren.elements attrs title)) elements
  | .OrderedListItem as level style elements =>
    .OrderedListItem as level style (Merge (withResolvedChildren.elements attrs elements))
  | .UnorderedListItem level bullet check as elements =>
    .UnorderedListItem level bullet check as
      (Merge (withResolvedChildren.elements attrs elements))
  | .LabeledListItem term level as elements =>
    .LabeledListItem term level as (Merge (withResolvedChildren.elements attrs elements))
  | .ContinuedListItemElement offset element =>
    .ContinuedListItemElement offset (element.withResolvedChildren attrs)
  | .ExampleBlock as elements =>
    .ExampleBlock as (Merge (withResolvedChildren.elements attrs elements))
  | .QuoteBlock as elements =>
    .QuoteBlock as (Merge (withResolvedChildren.elements attrs elements))
  | .SidebarBlock as elements =>
    .SidebarBlock as (Merge (withResolvedChildren.elements attrs elements))
  | .FencedBlock as lines => .FencedBlock as (withResolvedChildren.lines attrs lines)
  | .ListingBlock as lines => .ListingBlock as (withResolvedChildren.lines attrs lines)
  | .VerseBlock as lines => .VerseBlock as (withResolvedChildren.lines attrs lines)
  | .MarkdownQuoteBlock as lines =>
    .MarkdownQuoteBlock as (withResolvedChildren.lines attrs lines)
  | .PassthroughBlock as lines => .PassthroughBlock as (withResolvedChildren.lines attrs lines)
  | .CommentBlock as lines => .CommentBlock as (withResolvedChildren.lines attrs lines)
  | .LiteralBlock as lines => .LiteralBlock as (withResolvedChildren.lines attrs lines)
  | .InlineImage scheme path as =>
    .InlineImage scheme (Merge (withResolvedChildren.elements attrs path)) as
  | .InlineLink scheme path as =>
    .InlineLink scheme (Merge (withResolvedChildren.elements attrs path)) as
  | .ExternalCrossReference scheme path label =>
    .ExternalCrossReference scheme (Merge (withResolvedChildren.elements attrs path)) label
  | .QuotedText kind elements as =>
    .QuotedText kind (Merge (withResolvedChildren.elements attrs elements)) as
  | e => e

/-- The children of a node, each one resolved, before they are merged. -/
def withResolvedChildren.elements (attrs : AttributesWithOverrides) :
    List Element → List Element
  | [] => []
  | element :: rest =>
    element.withResolvedChildren attrs :: withResolvedChildren.elements attrs rest

/-- The lines of a node, each one resolved and merged. -/
def withResolvedChildren.lines (attrs : AttributesWithOverrides) :
    List (List Element) → List (List Element)
  | [] => []
  | line :: rest =>
    Merge (withResolvedChildren.elements attrs line) :: withResolvedChildren.lines attrs rest

end

mutual

/-- Whether the resolver, on its way through the element, meets no attribute
declaration, no attribute reset and no counter reference: nothing that writes
to the store, and nothing that can fail. -/
def Element.keepsStore : Element → Bool
  | .AttributeDeclaration _ _ => false
  | .AttributeReset _ => false
  | .CounterSubstitution _ _ _ => false
  | .Paragraph _ lines => keepsStore.lines lines
  | .ImageBlock _ path _ => keepsStore.elements path
  | .Section _ _ title _ => keepsStore.elements title
  | .OrderedListItem _ _ _ elements => keepsStore.elements elements
  | .UnorderedListItem _ _ _ _ elements => keepsStore.elements elements
  | .LabeledListItem _ _ _ elements => keepsStore.elements elements
  | .ContinuedListItemElement _ element => element.keepsStore
  | .ExampleBlock _ elements => keepsStore.elements elements
  | .QuoteBlock _ elements => keepsStore.elements elements
  | .SidebarBlock _ elements => keepsStore.elements elements
  | .FencedBlock _ lines => keepsStore.lines lines
  | .ListingBlock _ lines => keepsStore.lines lines
  | .VerseBlock _ lines => keepsStore.lines lines
  | .MarkdownQuoteBlock _ lines => keepsStore.lines lines
  | .PassthroughBlock _ lines => keepsStore.lines lines
  | .CommentBlock _ lines => keepsStore.lines lines
  | .LiteralBlock _ lines => keepsStore.lines lines
  | .InlineImage _ path _ => keepsStore.elements path
  | .InlineLink _ path _ => keepsStore.elements path
  | .ExternalCrossReference _ path _ => keepsStore.elements path
  | .QuotedText _ elements _ => keepsStore.elements elements
  | _ => true

/-- Whether every element of the list keeps the store. -/
def keepsStore.elements : List Element → Bool
  | [] => true
  | element :: rest => element.keepsStore && keepsStore.elements rest

/-- Whether every element of every line keeps the store. -/
def keepsStore.lines : List (List Element) → Bool
  | [] => true
  | line :: rest => keepsStore.elements line && keepsStore.lines rest

end

/-! ## Go maps: reading after writing -/

theorem GoMap.get_set_self {V : Type} (m : GoMap V) (k : String) (v : V) :
    GoMap.get (GoMap.set m k v) k = some v := by
  induction m with
  | nil => simp [GoMap.set, GoMap.get]
  | cons p rest ih =>
    obtain ⟨k', v'⟩ := p
    by_cases h : k' = k
    · simp [GoMap.set, GoMap.get, h]
    · simp [GoMap.set, GoMap.get, h, ih]

theorem GoMap.get_set_ne {V : Type} (m : GoMap V) (k k' : String) (v : V) (h : k' ≠ k) :
    GoMap.get (GoMap.set m k v) k' = GoMap.get m k' := by
  induction m with
  | nil => simp [GoMap.set, GoMap.get, Ne.symm h]
  | cons p rest ih =>
    obtain ⟨k₁, v₁⟩ := p
    by_cases h₁ : k₁ = k
    · subst h₁
      simp [GoMap.set, GoMap.get, Ne.symm h]
    · by_cases h₂ : k₁ = k'
      · subst h₂
        simp [GoMap.set, GoMap.get, h₁]
      · simp [GoMap.set, GoMap.get, h₁, h₂, ih]

/-! ## A proof principle for the resolver

The resolver changes the store only by `Set` (declarations and resets) and by
`applyCounterSubstitution`; a reflexive and transitive relation between stores
that these two respect holds between the store a resolver function starts
with and the one it leaves. -/

theorem Resolved.map_snd {α β : Type} (f : α → β) (r : Resolved α) :
    (Resolved.map f r).2 = r.2 := by
  obtain ⟨x, a⟩ := r
  cases x <;> rfl

theorem Resolved.map_ok {α β : Type} (f : α → β) (x : α) (a : AttributesWithOverrides) :
    Resolved.map f (.ok x, a) = (.ok (f x), a) := rfl

theorem Resolved.map_error {α β : Type} (f : α → β) (err : String)
    (a : AttributesWithOverrides) :
    Resolved.map f ((.error err, a) : Resolved α) = (.error err, a) := rfl

mutual

theorem applyAttributeSubstitutionsOnElementsLoop_rel
    (R : AttributesWithOverrides → AttributesWithOverrides → Prop)
    (hrefl : ∀ a, R a a) (htrans : ∀ a b c, R a b → R b c → R a c)
    (hset : ∀ a k v, R a (AttributesWithOverrides.Set a k v))
    (hctr : ∀ n h v a, R a (applyCounterSubstitution n h v a).2) :
    ∀ (elements : List Element) (a : AttributesWithOverrides),
      R a (applyAttributeSubstitutionsOnElementsLoop elements a).2
  | [], a => by
    rw [applyAttributeSubstitutionsOnElementsLoop]
    exact hrefl a
  | element :: rest, a => by
    have h1 := applyAttributeSubstitutionsOnElement_rel R hrefl htrans hset hctr element a
    rw [applyAttributeSubstitutionsOnElementsLoop]
    rcases h : applyAttributeSubstitutionsOnElement element a with ⟨x, a1⟩
    rw [h] at h1
    cases x with
    | error err => exact h1
    | ok e1 =>
      simp only [Resolved.map_snd]
      exact htrans _ _ _ h1
        (applyAttributeSubstitutionsOnElementsLoop_rel R hrefl htrans hset hctr rest a1)

theorem applyAttributeSubstitutionsOnLines_rel
    (R : AttributesWithOverrides → AttributesWithOverrides → Prop)
    (hrefl : ∀ a, R a a) (htrans : ∀ a b c, R a b → R b c → R a c)
    (hset : ∀ a k v, R a (AttributesWithOverrides.Set a k v))
    (hctr : ∀ n h v a, R a (applyCounterSubstitution n h v a).2) :
    ∀ (lines : List (List Element)) (a : AttributesWithOverrides),
      R a (applyAttributeSubstitutionsOnLines lines a).2
  | [], a => by
    rw [applyAttributeSubstitutionsOnLines]
    exact hrefl a
  | line :: rest, a => by
    have h1 := applyAttributeSubstitutionsOnElementsLoop_rel R hrefl htrans hset hctr line a
    rw [applyAttributeSubstitutionsOnLines]
    rcases h : applyAttributeSubstitutionsOnElementsLoop line a with ⟨x, a1⟩
    rw [h] at h1
    cases x with
    | error err =>
      rw [Resolved.map_error]
      exact h1
    | ok l1 =>
      rw [Resolved.map_ok]
      simp only [Resolved.map_snd]
      exact htrans _ _ _ h1
        (applyAttributeSubstitutionsOnLines_rel R hrefl htrans hset hctr rest a1)

theorem applyAttributeSubstitutionsOnElement_rel
    (R : AttributesWithOverrides → AttributesWithOverrides → Prop)
    (hrefl : ∀ a, R a a) (htrans : ∀ a b c, R a b → R b c → R a c)
    (hset : ∀ a k v, R a (AttributesWithOverrides.Set a k v))
    (hctr : ∀ n h v a, R a (applyCounterSubstitution n h v a).2) :
    ∀ (element : Element) (a : AttributesWithOverrides),
      R a (applyAttributeSubstitutionsOnElement element a).2
  | .Paragraph as lines, a => by
    rw [applyAttributeSubstitutionsOnElement, Resolved.map_snd]
    exact applyAttributeSubstitutionsOnLines_rel R hrefl htrans hset hctr lines a
  | .FencedBlock as lines, a => by
    rw [applyAttributeSubstitutionsOnElement, Resolved.map_snd]
    exact applyAttributeSubstitutionsOnLines_rel R hrefl htrans hset hctr lines a
  | .ListingBlock as lines, a => by
    rw [applyAttributeSubstitutionsOnElement, Resolved.map_snd]
    exact applyAttributeSubstitutionsOnLines_rel R hrefl htrans hset hctr lines a
  | .VerseBlock as lines, a => by
    rw [applyAttributeSubstitutionsOnElement, Resolved.map_snd]
    exact applyAttributeSubstitutionsOnLines_rel R hrefl htrans hset hctr lines a
  | .MarkdownQuoteBlock as lines, a => by
    rw [applyAttributeSubstitutionsOnElement, Resolved.map_snd]
    exact applyAttributeSubstitutionsOnLines_rel R hrefl htrans hset hctr lines a
  | .PassthroughBlock as lines, a => by
    rw [applyAttributeSubstitutionsOnElement, Resolved.map_snd]
    exact applyAttributeSubstitutionsOnLines_rel R hrefl htrans hset hctr lines a
  | .CommentBlock as lines, a => by
    rw [applyAttributeSubstitutionsOnElement, Resolved.map_snd]
    exact applyAttributeSubstitutionsOnLines_rel R hrefl htrans hset hctr lines a
  | .LiteralBlock as lines, a => by
    rw [applyAttributeSubstitutionsOnElement, Resolved.map_snd]
    exact applyAttributeSubstitutionsOnLines_rel R hrefl htrans hset hctr lines a
  | .ImageBlock scheme path as, a => by
    rw [applyAttributeSubstitutionsOnElement, Resolved.map_snd]
    exact applyAttributeSubstitutionsOnElementsLoop_rel R hrefl htrans hset hctr path a
  | .Section level as title elements, a => by
    rw [applyAttributeSubstitutionsOnElement, Resolved.map_snd]
    exact applyAttributeSubstitutionsOnElementsLoop_rel R hrefl htrans hset hctr title a
  | .OrderedListItem as level style elements, a => by
    rw [applyAttributeSubstitutionsOnElement, Resolved.map_snd]
    exact applyAttributeSubstitutionsOnElementsLoop_rel R hrefl htrans hset hctr elements a
  | .UnorderedListItem level bullet check as elements, a => by
    rw [applyAttributeSubstitutionsOnElement, Resolved.map_snd]
    exact applyAttributeSubstitutionsOnElementsLoop_rel R hrefl htrans hset hctr elements a
  | .LabeledListItem term level as elements, a => by
    rw [applyAttributeSubstitutionsOnElement, Resolved.map_snd]
    exact applyAttributeSubstitutionsOnElementsLoop_rel R hrefl htrans hset hctr elements a
  | .ExampleBlock as elements, a => by
    rw [applyAttributeSubstitutionsOnElement, Resolved.map_snd]
    exact applyAttributeSubstitutionsOnElementsLoop_rel R hrefl htrans hset hctr elements a
  | .QuoteBlock as elements, a => by
    rw [applyAttributeSubstitutionsOnElement, Resolved.map_snd]
    exact applyAttributeSubstitutionsOnElementsLoop_rel R hrefl htrans hset hctr elements a
  | .SidebarBlock as elements, a => by
    rw [applyAttributeSubstitutionsOnElement, Resolved.map_snd]
    exact applyAttributeSubstitutionsOnElementsLoop_rel R hrefl htrans hset hctr elements a
  | .InlineImage scheme path as, a => by
    rw [applyAttributeSubstitutionsOnElement, Resolved.map_snd]
    exact applyAttributeSubstitutionsOnElementsLoop_rel R hrefl htrans hset hctr path a
  | .InlineLink scheme path as, a => by
    rw [applyAttributeSubstitutionsOnElement, Resolved.map_snd]
    exact applyAttributeSubstitutionsOnElementsLoop_rel R hrefl htrans hset hctr path a
  | .ExternalCrossReference scheme path label, a => by
    rw [applyAttributeSubstitutionsOnElement, Resolved.map_snd]
    exact applyAttributeSubstitutionsOnElementsLoop_rel R hrefl htrans hset hctr path a
  | .QuotedText kind elements as, a => by
    rw [applyAttributeSubstitutionsOnElement, Resolved.map_snd]
    exact applyAttributeSubstitutionsOnElementsLoop_rel R hrefl htrans hset hctr elements a
  | .ContinuedListItemElement offset element, a => by
    rw [applyAttributeSubstitutionsOnElement, Resolved.map_snd]
    exact applyAttributeSubstitutionsOnElement_rel R hrefl htrans hset hctr element a
  | .AttributeDeclaration name value, a => by
    rw [applyAttributeSubstitutionsOnElement]
    exact hset a name (.str value)
  | .AttributeReset name, a => by
    rw [applyAttributeSubstitutionsOnElement]
    exact hset a name .nil
  | .AttributeSubstitution name, a => by
    rw [applyAttributeSubstitutionsOnElement]
    split <;> exact hrefl a
  | .CounterSubstitution name hidden value, a => by
    rw [applyAttributeSubstitutionsOnElement]
    exact hctr name hidden value a
  | .raw _, a => by
    simp only [applyAttributeSubstitutionsOnElement]
    exact hrefl a
  | .slice _, a => by
    simp only [applyAttributeSubstitutionsOnElement]
    exact hrefl a
  | .ElementRole _, a => by
    simp only [applyAttributeSubstitutionsOnElement]
    exact hrefl a
  | .StringElement _, a => by
    simp only [applyAttributeSubstitutionsOnElement]
    exact hrefl a
  | .SingleLineComment _, a => by
    simp only [applyAttributeSubstitutionsOnElement]
    exact hrefl a
  | .BlankLine, a => by
    simp only [applyAttributeSubstitutionsOnElement]
    exact hrefl a
  | .LineBreak, a => by
    simp only [applyAttributeSubstitutionsOnElement]
    exact hrefl a
  | .SpecialCharacter _, a => by
    simp only [applyAttributeSubstitutionsOnElement]
    exact hrefl a
  | .ElementPlaceHolder _, a => by
    simp only [applyAttributeSubstitutionsOnElement]
    exact hrefl a
  | .PredefinedAttribute _, a => by
    simp only [applyAttributeSubstitutionsOnElement]
    exact hrefl a
  | .InternalCrossReference _ _, a => by
    simp only [applyAttributeSubstitutionsOnElement]
    exact hrefl a
  | .QuotedString _ _, a => by
    simp only [applyAttributeSubstitutionsOnElement]
    exact hrefl a
  | .InlinePassthrough _ _, a => by
    simp only [applyAttributeSubstitutionsOnElement]
    exact hrefl a
  | .IndexTerm _, a => by
    simp only [applyAttributeSubstitutionsOnElement]
    exact hrefl a
  | .Footnote _ _ _, a => by
    simp only [applyAttributeSubstitutionsOnElement]
    exact hrefl a
  | .FootnoteReference _ _ _, a => by
    simp only [applyAttributeSubstitutionsOnElement]
    exact hrefl a

end

theorem applyAttributeSubstitutionsOnElements_rel
    (R : AttributesWithOverrides → AttributesWithOverrides → Prop)
    (hrefl : ∀ a, R a a) (htrans : ∀ a b c, R a b → R b c → R a c)
    (hset : ∀ a k v, R a (AttributesWithOverrides.Set a k v))
    (hctr : ∀ n h v a, R a (applyCounterSubstitution n h v a).2)
    (elements : List Element) (a : AttributesWithOverrides) :
    R a (applyAttributeSubstitutionsOnElements elements a).2 := by
  rw [applyAttributeSubstitutionsOnElements, Resolved.map_snd]
  exact applyAttributeSubstitutionsOnElementsLoop_rel R hrefl htrans hset hctr elements a

/-! ## Helper lemmas on the resolver -/

theorem applyCounterSubstitution_frame (n : String) (h : Bool) (v : Value)
    (a : AttributesWithOverrides) :
    (applyCounterSubstitution n h v a).2.Content = a.Content
      ∧ (applyCounterSubstitution n h v a).2.Overrides = a.Overrides := by
  have hp : (applyCounterSubstitution.pinned n v a).Content = a.Content
      ∧ (applyCounterSubstitution.pinned n v a).Overrides = a.Overrides := by
    unfold applyCounterSubstitution.pinned
    split <;> exact ⟨rfl, rfl⟩
  unfold applyCounterSubstitution
  dsimp only
  split
  · split <;> exact hp
  · split <;> exact hp
  · exact hp

theorem applyAttributeSubstitutionsOnElementsLoop_nil (a : AttributesWithOverrides) :
    applyAttributeSubstitutionsOnElementsLoop [] a = (.ok [], a) := by
  rw [applyAttributeSubstitutionsOnElementsLoop]

theorem applyAttributeSubstitutionsOnElementsLoop_cons (e : Element) (rest : List Element)
    (a : AttributesWithOverrides) :
    applyAttributeSubstitutionsOnElementsLoop (e :: rest) a
      = match applyAttributeSubstitutionsOnElement e a with
        | (.error err, a1) => (.error err, a1)
        | (.ok e1, a1) =>
          Resolved.map (e1 :: ·) (applyAttributeSubstitutionsOnElementsLoop rest a1) := by
  rw [applyAttributeSubstitutionsOnElementsLoop]

theorem applyAttributeSubstitutionsOnElementsLoop_append (xs ys : List Element)
    (a : AttributesWithOverrides) :
    applyAttributeSubstitutionsOnElementsLoop (xs ++ ys) a
      = match applyAttributeSubstitutionsOnElementsLoop xs a with
        | (.ok r, a1) => Resolved.map (r ++ ·) (applyAttributeSubstitutionsOnElementsLoop ys a1)
        | (.error err, a1) => (.error err, a1) := by
  induction xs generalizing a with
  | nil =>
    simp only [List.nil_append, applyAttributeSubstitutionsOnElementsLoop_nil]
    rcases applyAttributeSubstitutionsOnElementsLoop ys a with ⟨x, a1⟩
    cases x <;> simp [Resolved.map]
  | cons x rest ih =>
    simp only [List.cons_append, applyAttributeSubstitutionsOnElementsLoop_cons]
    rcases applyAttributeSubstitutionsOnElement x a with ⟨r, a1⟩
    cases r with
    | error err => rfl
    | ok e =>
      simp only [ih]
      rcases applyAttributeSubstitutionsOnElementsLoop rest a1 with ⟨r2, a2⟩
      cases r2 with
      | error err => rfl
      | ok es =>
        simp only [Resolved.map_ok]
        rcases applyAttributeSubstitutionsOnElementsLoop ys a2 with ⟨r3, a3⟩
        cases r3 <;> simp [Resolved.map]

theorem declarations_loop (pre : List Element) (a : AttributesWithOverrides)
    (hpre : ∀ e ∈ pre, e.isDeclarationOrReset = true) :
    (applyAttributeSubstitutionsOnElementsLoop pre a).1 = .ok pre
      ∧ (applyAttributeSubstitutionsOnElementsLoop pre a).2.Overrides = a.Overrides := by
  induction pre generalizing a with
  | nil => simp [applyAttributeSubstitutionsOnElementsLoop_nil]
  | cons e rest ih =>
    have hrest : ∀ e ∈ rest, e.isDeclarationOrReset = true :=
      fun e he => hpre e (List.mem_cons_of_mem _ he)
    have he := hpre e (List.mem_cons_self _ _)
    cases e <;> simp [Element.isDeclarationOrReset] at he
    case AttributeDeclaration name value =>
      obtain ⟨h1, h2⟩ := ih (a.Set name (.str value)) hrest
      rcases hl : applyAttributeSubstitutionsOnElementsLoop rest (a.Set name (.str value))
        with ⟨r, a1⟩
      rw [hl] at h1 h2
      simp only at h1
      subst h1
      simp [applyAttributeSubstitutionsOnElementsLoop_cons, applyAttributeSubstitutionsOnElement,
        hl, Resolved.map]
      exact h2
    case AttributeReset name =>
      obtain ⟨h1, h2⟩ := ih (a.Set name .nil) hrest
      rcases hl : applyAttributeSubstitutionsOnElementsLoop rest (a.Set name .nil) with ⟨r, a1⟩
      rw [hl] at h1 h2
      simp only at h1
      subst h1
      simp [applyAttributeSubstitutionsOnElementsLoop_cons, applyAttributeSubstitutionsOnElement,
        hl, Resolved.map]
      exact h2

theorem Merge_declarations (pre rest : List Element)
    (hpre : ∀ e ∈ pre, e.isDeclarationOrReset = true) :
    Merge (pre ++ rest) = pre ++ Merge rest := by
  induction pre with
  | nil => rfl
  | cons e tl ih =>
    have htl : ∀ e ∈ tl, e.isDeclarationOrReset = true :=
      fun e he => hpre e (List.mem_cons_of_mem _ he)
    have he := hpre e (List.mem_cons_self _ _)
    cases e <;> simp [Element.isDeclarationOrReset] at he
    all_goals simp [Merge, ih htl]

theorem reference_with_override (n value : String) (a : AttributesWithOverrides)
    (hov : GoMap.get a.Overrides n = some value) :
    applyAttributeSubstitutionsOnElement (.AttributeSubstitution n) a
      = (.ok (.StringElement value), a) := by
  simp [applyAttributeSubstitutionsOnElement, AttributesWithOverrides.GetAsString, hov]

theorem Merge_texts (texts : List String) (h : texts ≠ []) :
    Merge (texts.map Element.StringElement)
      = [Element.StringElement (texts.foldr (· ++ ·) "")] := by
  induction texts with
  | nil => exact absurd rfl h
  | cons t rest ih =>
    cases rest with
    | nil => simp [Merge]
    | cons t2 rest2 =>
      have h2 := ih (List.cons_ne_nil _ _)
      rw [List.map_cons, Merge, h2]
      rfl

theorem text_line_loop (line : List Element) (attrs : AttributesWithOverrides)
    (h : ∀ e ∈ line, e.isTextOrResolved attrs = true) :
    applyAttributeSubstitutionsOnElementsLoop line attrs
      = (.ok (line.map fun e => .StringElement (e.resolvedText attrs)), attrs) := by
  induction line with
  | nil => exact applyAttributeSubstitutionsOnElementsLoop_nil attrs
  | cons e rest ih =>
    have hrest := ih (fun e he => h e (List.mem_cons_of_mem _ he))
    have he := h e (List.mem_cons_self _ _)
    cases e <;> simp [Element.isTextOrResolved] at he
    case StringElement content =>
      simp [applyAttributeSubstitutionsOnElementsLoop_cons, applyAttributeSubstitutionsOnElement,
        hrest, Resolved.map, Element.resolvedText]
    case AttributeSubstitution name =>
      rcases hg : attrs.GetAsString name with ⟨value, found⟩
      rw [hg] at he
      simp only at he
      subst he
      simp [applyAttributeSubstitutionsOnElementsLoop_cons, applyAttributeSubstitutionsOnElement,
        hrest, Resolved.map, Element.resolvedText, hg]

theorem text_lines (lines : List (List Element)) (attrs : AttributesWithOverrides)
    (h : ∀ line ∈ lines, line ≠ [] ∧ ∀ e ∈ line, e.isTextOrResolved attrs = true) :
    applyAttributeSubstitutionsOnLines lines attrs
      = (.ok (lines.map fun line => [.StringElement (concatenation attrs line)]), attrs) := by
  induction lines with
  | nil => rw [applyAttributeSubstitutionsOnLines]; rfl
  | cons line rest ih =>
    have hrest := ih (fun l hl => h l (List.mem_cons_of_mem _ hl))
    obtain ⟨hne, hline⟩ := h line (List.mem_cons_self _ _)
    have hm : Merge (line.map fun e => Element.StringElement (e.resolvedText attrs))
        = [Element.StringElement (concatenation attrs line)] := by
      have := Merge_texts (line.map (Element.resolvedText attrs)) (by simpa using hne)
      simpa [List.map_map, Function.comp_def, concatenation] using this
    rw [applyAttributeSubstitutionsOnLines, text_line_loop line attrs hline, Resolved.map_ok, hm]
    simp only [hrest, Resolved.map_ok, List.map_cons]

/-! ## Helper lemmas on counters -/

theorem incInt_eq (v : Int) (hlo : -2 ^ 63 ≤ v) (hhi : v < 2 ^ 63 - 1) : incInt v = v + 1 := by
  unfold incInt
  omega

theorem incRune_eq (c : Int) (hlo : -2 ^ 31 ≤ c) (hhi : c < 2 ^ 31 - 1) :
    incRune c = c + 1 := by
  unfold incRune
  omega

theorem applyCounterSubstitution_int (name : String) (hidden : Bool) (value : Value)
    (attrs : AttributesWithOverrides) (v : Int)
    (h : applyCounterSubstitution.counter name value attrs = .int v) :
    applyCounterSubstitution name hidden value attrs
      = (.ok (.StringElement
            (if hidden then "" else Itoa (if value = .nil then incInt v else v))),
          { applyCounterSubstitution.pinned name value attrs with
            Counters := GoMap.set (applyCounterSubstitution.pinned name value attrs).Counters
              name (.int (if value = .nil then incInt v else v)) }) := by
  unfold applyCounterSubstitution
  simp only [h]
  cases hidden <;> simp

theorem applyCounterSubstitution_rune (name : String) (hidden : Bool) (value : Value)
    (attrs : AttributesWithOverrides) (c : Int)
    (h : applyCounterSubstitution.counter name value attrs = .rune c) :
    applyCounterSubstitution name hidden value attrs
      = (.ok (.StringElement
            (if hidden then "" else runeToString (if value = .nil then incRune c else c))),
          { applyCounterSubstitution.pinned name value attrs with
            Counters := GoMap.set (applyCounterSubstitution.pinned name value attrs).Counters
              name (.rune (if value = .nil then incRune c else c)) }) := by
  unfold applyCounterSubstitution
  simp only [h]
  cases hidden <;> simp

theorem applyCounterSubstitution_invalid (name : String) (hidden : Bool) (value : Value)
    (attrs : AttributesWithOverrides)
    (h : (applyCounterSubstitution.counter name value attrs).isCounterType = false) :
    applyCounterSubstitution name hidden value attrs
      = (.error ("invalid counter type "
            ++ (applyCounterSubstitution.counter name value attrs).typeName),
          applyCounterSubstitution.pinned name value attrs) := by
  unfold applyCounterSubstitution
  cases hc : applyCounterSubstitution.counter name value attrs <;>
    simp [hc, Value.isCounterType] at h ⊢

theorem counter_of_pinned (name : String) (value : Value) (attrs : AttributesWithOverrides)
    (h : value ≠ .nil) : applyCounterSubstitution.counter name value attrs = value := by
  unfold applyCounterSubstitution.counter
  simp [h]

theorem applyCounterSubstitution_other_counter (n m : String) (hidden : Bool) (value : Value)
    (attrs : AttributesWithOverrides) (hne : m ≠ n) :
    GoMap.get (applyCounterSubstitution n hidden value attrs).2.Counters m
      = GoMap.get attrs.Counters m := by
  have hp : GoMap.get (applyCounterSubstitution.pinned n value attrs).Counters m
      = GoMap.get attrs.Counters m := by
    unfold applyCounterSubstitution.pinned
    split
    · exact GoMap.get_set_ne _ _ _ _ hne
    · rfl
  cases hc : (applyCounterSubstitution.counter n value attrs).isCounterType
  · rw [applyCounterSubstitution_invalid n hidden value attrs hc]
    exact hp
  · cases hv : applyCounterSubstitution.counter n value attrs <;>
      simp [hv, Value.isCounterType] at hc
    case int v =>
      rw [applyCounterSubstitution_int n hidden value attrs v hv]
      exact (GoMap.get_set_ne _ _ _ _ hne).trans hp
    case rune c =>
      rw [applyCounterSubstitution_rune n hidden value attrs c hv]
      exact (GoMap.get_set_ne _ _ _ _ hne).trans hp

/-! ## Helper lemmas on sequences of counter references -/

theorem Value.counterLe_refl (v : Value) : v.counterLe v = true := by
  cases v <;> simp [Value.counterLe]

theorem pinned_nil (name : String) (a : AttributesWithOverrides) :
    applyCounterSubstitution.pinned name .nil a = a := by
  simp [applyCounterSubstitution.pinned]

/-! ## Attribute references -/

/-- C1: a reference to a name that neither the overrides nor the live
attributes hold is resolved, without error, to the text element holding the
name between braces; the store is left as it was. -/
theorem undefined_attribute_yields_literal (n : String) (attrs : AttributesWithOverrides)
    (hOverrides : GoMap.get attrs.Overrides n = none)
    (hContent : GoMap.get attrs.Content n = none) :
    applyAttributeSubstitutionsOnElement (.AttributeSubstitution n) attrs
      = (.ok (.StringElement ("\x7b" ++ n ++ "\x7d")), attrs) := by
  simp [applyAttributeSubstitutionsOnElement, AttributesWithOverrides.GetAsString,
    Attributes.GetAsString, hOverrides, hContent]

/-- C1, on the repository's test: with an empty store the reference to `foo`
becomes the text `{foo}`, and the paragraph line around it is merged. -/
theorem undefined_attribute_yields_literal_witness :
    GoMap.get (AttributesWithOverrides.mk [] [] []).Overrides "foo" = none
    ∧ GoMap.get (AttributesWithOverrides.mk [] [] []).Content "foo" = none
    ∧ applyAttributeSubstitutionsOnElement (.AttributeSubstitution "foo") ⟨[], [], []⟩
        = (.ok (.StringElement "\x7bfoo\x7d"), ⟨[], [], []⟩)
    ∧ applyAttributeSubstitutionsOnElements
        [.Paragraph [] [[.StringElement "baz, ", .AttributeSubstitution "foo",
          .StringElement " and more content."]]] ⟨[], [], []⟩
        = (.ok [.Paragraph [] [[.StringElement "baz, \x7bfoo\x7d and more content."]]],
            ⟨[], [], []⟩) :=
  ⟨rfl, rfl, undefined_attribute_yields_literal "foo" ⟨[], [], []⟩ rfl rfl, rfl⟩

/-- C2: with an override `v2` for the name `n`, a reference to `n` that comes
after any number of declarations and resets is resolved to the text `v2`,
whatever the live mapping holds: as an element of its own, as the head of a
paragraph line (where it is merged with the text that follows), and in the
store left by any sequence of elements at all. -/
theorem override_takes_precedence (n v2 : String) (pre : List Element)
    (attrs : AttributesWithOverrides)
    (hpre : ∀ e ∈ pre, e.isDeclarationOrReset = true)
    (hov : GoMap.get attrs.Overrides n = some v2) :
    (applyAttributeSubstitutionsOnElements (pre ++ [.AttributeSubstitution n]) attrs).1
        = .ok (pre ++ [.StringElement v2])
    ∧ (∀ (as : List (String × Element)) (t : String),
        (applyAttributeSubstitutionsOnElements
            (pre ++ [.Paragraph as [[.AttributeSubstitution n, .StringElement t]]]) attrs).1
          = .ok (pre ++ [.Paragraph as [[.StringElement (v2 ++ t)]]]))
    ∧ (∀ before : List Element,
        (applyAttributeSubstitutionsOnElement (.AttributeSubstitution n)
            (applyAttributeSubstitutionsOnElements before attrs).2).1
          = .ok (.StringElement v2)) := by
  obtain ⟨h1, h2⟩ := declarations_loop pre attrs hpre
  rcases hl : applyAttributeSubstitutionsOnElementsLoop pre attrs with ⟨r, a1⟩
  rw [hl] at h1 h2
  simp only at h1 h2
  subst h1
  have hov1 : GoMap.get a1.Overrides n = some v2 := by rw [h2]; exact hov
  have href := reference_with_override n v2 a1 hov1
  refine ⟨?_, ?_, ?_⟩
  · rw [applyAttributeSubstitutionsOnElements, applyAttributeSubstitutionsOnElementsLoop_append,
      hl]
    simp only [applyAttributeSubstitutionsOnElementsLoop_cons,
      applyAttributeSubstitutionsOnElementsLoop_nil, href, Resolved.map_ok]
    rw [Merge_declarations pre _ hpre]
    simp [Merge]
  · intro as t
    have hpar : applyAttributeSubstitutionsOnElement
        (.Paragraph as [[.AttributeSubstitution n, .StringElement t]]) a1
          = (.ok (.Paragraph as [[.StringElement (v2 ++ t)]]), a1) := by
      simp [applyAttributeSubstitutionsOnElement, applyAttributeSubstitutionsOnLines,
        applyAttributeSubstitutionsOnElementsLoop_cons,
        applyAttributeSubstitutionsOnElementsLoop_nil, AttributesWithOverrides.GetAsString,
        hov1, Resolved.map, Merge]
    rw [applyAttributeSubstitutionsOnElements, applyAttributeSubstitutionsOnElementsLoop_append,
      hl]
    simp only [applyAttributeSubstitutionsOnElementsLoop_cons,
      applyAttributeSubstitutionsOnElementsLoop_nil, hpar, Resolved.map_ok]
    rw [Merge_declarations pre _ hpre]
    simp [Merge]
  · intro before
    have hb : (applyAttributeSubstitutionsOnElements before attrs).2.Overrides
        = attrs.Overrides :=
      applyAttributeSubstitutionsOnElements_rel (fun a b => b.Overrides = a.Overrides)
        (fun _ => rfl) (fun _ _ _ hab hbc => hbc.trans hab) (fun _ _ _ => rfl)
        (fun n h v a => (applyCounterSubstitution_frame n h v a).2) before attrs
    rw [reference_with_override n v2 _ (by rw [hb]; exact hov)]

/-- C2, on the repository's test: declaration `foo=foo`, reset of `foo`, then
a paragraph that refers to `foo`, with the live value `bar` and the override
`BAR`. -/
theorem override_takes_precedence_witness :
    (∀ e ∈ [Element.AttributeDeclaration "foo" "foo", Element.AttributeReset "foo"],
        e.isDeclarationOrReset = true)
    ∧ GoMap.get (AttributesWithOverrides.mk [("foo", .str "bar")] [("foo", "BAR")] []).Overrides
        "foo" = some "BAR"
    ∧ (applyAttributeSubstitutionsOnElements
          ([.AttributeDeclaration "foo" "foo", .AttributeReset "foo"] ++
            [.Paragraph [] [[.AttributeSubstitution "foo", .StringElement " and more content."]]])
          ⟨[("foo", .str "bar")], [("foo", "BAR")], []⟩).1
        = .ok ([.AttributeDeclaration "foo" "foo", .AttributeReset "foo"] ++
            [.Paragraph [] [[.StringElement ("BAR" ++ " and more content.")]]]) :=
  ⟨by simp [Element.isDeclarationOrReset], rfl,
    (override_takes_precedence "foo" "BAR"
      [.AttributeDeclaration "foo" "foo", .AttributeReset "foo"]
      ⟨[("foo", .str "bar")], [("foo", "BAR")], []⟩
      (by simp [Element.isDeclarationOrReset]) rfl).2.1 [] " and more content."⟩

/-- C3: the resolver never writes to the override mapping.  Whatever the
element sequence and the store, the overrides after
`applyAttributeSubstitutionsOnElements` are the overrides before it; a
declaration and a reset write the live mapping only, and a counter reference
leaves both the live mapping and the overrides alone. -/
theorem overrides_are_immutable (elements : List Element) (attrs : AttributesWithOverrides) :
    (applyAttributeSubstitutionsOnElements elements attrs).2.Overrides = attrs.Overrides
    ∧ (∀ name value,
        (applyAttributeSubstitutionsOnElement (.AttributeDeclaration name value) attrs).2
          = { attrs with Content := GoMap.set attrs.Content name (.str value) })
    ∧ (∀ name,
        (applyAttributeSubstitutionsOnElement (.AttributeReset name) attrs).2
          = { attrs with Content := GoMap.set attrs.Content name .nil })
    ∧ (∀ name hidden value,
        (applyAttributeSubstitutionsOnElement (.CounterSubstitution name hidden value) attrs).2.Overrides
            = attrs.Overrides
          ∧ (applyAttributeSubstitutionsOnElement (.CounterSubstitution name hidden value)
              attrs).2.Content = attrs.Content) := by
  refine ⟨?_, ?_, ?_, ?_⟩
  · exact applyAttributeSubstitutionsOnElements_rel (fun a b => b.Overrides = a.Overrides)
      (fun _ => rfl) (fun _ _ _ hab hbc => hbc.trans hab) (fun _ _ _ => rfl)
      (fun n h v a => (applyCounterSubstitution_frame n h v a).2) elements attrs
  · intro name value
    rw [applyAttributeSubstitutionsOnElement]
    rfl
  · intro name
    rw [applyAttributeSubstitutionsOnElement]
    rfl
  · intro name hidden value
    rw [applyAttributeSubstitutionsOnElement]
    exact ⟨(applyCounterSubstitution_frame name hidden value attrs).2,
      (applyCounterSubstitution_frame name hidden value attrs).1⟩

/-- C4: a paragraph whose lines are non-empty and made only of text elements
and of attribute references that the store resolves comes back, without error
and with the store as it was, with every such line reduced to one text
element: the in-order concatenation of the texts and the resolved values. -/
theorem paragraph_line_reduced_to_one_text (as : List (String × Element))
    (lines : List (List Element)) (attrs : AttributesWithOverrides)
    (h : ∀ line ∈ lines, line ≠ [] ∧ ∀ e ∈ line, e.isTextOrResolved attrs = true) :
    applyAttributeSubstitutionsOnElements [.Paragraph as lines] attrs
      = (.ok [.Paragraph as (lines.map fun line => [.StringElement (concatenation attrs line)])],
          attrs) := by
  simp [applyAttributeSubstitutionsOnElements, applyAttributeSubstitutionsOnElementsLoop_cons,
    applyAttributeSubstitutionsOnElementsLoop_nil, applyAttributeSubstitutionsOnElement,
    text_lines lines attrs h, Resolved.map, Merge]

/-- C4, on the repository's tests: `foo` followed by a text with `foo=bar`,
and the link line with `scheme=https` and `host=foo.bar`. -/
theorem paragraph_line_reduced_to_one_text_witness :
    applyAttributeSubstitutionsOnElements
        [.Paragraph [] [[.AttributeSubstitution "foo", .StringElement " and more content."]]]
        ⟨[("foo", .str "bar")], [], []⟩
      = (.ok [.Paragraph [] [[.StringElement "bar and more content."]]],
          ⟨[("foo", .str "bar")], [], []⟩)
    ∧ applyAttributeSubstitutionsOnElements
        [.Paragraph [] [[.StringElement "a link to ", .AttributeSubstitution "scheme",
          .StringElement "://", .AttributeSubstitution "host", .StringElement "[]."]]]
        ⟨[("foo", .str "bar"), ("scheme", .str "https"), ("host", .str "foo.bar")], [], []⟩
      = (.ok [.Paragraph [] [[.StringElement "a link to https://foo.bar[]."]]],
          ⟨[("foo", .str "bar"), ("scheme", .str "https"), ("host", .str "foo.bar")], [], []⟩) :=
  ⟨(paragraph_line_reduced_to_one_text []
      [[.AttributeSubstitution "foo", .StringElement " and more content."]]
      ⟨[("foo", .str "bar")], [], []⟩
      (by
        intro line hline
        rw [List.mem_singleton] at hline
        subst hline
        refine ⟨List.cons_ne_nil _ _, ?_⟩
        intro e he
        simp only [List.mem_cons, List.mem_singleton, List.not_mem_nil, or_false] at he
        rcases he with rfl | rfl <;> rfl)).trans rfl,
   (paragraph_line_reduced_to_one_text []
      [[.StringElement "a link to ", .AttributeSubstitution "scheme",
          .StringElement "://", .AttributeSubstitution "host", .StringElement "[]."]]
      ⟨[("foo", .str "bar"), ("scheme", .str "https"), ("host", .str "foo.bar")], [], []⟩
      (by
        intro line hline
        rw [List.mem_singleton] at hline
        subst hline
        refine ⟨List.cons_ne_nil _ _, ?_⟩
        intro e he
        simp only [List.mem_cons, List.mem_singleton, List.not_mem_nil, or_false] at he
        rcases he with rfl | rfl | rfl | rfl | rfl <;> rfl)).trans rfl⟩

/-! ## Counter references -/

/-- C5, as stated, fails where Go's `++` wraps or leaves the code points: a
counter that holds the largest `int` is stored as the smallest one (not as
`v+1`) and its text is that of the smallest one; a counter that holds the last
code point U+10FFFF is stored as the rune 0x110000, which is no character,
and its text is the replacement character U+FFFD. -/
theorem counter_increment_counterexample :
    GoMap.get (applyCounterSubstitution "n" false .nil
        ⟨[], [], [("n", .int 9223372036854775807)]⟩).2.Counters "n"
      = some (.int (-9223372036854775808))
    ∧ GoMap.get (applyCounterSubstitution "n" false .nil
        ⟨[], [], [("n", .int 9223372036854775807)]⟩).2.Counters "n"
      ≠ some (.int (9223372036854775807 + 1))
    ∧ (applyCounterSubstitution "n" false .nil
        ⟨[], [], [("n", .int 9223372036854775807)]⟩).1
      = .ok (.StringElement "-9223372036854775808")
    ∧ applyCounterSubstitution "c" false .nil ⟨[], [], [("c", .rune 0x10FFFF)]⟩
      = (.ok (.StringElement (String.singleton (Char.ofNat 0xFFFD))),
          ⟨[], [], [("c", .rune 0x110000)]⟩) := by
  refine ⟨by rfl, ?_, by rfl, by rfl⟩
  rw [show GoMap.get (applyCounterSubstitution "n" false .nil
        ⟨[], [], [("n", .int 9223372036854775807)]⟩).2.Counters "n"
      = some (.int (-9223372036854775808)) from by rfl]
  decide

/-- C5, amended: a counter reference without a pinned value, on a counter
below the largest value of its Go type, stores the successor under the
counter's name and, when it is not hidden, returns its text.  For a stored
`int` `v < 2^63 - 1` (a name with nothing stored counts as 0) that is `v+1`
and its decimal text; for a stored `rune` `c < 2^31 - 1` that is the rune
`c+1` and Go's `string(c+1)`, which is the single character with that code
point whenever `c+1` is a Unicode scalar value. -/
theorem counter_increment (name : String) (hidden : Bool) (attrs : AttributesWithOverrides) :
    (∀ v : Int,
      (GoMap.get attrs.Counters name = some (.int v)
        ∨ (GoMap.get attrs.Counters name = none ∧ v = 0)
        ∨ (GoMap.get attrs.Counters name = some .nil ∧ v = 0)) →
      -2 ^ 63 ≤ v → v < 2 ^ 63 - 1 →
      GoMap.get (applyCounterSubstitution name hidden .nil attrs).2.Counters name
          = some (.int (v + 1))
        ∧ (applyCounterSubstitution name hidden .nil attrs).1
          = .ok (.StringElement (if hidden then "" else Itoa (v + 1))))
    ∧ (∀ c : Int,
      GoMap.get attrs.Counters name = some (.rune c) →
      -2 ^ 31 ≤ c → c < 2 ^ 31 - 1 →
      GoMap.get (applyCounterSubstitution name hidden .nil attrs).2.Counters name
          = some (.rune (c + 1))
        ∧ (applyCounterSubstitution name hidden .nil attrs).1
          = .ok (.StringElement (if hidden then "" else runeToString (c + 1)))
        ∧ (isScalar (c + 1) = true →
            runeToString (c + 1) = String.singleton (Char.ofNat (c + 1).toNat))) := by
  constructor
  · intro v hv hlo hhi
    have hc : applyCounterSubstitution.counter name .nil attrs = .int v := by
      unfold applyCounterSubstitution.counter
      rcases hv with h | ⟨h, rfl⟩ | ⟨h, rfl⟩ <;> simp [h]
    rw [applyCounterSubstitution_int name hidden .nil attrs v hc]
    simp [GoMap.get_set_self, incInt_eq v hlo hhi]
  · intro c hv hlo hhi
    have hc : applyCounterSubstitution.counter name .nil attrs = .rune c := by
      unfold applyCounterSubstitution.counter
      simp [hv]
    rw [applyCounterSubstitution_rune name hidden .nil attrs c hc]
    refine ⟨?_, ?_, ?_⟩
    · simp [GoMap.get_set_self, incRune_eq c hlo hhi]
    · simp [incRune_eq c hlo hhi]
    · intro hs
      simp [runeToString, hs]

/-- C5, amended, at concrete inputs: the first reference to a fresh counter
yields `1` and stores 1; a reference to a counter that holds `a` yields `b`
and stores `b`. -/
theorem counter_increment_witness :
    (GoMap.get (applyCounterSubstitution "foo" false .nil ⟨[], [], []⟩).2.Counters "foo"
        = some (.int (0 + 1))
      ∧ (applyCounterSubstitution "foo" false .nil ⟨[], [], []⟩).1
        = .ok (.StringElement (if false then "" else Itoa (0 + 1))))
    ∧ (applyCounterSubstitution "foo" false .nil ⟨[], [], []⟩).1 = .ok (.StringElement "1")
    ∧ (GoMap.get (applyCounterSubstitution "alpha" false .nil
          ⟨[], [], [("alpha", .rune 97)]⟩).2.Counters "alpha" = some (.rune (97 + 1))
      ∧ (applyCounterSubstitution "alpha" false .nil ⟨[], [], [("alpha", .rune 97)]⟩).1
          = .ok (.StringElement (if false then "" else runeToString (97 + 1)))
      ∧ (isScalar (97 + 1) = true →
          runeToString (97 + 1) = String.singleton (Char.ofNat (97 + 1 : Int).toNat)))
    ∧ runeToString (97 + 1) = "b" :=
  ⟨(counter_increment "foo" false ⟨[], [], []⟩).1 0 (Or.inr (Or.inl ⟨rfl, rfl⟩))
      (by decide) (by decide),
    rfl,
    (counter_increment "alpha" false ⟨[], [], [("alpha", .rune 97)]⟩).2 97 rfl
      (by decide) (by decide),
    rfl⟩

/-- C6: a counter reference that pins an integer or a character `p` stores
exactly `p` under the counter's name, without incrementing it, and returns
the text of `p` itself when it is not hidden (the empty text when it is):
the decimal text of an integer, Go's `string(p)` of a character.  On the
repository's test, `alpha` pinned to `a` and hidden, then a plain reference
to `alpha`, yield `b`. -/
theorem pinned_counter_is_stored (name : String) (hidden : Bool)
    (attrs : AttributesWithOverrides) :
    (∀ p : Int,
      GoMap.get (applyCounterSubstitution name hidden (.int p) attrs).2.Counters name
          = some (.int p)
        ∧ (applyCounterSubstitution name hidden (.int p) attrs).1
          = .ok (.StringElement (if hidden then "" else Itoa p)))
    ∧ (∀ p : Int,
      GoMap.get (applyCounterSubstitution name hidden (.rune p) attrs).2.Counters name
          = some (.rune p)
        ∧ (applyCounterSubstitution name hidden (.rune p) attrs).1
          = .ok (.StringElement (if hidden then "" else runeToString p)))
    ∧ (applyAttributeSubstitutionsOnElements
          [.CounterSubstitution "alpha" true (.rune 97), .CounterSubstitution "alpha" false .nil]
          ⟨[], [], []⟩).1 = .ok [.StringElement "b"] := by
  refine ⟨?_, ?_, by rfl⟩
  · intro p
    rw [applyCounterSubstitution_int name hidden (.int p) attrs p
      (counter_of_pinned name (.int p) attrs (by simp))]
    simp [GoMap.get_set_self]
  · intro p
    rw [applyCounterSubstitution_rune name hidden (.rune p) attrs p
      (counter_of_pinned name (.rune p) attrs (by simp))]
    simp [GoMap.get_set_self]

/-- C7: a hidden counter reference whose counter is an integer or a character
returns the text element with empty content, and leaves the very store that
the same reference with the hidden flag cleared leaves. -/
theorem hidden_counter_advances (name : String) (value : Value)
    (attrs : AttributesWithOverrides)
    (hvalid : (applyCounterSubstitution.counter name value attrs).isCounterType = true) :
    (applyCounterSubstitution name true value attrs).1 = .ok (.StringElement "")
    ∧ (applyCounterSubstitution name true value attrs).2
      = (applyCounterSubstitution name false value attrs).2 := by
  cases hc : applyCounterSubstitution.counter name value attrs <;>
    simp [hc, Value.isCounterType] at hvalid
  case int v =>
    rw [applyCounterSubstitution_int name true value attrs v hc,
      applyCounterSubstitution_int name false value attrs v hc]
    exact ⟨rfl, rfl⟩
  case rune c =>
    rw [applyCounterSubstitution_rune name true value attrs c hc,
      applyCounterSubstitution_rune name false value attrs c hc]
    exact ⟨rfl, rfl⟩

/-- C7, on the repository's test: `set` pinned to 33 and hidden, `set` hidden,
`set` visible yield `35`; the hidden reference in the middle returns the empty
text and stores 34, as the visible one would. -/
theorem hidden_counter_advances_witness :
    (applyCounterSubstitution.counter "set" .nil ⟨[], [], [("set", .int 33)]⟩).isCounterType
      = true
    ∧ ((applyCounterSubstitution "set" true .nil ⟨[], [], [("set", .int 33)]⟩).1
        = .ok (.StringElement "")
      ∧ (applyCounterSubstitution "set" true .nil ⟨[], [], [("set", .int 33)]⟩).2
        = (applyCounterSubstitution "set" false .nil ⟨[], [], [("set", .int 33)]⟩).2)
    ∧ (applyCounterSubstitution "set" true .nil ⟨[], [], [("set", .int 33)]⟩).2
        = ⟨[], [], [("set", .int 34)]⟩
    ∧ (applyAttributeSubstitutionsOnElements
          [.CounterSubstitution "set" true (.int 33), .CounterSubstitution "set" true .nil,
            .CounterSubstitution "set" false .nil] ⟨[], [], []⟩).1
        = .ok [.StringElement "35"] :=
  ⟨rfl, hidden_counter_advances "set" .nil ⟨[], [], [("set", .int 33)]⟩ rfl, rfl, rfl⟩

/-- C8, as stated, fails: a pinned value may be smaller than the value the
counter holds (`set` pinned to 33, then pinned to 5, is stored as 33 and then
as 5), and an increment at the largest `int` wraps to the smallest one.  In
both sequences every element is a counter reference; the first has a pin
below the stored value, the second an increment from the largest value. -/
theorem counters_never_decrease_counterexample :
    storedAfter [.CounterSubstitution "set" true (.int 33),
        .CounterSubstitution "set" false (.int 5)] ⟨[], [], []⟩ "set" 1 = .int 33
    ∧ storedAfter [.CounterSubstitution "set" true (.int 33),
        .CounterSubstitution "set" false (.int 5)] ⟨[], [], []⟩ "set" 2 = .int 5
    ∧ (storedAfter [.CounterSubstitution "set" true (.int 33),
          .CounterSubstitution "set" false (.int 5)] ⟨[], [], []⟩ "set" 1).counterLe
        (storedAfter [.CounterSubstitution "set" true (.int 33),
          .CounterSubstitution "set" false (.int 5)] ⟨[], [], []⟩ "set" 2) = false
    ∧ (applyAttributeSubstitutionsOnElements [.CounterSubstitution "set" true (.int 33),
          .CounterSubstitution "set" false (.int 5)] ⟨[], [], []⟩).1
        = .ok [.StringElement "5"]
    ∧ (storedAfter [.CounterSubstitution "n" false .nil]
          ⟨[], [], [("n", .int 9223372036854775807)]⟩ "n" 0).counterLe
        (storedAfter [.CounterSubstitution "n" false .nil]
          ⟨[], [], [("n", .int 9223372036854775807)]⟩ "n" 1) = false
    ∧ notLowered
        (storedCounterAfter [.CounterSubstitution "set" true (.int 33),
          .CounterSubstitution "set" false (.int 5)] ⟨[], [], []⟩ "set" 1)
        (storedCounterAfter [.CounterSubstitution "set" true (.int 33),
          .CounterSubstitution "set" false (.int 5)] ⟨[], [], []⟩ "set" (1 + 1)) = false
    ∧ notLowered
        (storedCounterAfter [.CounterSubstitution "n" false .nil]
          ⟨[], [], [("n", .int 9223372036854775807)]⟩ "n" 0)
        (storedCounterAfter [.CounterSubstitution "n" false .nil]
          ⟨[], [], [("n", .int 9223372036854775807)]⟩ "n" (0 + 1)) = false
    ∧ notLowered
        (storedCounterAfter [.CounterSubstitution "set" true (.int 33),
          .CounterSubstitution "set" false (.int 5)] ⟨[], [], []⟩ "set" 1)
        (some (.int 5)) = false
    ∧ (currentCounter (applyAttributeSubstitutionsOnElements
          ([Element.CounterSubstitution "n" false .nil].take 0)
          ⟨[], [], [("n", .int 9223372036854775807)]⟩).2 "n").canIncrement = false := by
  refine ⟨by rfl, by rfl, ?_, by rfl, ?_, ?_, ?_, ?_, ?_⟩
  · rw [show storedAfter [.CounterSubstitution "set" true (.int 33),
        .CounterSubstitution "set" false (.int 5)] ⟨[], [], []⟩ "set" 1 = .int 33 from by rfl,
      show storedAfter [.CounterSubstitution "set" true (.int 33),
        .CounterSubstitution "set" false (.int 5)] ⟨[], [], []⟩ "set" 2 = .int 5 from by rfl]
    decide
  · rw [show storedAfter [.CounterSubstitution "n" false .nil]
          ⟨[], [], [("n", .int 9223372036854775807)]⟩ "n" 0 = .int 9223372036854775807
          from by rfl,
      show storedAfter [.CounterSubstitution "n" false .nil]
          ⟨[], [], [("n", .int 9223372036854775807)]⟩ "n" 1 = .int (-9223372036854775808)
          from by rfl]
    decide
  · rw [show storedCounterAfter [.CounterSubstitution "set" true (.int 33),
        .CounterSubstitution "set" false (.int 5)] ⟨[], [], []⟩ "set" 1 = some (.int 33)
        from by rfl,
      show storedCounterAfter [.CounterSubstitution "set" true (.int 33),
        .CounterSubstitution "set" false (.int 5)] ⟨[], [], []⟩ "set" (1 + 1) = some (.int 5)
        from by rfl]
    decide
  · rw [show storedCounterAfter [.CounterSubstitution "n" false .nil]
          ⟨[], [], [("n", .int 9223372036854775807)]⟩ "n" 0 = some (.int 9223372036854775807)
          from by rfl,
      show storedCounterAfter [.CounterSubstitution "n" false .nil]
          ⟨[], [], [("n", .int 9223372036854775807)]⟩ "n" (0 + 1)
          = some (.int (-9223372036854775808)) from by rfl]
    decide
  · rw [show storedCounterAfter [.CounterSubstitution "set" true (.int 33),
        .CounterSubstitution "set" false (.int 5)] ⟨[], [], []⟩ "set" 1 = some (.int 33)
        from by rfl]
    decide
  · rw [show currentCounter (applyAttributeSubstitutionsOnElements
          ([Element.CounterSubstitution "n" false .nil].take 0)
          ⟨[], [], [("n", .int 9223372036854775807)]⟩).2 "n" = .int 9223372036854775807
          from by rfl]
    decide

theorem notLowered_refl (x : Option Value) : notLowered x x = true := by
  cases x with
  | none => rfl
  | some v => exact Value.counterLe_refl v

theorem storedCounter_congr (a b : AttributesWithOverrides) (name : String)
    (h : GoMap.get b.Counters name = GoMap.get a.Counters name) :
    storedCounter b name = storedCounter a name := by
  unfold storedCounter
  rw [h]

theorem storedCounter_of_get (a : AttributesWithOverrides) (name : String) (v : Value)
    (h : GoMap.get a.Counters name = some v) (hv : v ≠ .nil) :
    storedCounter a name = some v := by
  unfold storedCounter
  rw [h]
  cases v <;> simp at hv ⊢

theorem storedCounter_pinned (n : String) (hidden : Bool) (p : Value)
    (a : AttributesWithOverrides) (hp : p ≠ .nil) :
    storedCounter (applyCounterSubstitution n hidden p a).2 n = some p := by
  have hpinned : GoMap.get (applyCounterSubstitution.pinned n p a).Counters n = some p := by
    unfold applyCounterSubstitution.pinned
    rw [if_pos hp]
    exact GoMap.get_set_self _ _ _
  have hcounter := counter_of_pinned n p a hp
  cases hc : (applyCounterSubstitution.counter n p a).isCounterType with
  | false =>
    rw [applyCounterSubstitution_invalid n hidden p a hc]
    exact storedCounter_of_get _ n p hpinned hp
  | true =>
    cases hv : applyCounterSubstitution.counter n p a with
    | int v =>
      rw [applyCounterSubstitution_int n hidden p a v hv, if_neg hp]
      rw [hcounter] at hv
      rw [hv]
      exact storedCounter_of_get _ n (.int v) (GoMap.get_set_self _ _ _) (by simp)
    | rune c =>
      rw [applyCounterSubstitution_rune n hidden p a c hv, if_neg hp]
      rw [hcounter] at hv
      rw [hv]
      exact storedCounter_of_get _ n (.rune c) (GoMap.get_set_self _ _ _) (by simp)
    | nil => rw [hv] at hc; exact Bool.noConfusion hc
    | str s => rw [hv] at hc; exact Bool.noConfusion hc
    | bool b => rw [hv] at hc; exact Bool.noConfusion hc
    | other t s => rw [hv] at hc; exact Bool.noConfusion hc

theorem storedCounter_le_current (a : AttributesWithOverrides) (n : String) :
    storedCounter a n = none ∨ storedCounter a n = some (currentCounter a n) := by
  unfold storedCounter currentCounter applyCounterSubstitution.counter
  cases GoMap.get a.Counters n with
  | none => exact Or.inl rfl
  | some v => cases v <;> simp

theorem counter_step_not_lowered (n : String) (hidden : Bool) (value : Value)
    (a : AttributesWithOverrides) (name : String)
    (hpin : value ≠ .nil → notLowered (storedCounter a n) (some value) = true)
    (hinc : value = .nil → (currentCounter a n).canIncrement = true) :
    notLowered (storedCounter a name)
      (storedCounter (applyCounterSubstitution n hidden value a).2 name) = true := by
  by_cases hne : name = n
  · subst hne
    by_cases hvalue : value = .nil
    · subst hvalue
      have hcan := hinc rfl
      have hcur : currentCounter a name = applyCounterSubstitution.counter name .nil a := rfl
      cases hc : (applyCounterSubstitution.counter name .nil a).isCounterType with
      | false =>
        rw [applyCounterSubstitution_invalid name hidden .nil a hc, pinned_nil]
        exact notLowered_refl _
      | true =>
        cases hv : applyCounterSubstitution.counter name .nil a with
        | int v =>
          rw [hcur, hv] at hcan
          simp only [Value.canIncrement, decide_eq_true_eq] at hcan
          rw [applyCounterSubstitution_int name hidden .nil a v hv, pinned_nil, if_pos rfl]
          dsimp only
          rw [storedCounter_of_get
              ⟨a.Content, a.Overrides, GoMap.set a.Counters name (.int (incInt v))⟩
              name (.int (incInt v)) (GoMap.get_set_self _ _ _) (by simp),
            incInt_eq v hcan.1 hcan.2]
          rcases storedCounter_le_current a name with h | h
          · rw [h]; rfl
          · rw [h, hcur, hv]
            simp [notLowered, Value.counterLe]
        | rune c =>
          rw [hcur, hv] at hcan
          simp only [Value.canIncrement, decide_eq_true_eq] at hcan
          rw [applyCounterSubstitution_rune name hidden .nil a c hv, pinned_nil, if_pos rfl]
          dsimp only
          rw [storedCounter_of_get
              ⟨a.Content, a.Overrides, GoMap.set a.Counters name (.rune (incRune c))⟩
              name (.rune (incRune c)) (GoMap.get_set_self _ _ _) (by simp),
            incRune_eq c hcan.1 hcan.2]
          rcases storedCounter_le_current a name with h | h
          · rw [h]; rfl
          · rw [h, hcur, hv]
            simp [notLowered, Value.counterLe]
        | nil => rw [hv] at hc; exact Bool.noConfusion hc
        | str s => rw [hv] at hc; exact Bool.noConfusion hc
        | bool b => rw [hv] at hc; exact Bool.noConfusion hc
        | other t s => rw [hv] at hc; exact Bool.noConfusion hc
    · rw [storedCounter_pinned name hidden value a hvalue]
      exact hpin hvalue
  · rw [storedCounter_congr a _ name
      (applyCounterSubstitution_other_counter n name hidden value a hne)]
    exact notLowered_refl _

/-- C8, amended: for every sequence of counter references, with or without
pinned values, processed in document order by
`applyAttributeSubstitutionsOnElements` from any store, and for every counter
name: the value stored for the name after `k + 1` elements is not below the
value stored for it after `k` elements (nothing is below the first value that
is stored), provided that no reference pins a value below the value that is
stored for its counter when the reference is reached, and that no reference
without a pinned value is reached when its counter holds the largest value of
its Go type. -/
theorem counters_never_decrease_unless_lowered (elements : List Element)
    (attrs : AttributesWithOverrides)
    (hrefs : ∀ e ∈ elements, e.isCounterReference = true)
    (hpins : ∀ (k : Nat) (n : String) (hidden : Bool) (p : Value),
      elements[k]? = some (.CounterSubstitution n hidden p) → p ≠ .nil →
      notLowered (storedCounterAfter elements attrs n k) (some p) = true)
    (hwrap : ∀ (k : Nat) (n : String) (hidden : Bool),
      elements[k]? = some (.CounterSubstitution n hidden .nil) →
      (currentCounter (applyAttributeSubstitutionsOnElements (elements.take k) attrs).2
        n).canIncrement = true) :
    ∀ (name : String) (k : Nat),
      notLowered (storedCounterAfter elements attrs name k)
        (storedCounterAfter elements attrs name (k + 1)) = true := by
  intro name k
  have hpins2 := hpins k
  have hwrap2 := hwrap k
  unfold storedCounterAfter at hpins2 ⊢
  simp only [applyAttributeSubstitutionsOnElements, Resolved.map_snd] at hpins2 hwrap2 ⊢
  rw [List.take_succ]
  cases hk : elements[k]? with
  | none =>
    simp only [Option.toList, List.append_nil]
    exact notLowered_refl _
  | some e =>
    have hmem : e ∈ elements := List.getElem?_mem hk
    have he := hrefs e hmem
    simp only [Option.toList]
    rw [applyAttributeSubstitutionsOnElementsLoop_append]
    rcases hl : applyAttributeSubstitutionsOnElementsLoop (elements.take k) attrs with ⟨r, a1⟩
    rw [hl] at hpins2 hwrap2
    cases r with
    | error err => exact notLowered_refl _
    | ok es =>
      simp only [Resolved.map_snd]
      cases e <;> simp [Element.isCounterReference] at he
      case CounterSubstitution n hidden value =>
        rw [applyAttributeSubstitutionsOnElementsLoop_cons, applyAttributeSubstitutionsOnElement]
        have hstep := counter_step_not_lowered n hidden value a1 name
          (fun hp => hpins2 n hidden value hk hp)
          (fun hnil => hwrap2 n hidden (by rw [hk, hnil]))
        rcases hr : applyCounterSubstitution n hidden value a1 with ⟨r1, a2⟩
        rw [hr] at hstep
        cases r1 with
        | error err => exact hstep
        | ok e1 =>
          simp only [Resolved.map_snd, applyAttributeSubstitutionsOnElementsLoop_nil]
          exact hstep

/-- C8, amended, on the elements of the test `should increment correctly`,
from the empty store: every element is a counter reference, neither pin
lowers a stored value and no increment starts from a largest value; the texts
are `1`, `1`, `2`, `b` and `35`, the counter `alpha` holds `a` and then `b`,
the counter `set` holds 33, 34 and 35, and no stored value is lowered. -/
theorem counters_never_decrease_unless_lowered_witness :
    (∀ e ∈ shouldIncrementCorrectly, e.isCounterReference = true)
    ∧ (∀ (k : Nat) (n : String) (hidden : Bool) (p : Value),
      shouldIncrementCorrectly[k]? = some (.CounterSubstitution n hidden p) → p ≠ .nil →
      notLowered (storedCounterAfter shouldIncrementCorrectly ⟨[], [], []⟩ n k) (some p) = true)
    ∧ (∀ (k : Nat) (n : String) (hidden : Bool),
      shouldIncrementCorrectly[k]? = some (.CounterSubstitution n hidden .nil) →
      (currentCounter
        (applyAttributeSubstitutionsOnElements (shouldIncrementCorrectly.take k) ⟨[], [], []⟩).2
        n).canIncrement = true)
    ∧ (applyAttributeSubstitutionsOnElements shouldIncrementCorrectly ⟨[], [], []⟩).1
      = .ok [.StringElement "112b35"]
    ∧ (List.range 9).map (storedCounterAfter shouldIncrementCorrectly ⟨[], [], []⟩ "foo")
      = [none, some (.int 1), some (.int 1), some (.int 2), some (.int 2), some (.int 2),
          some (.int 2), some (.int 2), some (.int 2)]
    ∧ (List.range 9).map (storedCounterAfter shouldIncrementCorrectly ⟨[], [], []⟩ "alpha")
      = [none, none, none, none, some (.rune 97), some (.rune 98), some (.rune 98),
          some (.rune 98), some (.rune 98)]
    ∧ (List.range 9).map (storedCounterAfter shouldIncrementCorrectly ⟨[], [], []⟩ "set")
      = [none, none, none, none, none, none, some (.int 33), some (.int 34), some (.int 35)]
    ∧ (∀ (name : String) (k : Nat),
      notLowered (storedCounterAfter shouldIncrementCorrectly ⟨[], [], []⟩ name k)
        (storedCounterAfter shouldIncrementCorrectly ⟨[], [], []⟩ name (k + 1)) = true) := by
  have hlen : shouldIncrementCorrectly.length = 8 := rfl
  have hrefs : ∀ e ∈ shouldIncrementCorrectly, e.isCounterReference = true := by
    intro e he
    simp only [shouldIncrementCorrectly, List.mem_cons, List.mem_singleton, List.not_mem_nil,
      or_false] at he
    rcases he with rfl | rfl | rfl | rfl | rfl | rfl | rfl | rfl <;> rfl
  have hpins : ∀ (k : Nat) (n : String) (hidden : Bool) (p : Value),
      shouldIncrementCorrectly[k]? = some (.CounterSubstitution n hidden p) → p ≠ .nil →
      notLowered (storedCounterAfter shouldIncrementCorrectly ⟨[], [], []⟩ n k) (some p)
        = true := by
    intro k n hidden p hk hp
    have hlt : k < 8 := by
      by_contra hge
      rw [List.getElem?_eq_none (by rw [hlen]; omega)] at hk
      cases hk
    interval_cases k <;>
      simp only [shouldIncrementCorrectly, List.getElem?_cons_zero, List.getElem?_cons_succ,
        Option.some.injEq, Element.CounterSubstitution.injEq] at hk <;>
      obtain ⟨rfl, rfl, rfl⟩ := hk <;>
      first | exact absurd rfl hp | rfl
  have hwrap : ∀ (k : Nat) (n : String) (hidden : Bool),
      shouldIncrementCorrectly[k]? = some (.CounterSubstitution n hidden .nil) →
      (currentCounter
        (applyAttributeSubstitutionsOnElements (shouldIncrementCorrectly.take k) ⟨[], [], []⟩).2
        n).canIncrement = true := by
    intro k n hidden hk
    have hlt : k < 8 := by
      by_contra hge
      rw [List.getElem?_eq_none (by rw [hlen]; omega)] at hk
      cases hk
    interval_cases k <;>
      simp only [shouldIncrementCorrectly, List.getElem?_cons_zero, List.getElem?_cons_succ,
        Option.some.injEq, Element.CounterSubstitution.injEq] at hk <;>
      obtain ⟨rfl, rfl, -⟩ := hk <;> rfl
  exact ⟨hrefs, hpins, hwrap, rfl, rfl, rfl, rfl,
    counters_never_decrease_unless_lowered shouldIncrementCorrectly ⟨[], [], []⟩
      hrefs hpins hwrap⟩

/-- C9: a counter reference to the name `n` changes at most the entry of `n`
in the counters: every other counter name `m` reads the same after the call
as before it, and the live attribute mapping and the override mapping are
the same. -/
theorem counter_reference_frame (n m : String) (hidden : Bool) (value : Value)
    (attrs : AttributesWithOverrides) (hne : m ≠ n) :
    GoMap.get (applyCounterSubstitution n hidden value attrs).2.Counters m
        = GoMap.get attrs.Counters m
    ∧ (applyCounterSubstitution n hidden value attrs).2.Content = attrs.Content
    ∧ (applyCounterSubstitution n hidden value attrs).2.Overrides = attrs.Overrides :=
  ⟨applyCounterSubstitution_other_counter n m hidden value attrs hne,
    (applyCounterSubstitution_frame n hidden value attrs).1,
    (applyCounterSubstitution_frame n hidden value attrs).2⟩

/-- C9, on the repository's test: after `foo` has been referred to once, a
reference to `bar` leaves `foo` at 1, and the references `foo`, `bar`, `foo`
yield 1, 1 and 2. -/
theorem counter_reference_frame_witness :
    "foo" ≠ "bar"
    ∧ (GoMap.get (applyCounterSubstitution "bar" false .nil
          ⟨[("a", .str "b")], [("c", "d")], [("foo", .int 1)]⟩).2.Counters "foo"
        = GoMap.get (AttributesWithOverrides.mk [("a", .str "b")] [("c", "d")]
            [("foo", .int 1)]).Counters "foo"
      ∧ (applyCounterSubstitution "bar" false .nil
          ⟨[("a", .str "b")], [("c", "d")], [("foo", .int 1)]⟩).2.Content = [("a", .str "b")]
      ∧ (applyCounterSubstitution "bar" false .nil
          ⟨[("a", .str "b")], [("c", "d")], [("foo", .int 1)]⟩).2.Overrides = [("c", "d")])
    ∧ (applyAttributeSubstitutionsOnElementsLoop
          [.CounterSubstitution "foo" false .nil, .CounterSubstitution "bar" false .nil,
            .CounterSubstitution "foo" false .nil] ⟨[], [], []⟩)
        = (.ok [.StringElement "1", .StringElement "1", .StringElement "2"],
            ⟨[], [], [("foo", .int 2), ("bar", .int 1)]⟩) :=
  ⟨by decide,
    counter_reference_frame "bar" "foo" false .nil
      ⟨[("a", .str "b")], [("c", "d")], [("foo", .int 1)]⟩ (by decide),
    rfl⟩

/-- C10: `applyCounterSubstitution` returns an error exactly when the value of
its local `counter` (the pinned value when the reference has one, otherwise
the stored value, otherwise the integer 0) is neither an `int` nor a `rune`,
and it returns a text element, without error, exactly in the other case. -/
theorem counter_error_iff_invalid_type (name : String) (hidden : Bool) (value : Value)
    (attrs : AttributesWithOverrides) :
    ((∃ err, (applyCounterSubstitution name hidden value attrs).1 = .error err)
        ↔ (applyCounterSubstitution.counter name value attrs).isCounterType = false)
    ∧ ((∃ content, (applyCounterSubstitution name hidden value attrs).1
            = .ok (.StringElement content))
        ↔ (applyCounterSubstitution.counter name value attrs).isCounterType = true) := by
  cases hc : (applyCounterSubstitution.counter name value attrs).isCounterType
  · rw [applyCounterSubstitution_invalid name hidden value attrs hc]
    simp
  · cases hv : applyCounterSubstitution.counter name value attrs <;>
      simp [hv, Value.isCounterType] at hc
    case int v =>
      rw [applyCounterSubstitution_int name hidden value attrs v hv]
      simp
    case rune c =>
      rw [applyCounterSubstitution_rune name hidden value attrs c hv]
      simp

/-! ## Declarations and resets -/

theorem Merge_cons_declaration (e : Element) (l : List Element)
    (he : e.isDeclarationOrReset = true) : Merge (e :: l) = e :: Merge l := by
  cases e <;> simp [Element.isDeclarationOrReset] at he
  all_goals simp [Merge]

theorem Merge_append_declaration (xs ys : List Element) (e : Element)
    (he : e.isDeclarationOrReset = true) :
    Merge (xs ++ e :: ys) = Merge xs ++ e :: Merge ys := by
  induction xs with
  | nil => simpa [Merge] using Merge_cons_declaration e ys he
  | cons x rest ih =>
    cases x
    case StringElement a =>
      rw [List.cons_append, Merge, ih, Merge]
      cases hm : Merge rest with
      | nil =>
        cases e <;> simp [Element.isDeclarationOrReset] at he
        all_goals simp
      | cons m t =>
        cases m <;> simp
    all_goals simp [Merge, ih]

theorem declaration_in_sequence (pre post : List Element) (node : Element)
    (set : AttributesWithOverrides → AttributesWithOverrides)
    (a : AttributesWithOverrides)
    (he : node.isDeclarationOrReset = true)
    (hnode : ∀ a1, applyAttributeSubstitutionsOnElement node a1 = (.ok node, set a1)) :
    applyAttributeSubstitutionsOnElements (pre ++ node :: post) a
      = match applyAttributeSubstitutionsOnElementsLoop pre a with
        | (.error err, a1) => (.error err, a1)
        | (.ok pre1, a1) =>
          match applyAttributeSubstitutionsOnElementsLoop post (set a1) with
          | (.error err, a2) => (.error err, a2)
          | (.ok post1, a2) => (.ok (Merge pre1 ++ node :: Merge post1), a2) := by
  rw [applyAttributeSubstitutionsOnElements, applyAttributeSubstitutionsOnElementsLoop_append]
  rcases applyAttributeSubstitutionsOnElementsLoop pre a with ⟨r, a1⟩
  cases r with
  | error err => rfl
  | ok pre1 =>
    simp only [applyAttributeSubstitutionsOnElementsLoop_cons, hnode]
    rcases applyAttributeSubstitutionsOnElementsLoop post (set a1) with ⟨r2, a2⟩
    cases r2 with
    | error err => rfl
    | ok post1 =>
      simp only [Resolved.map_ok, List.cons_append]
      rw [Merge_append_declaration pre1 post1 node he]

/-- C11: an attribute declaration and an attribute reset come back from
`applyAttributeSubstitutionsOnElement` as they are and without error; the
live mapping then holds the declared value for the name, or the name with
the nil value of a reset.  In a resolved sequence the node stays in its
place, between the resolved elements that came before it and the resolved
elements that came after it. -/
theorem declaration_and_reset_left_in_place (attrs : AttributesWithOverrides) :
    (∀ n v : String,
      applyAttributeSubstitutionsOnElement (.AttributeDeclaration n v) attrs
          = (.ok (.AttributeDeclaration n v), attrs.Set n (.str v))
        ∧ GoMap.get (attrs.Set n (.str v)).Content n = some (.str v))
    ∧ (∀ n : String,
      applyAttributeSubstitutionsOnElement (.AttributeReset n) attrs
          = (.ok (.AttributeReset n), attrs.Set n .nil)
        ∧ GoMap.get (attrs.Set n .nil).Content n = some .nil)
    ∧ (∀ (pre post : List Element) (n v : String),
      applyAttributeSubstitutionsOnElements (pre ++ .AttributeDeclaration n v :: post) attrs
        = match applyAttributeSubstitutionsOnElementsLoop pre attrs with
          | (.error err, a1) => (.error err, a1)
          | (.ok pre1, a1) =>
            match applyAttributeSubstitutionsOnElementsLoop post (a1.Set n (.str v)) with
            | (.error err, a2) => (.error err, a2)
            | (.ok post1, a2) =>
              (.ok (Merge pre1 ++ .AttributeDeclaration n v :: Merge post1), a2))
    ∧ (∀ (pre post : List Element) (n : String),
      applyAttributeSubstitutionsOnElements (pre ++ .AttributeReset n :: post) attrs
        = match applyAttributeSubstitutionsOnElementsLoop pre attrs with
          | (.error err, a1) => (.error err, a1)
          | (.ok pre1, a1) =>
            match applyAttributeSubstitutionsOnElementsLoop post (a1.Set n .nil) with
            | (.error err, a2) => (.error err, a2)
            | (.ok post1, a2) => (.ok (Merge pre1 ++ .AttributeReset n :: Merge post1), a2)) := by
  refine ⟨?_, ?_, ?_, ?_⟩
  · intro n v
    refine ⟨by rw [applyAttributeSubstitutionsOnElement], ?_⟩
    exact GoMap.get_set_self _ _ _
  · intro n
    refine ⟨by rw [applyAttributeSubstitutionsOnElement], ?_⟩
    exact GoMap.get_set_self _ _ _
  · intro pre post n v
    exact declaration_in_sequence pre post (.AttributeDeclaration n v)
      (fun a1 => a1.Set n (.str v)) attrs rfl
      (fun a1 => by rw [applyAttributeSubstitutionsOnElement])
  · intro pre post n
    exact declaration_in_sequence pre post (.AttributeReset n)
      (fun a1 => a1.Set n .nil) attrs rfl
      (fun a1 => by rw [applyAttributeSubstitutionsOnElement])

/-- C11, on the repository's test: the declaration `foo=foo` and the reset of
`foo` are still the first two elements after the resolution, and the live
mapping ends with `foo` reset. -/
theorem declaration_and_reset_left_in_place_witness :
    applyAttributeSubstitutionsOnElements
        ([] ++ .AttributeDeclaration "foo" "foo" ::
          [.AttributeReset "foo",
            .Paragraph [] [[.AttributeSubstitution "foo", .StringElement " and more content."]]])
        ⟨[("foo", .str "bar")], [("foo", "BAR")], []⟩
      = (.ok [.AttributeDeclaration "foo" "foo", .AttributeReset "foo",
            .Paragraph [] [[.StringElement "BAR and more content."]]],
          ⟨[("foo", .nil)], [("foo", "BAR")], []⟩) :=
  ((declaration_and_reset_left_in_place
      ⟨[("foo", .str "bar")], [("foo", "BAR")], []⟩).2.2.1 []
      [.AttributeReset "foo",
        .Paragraph [] [[.AttributeSubstitution "foo", .StringElement " and more content."]]]
      "foo" "foo").trans rfl

theorem applyAttributeSubstitutionsOnElement_declaration (n v : String)
    (a : AttributesWithOverrides) :
    applyAttributeSubstitutionsOnElement (.AttributeDeclaration n v) a
      = (.ok (.AttributeDeclaration n v), a.Set n (.str v)) := by
  rw [applyAttributeSubstitutionsOnElement]

theorem applyAttributeSubstitutionsOnElement_reset (n : String) (a : AttributesWithOverrides) :
    applyAttributeSubstitutionsOnElement (.AttributeReset n) a
      = (.ok (.AttributeReset n), a.Set n .nil) := by
  rw [applyAttributeSubstitutionsOnElement]

theorem applyAttributeSubstitutionsOnElement_text (content : String)
    (a : AttributesWithOverrides) :
    applyAttributeSubstitutionsOnElement (.StringElement content) a
      = (.ok (.StringElement content), a) := by
  simp only [applyAttributeSubstitutionsOnElement]

theorem applyAttributeSubstitutionsOnElement_paragraph (as : List (String × Element))
    (lines : List (List Element)) (a : AttributesWithOverrides) :
    applyAttributeSubstitutionsOnElement (.Paragraph as lines) a
      = Resolved.map (.Paragraph as ·) (applyAttributeSubstitutionsOnLines lines a) := by
  rw [applyAttributeSubstitutionsOnElement]

theorem applyAttributeSubstitutionsOnLines_nil (a : AttributesWithOverrides) :
    applyAttributeSubstitutionsOnLines [] a = (.ok [], a) := by
  rw [applyAttributeSubstitutionsOnLines]

theorem applyAttributeSubstitutionsOnLines_cons (line : List Element)
    (rest : List (List Element)) (a : AttributesWithOverrides) :
    applyAttributeSubstitutionsOnLines (line :: rest) a
      = match Resolved.map Merge (applyAttributeSubstitutionsOnElementsLoop line a) with
        | (.error err, a1) => (.error err, a1)
        | (.ok line1, a1) =>
          Resolved.map (line1 :: ·) (applyAttributeSubstitutionsOnLines rest a1) := by
  rw [applyAttributeSubstitutionsOnLines]

theorem reference_not_found (n : String) (a : AttributesWithOverrides)
    (hno : GoMap.get a.Overrides n = none)
    (hlive : GoMap.get a.Content n = none ∨ GoMap.get a.Content n = some .nil) :
    applyAttributeSubstitutionsOnElement (.AttributeSubstitution n) a
      = (.ok (.StringElement ("\x7b" ++ n ++ "\x7d")), a) := by
  rcases hlive with h | h <;>
    simp [applyAttributeSubstitutionsOnElement, AttributesWithOverrides.GetAsString,
      Attributes.GetAsString, hno, h]

theorem reference_live_string (n v : String) (a : AttributesWithOverrides)
    (hno : GoMap.get a.Overrides n = none)
    (hlive : GoMap.get a.Content n = some (.str v)) :
    applyAttributeSubstitutionsOnElement (.AttributeSubstitution n) a
      = (.ok (.StringElement v), a) := by
  simp [applyAttributeSubstitutionsOnElement, AttributesWithOverrides.GetAsString,
    Attributes.GetAsString, hno, hlive]

/-- C12: for a name `n` without an override, a reference to `n` that comes
after a reset of `n` is resolved to the text that holds `n` between braces,
as for a name that was never declared, whatever the live mapping held for
`n` and whatever was declared for it before the reset. -/
theorem reset_reference_yields_literal (n : String) (attrs : AttributesWithOverrides)
    (hno : GoMap.get attrs.Overrides n = none) :
    applyAttributeSubstitutionsOnElement (.AttributeSubstitution n)
        (applyAttributeSubstitutionsOnElement (.AttributeReset n) attrs).2
      = (.ok (.StringElement ("\x7b" ++ n ++ "\x7d")), attrs.Set n .nil)
    ∧ (∀ v : String,
      (applyAttributeSubstitutionsOnElements
          [.AttributeDeclaration n v, .AttributeReset n, .AttributeSubstitution n] attrs).1
        = .ok [.AttributeDeclaration n v, .AttributeReset n,
            .StringElement ("\x7b" ++ n ++ "\x7d")])
    ∧ (∀ (as : List (String × Element)) (t : String),
      (applyAttributeSubstitutionsOnElements
          [.AttributeReset n, .Paragraph as [[.StringElement t, .AttributeSubstitution n]]]
          attrs).1
        = .ok [.AttributeReset n,
            .Paragraph as [[.StringElement (t ++ ("\x7b" ++ n ++ "\x7d"))]]]) := by
  have hreset : ∀ a : AttributesWithOverrides, GoMap.get a.Overrides n = none →
      applyAttributeSubstitutionsOnElement (.AttributeSubstitution n) (a.Set n .nil)
        = (.ok (.StringElement ("\x7b" ++ n ++ "\x7d")), a.Set n .nil) := fun a ha =>
    reference_not_found n (a.Set n .nil) ha (Or.inr (GoMap.get_set_self _ _ _))
  refine ⟨?_, ?_, ?_⟩
  · rw [applyAttributeSubstitutionsOnElement_reset]
    exact hreset attrs hno
  · intro v
    have h2 := hreset (attrs.Set n (.str v)) hno
    simp only [applyAttributeSubstitutionsOnElements,
      applyAttributeSubstitutionsOnElementsLoop_cons,
      applyAttributeSubstitutionsOnElementsLoop_nil,
      applyAttributeSubstitutionsOnElement_declaration,
      applyAttributeSubstitutionsOnElement_reset, h2, Resolved.map_ok]
    simp [Merge]
  · intro as t
    have h2 := hreset attrs hno
    simp only [applyAttributeSubstitutionsOnElements,
      applyAttributeSubstitutionsOnElementsLoop_cons,
      applyAttributeSubstitutionsOnElementsLoop_nil,
      applyAttributeSubstitutionsOnElement_reset,
      applyAttributeSubstitutionsOnElement_paragraph,
      applyAttributeSubstitutionsOnElement_text,
      applyAttributeSubstitutionsOnLines_cons, applyAttributeSubstitutionsOnLines_nil,
      h2, Resolved.map_ok]
    simp [Merge]

/-- C12, on the repository's test: `path` is declared as `foo.bar` and then
reset, and the line `a link to {scheme}://{path}` is resolved with `scheme`
set to `https`: the reference to `path` becomes the text `{path}`. -/
theorem reset_reference_yields_literal_witness :
    GoMap.get (AttributesWithOverrides.mk [("scheme", .str "https"), ("path", .str "foo.bar")]
        [] []).Overrides "path" = none
    ∧ applyAttributeSubstitutionsOnElement (.AttributeSubstitution "path")
        (applyAttributeSubstitutionsOnElement (.AttributeReset "path")
          ⟨[("scheme", .str "https"), ("path", .str "foo.bar")], [], []⟩).2
      = (.ok (.StringElement "\x7bpath\x7d"),
          ⟨[("scheme", .str "https"), ("path", .nil)], [], []⟩)
    ∧ (applyAttributeSubstitutionsOnElements
        [.AttributeDeclaration "path" "foo.bar", .AttributeReset "path",
          .Paragraph [] [[.StringElement "a link to ", .AttributeSubstitution "scheme",
            .StringElement "://", .AttributeSubstitution "path"]]]
        ⟨[("scheme", .str "https")], [], []⟩).1
      = .ok [.AttributeDeclaration "path" "foo.bar", .AttributeReset "path",
          .Paragraph [] [[.StringElement "a link to https://\x7bpath\x7d"]]] :=
  ⟨rfl,
    (reset_reference_yields_literal "path"
      ⟨[("scheme", .str "https"), ("path", .str "foo.bar")], [], []⟩ rfl).1.trans rfl,
    rfl⟩

/-- C13: for a name `n` without an override, a declaration takes effect where
it stands: in the sequence declare `n=v1`, refer to `n`, declare `n=v2`, refer
to `n`, the first reference becomes the text `v1` and the second the text
`v2`; a reference that comes before the first declaration, from a store that
does not hold `n`, becomes the text that holds `n` between braces. -/
theorem later_declaration_shadows_earlier (n v1 v2 : String) (attrs : AttributesWithOverrides)
    (hno : GoMap.get attrs.Overrides n = none) :
    (applyAttributeSubstitutionsOnElements
        [.AttributeDeclaration n v1, .AttributeSubstitution n,
          .AttributeDeclaration n v2, .AttributeSubstitution n] attrs).1
      = .ok [.AttributeDeclaration n v1, .StringElement v1,
          .AttributeDeclaration n v2, .StringElement v2]
    ∧ (GoMap.get attrs.Content n = none →
      (applyAttributeSubstitutionsOnElements
          [.AttributeSubstitution n, .AttributeDeclaration n v1, .AttributeSubstitution n]
          attrs).1
        = .ok [.StringElement ("\x7b" ++ n ++ "\x7d"), .AttributeDeclaration n v1,
            .StringElement v1]) := by
  have hdecl : ∀ (a : AttributesWithOverrides) (v : String), GoMap.get a.Overrides n = none →
      applyAttributeSubstitutionsOnElement (.AttributeSubstitution n) (a.Set n (.str v))
        = (.ok (.StringElement v), a.Set n (.str v)) := fun a v ha =>
    reference_live_string n v (a.Set n (.str v)) ha (GoMap.get_set_self _ _ _)
  refine ⟨?_, ?_⟩
  · have h1 := hdecl attrs v1 hno
    have h2 := hdecl (attrs.Set n (.str v1)) v2 hno
    simp only [applyAttributeSubstitutionsOnElements,
      applyAttributeSubstitutionsOnElementsLoop_cons,
      applyAttributeSubstitutionsOnElementsLoop_nil,
      applyAttributeSubstitutionsOnElement_declaration, h1, h2, Resolved.map_ok]
    simp [Merge]
  · intro hlive
    have h0 := reference_not_found n attrs hno (Or.inl hlive)
    have h1 := hdecl attrs v1 hno
    simp only [applyAttributeSubstitutionsOnElements,
      applyAttributeSubstitutionsOnElementsLoop_cons,
      applyAttributeSubstitutionsOnElementsLoop_nil,
      applyAttributeSubstitutionsOnElement_declaration, h0, h1, Resolved.map_ok]
    simp [Merge]

/-- C13, on the repository's test: `url` is declared as `https://foo.bar` and
then as `https://foo2.bar`, and the reference that follows becomes
`https://foo2.bar`. -/
theorem later_declaration_shadows_earlier_witness :
    GoMap.get (AttributesWithOverrides.mk [] [] []).Overrides "url" = none
    ∧ (applyAttributeSubstitutionsOnElements
        [.AttributeDeclaration "url" "https://foo.bar", .AttributeSubstitution "url",
          .AttributeDeclaration "url" "https://foo2.bar", .AttributeSubstitution "url"]
        ⟨[], [], []⟩).1
      = .ok [.AttributeDeclaration "url" "https://foo.bar", .StringElement "https://foo.bar",
          .AttributeDeclaration "url" "https://foo2.bar", .StringElement "https://foo2.bar"]
    ∧ (applyAttributeSubstitutionsOnElements
        [.AttributeSubstitution "url", .AttributeDeclaration "url" "https://foo.bar",
          .AttributeSubstitution "url"] ⟨[], [], []⟩).1
      = .ok [.StringElement ("\x7b" ++ "url" ++ "\x7d"),
          .AttributeDeclaration "url" "https://foo.bar", .StringElement "https://foo.bar"]
    ∧ (applyAttributeSubstitutionsOnElements
        [.AttributeDeclaration "url" "https://foo.bar",
          .AttributeDeclaration "url" "https://foo2.bar",
          .Paragraph [] [[.StringElement "a link to ", .AttributeSubstitution "url"]]]
        ⟨[], [], []⟩).1
      = .ok [.AttributeDeclaration "url" "https://foo.bar",
          .AttributeDeclaration "url" "https://foo2.bar",
          .Paragraph [] [[.StringElement "a link to https://foo2.bar"]]] :=
  ⟨rfl,
    (later_declaration_shadows_earlier "url" "https://foo.bar" "https://foo2.bar"
      ⟨[], [], []⟩ rfl).1,
    (later_declaration_shadows_earlier "url" "https://foo.bar" "https://foo2.bar"
      ⟨[], [], []⟩ rfl).2 rfl,
    rfl⟩

/-- C14: `Attributes.GetAsStringWithDefault(k, d)` returns `d` when the map
does not hold `k`, the empty string when it holds `k` with the nil value of a
reset, the value itself when it is a string, and otherwise the string that
`fmt.Sprintf("%v", ..)` makes of the value; so a reset name and a name that
was never declared give different results whenever `d` is not empty. -/
theorem GetAsStringWithDefault_cases (a : Attributes) (k d : String) :
    (GoMap.get a k = none → Attributes.GetAsStringWithDefault a k d = d)
    ∧ (GoMap.get a k = some .nil → Attributes.GetAsStringWithDefault a k d = "")
    ∧ (∀ s : String, GoMap.get a k = some (.str s) →
        Attributes.GetAsStringWithDefault a k d = s)
    ∧ (∀ v : Value, GoMap.get a k = some v → v ≠ .nil → (∀ s : String, v ≠ .str s) →
        Attributes.GetAsStringWithDefault a k d = v.sprint)
    ∧ (∀ a2 : Attributes, d ≠ "" → GoMap.get a k = some .nil → GoMap.get a2 k = none →
        Attributes.GetAsStringWithDefault a k d ≠ Attributes.GetAsStringWithDefault a2 k d) := by
  refine ⟨?_, ?_, ?_, ?_, ?_⟩
  · intro h
    simp [Attributes.GetAsStringWithDefault, h]
  · intro h
    simp [Attributes.GetAsStringWithDefault, h]
  · intro s h
    simp [Attributes.GetAsStringWithDefault, h]
  · intro v h hnil hstr
    cases v with
    | nil => exact absurd rfl hnil
    | str s => exact absurd rfl (hstr s)
    | bool b => simp [Attributes.GetAsStringWithDefault, h]
    | int n => simp [Attributes.GetAsStringWithDefault, h]
    | rune r => simp [Attributes.GetAsStringWithDefault, h]
    | other t r => simp [Attributes.GetAsStringWithDefault, h]
  · intro a2 hd h1 h2
    simp [Attributes.GetAsStringWithDefault, h1, h2]
    exact fun h => hd h.symm

/-- C14, on a map that holds a string, a reset, a boolean and a structured
value: the four cases of the lookup with the default `_`. -/
theorem GetAsStringWithDefault_cases_witness :
    Attributes.GetAsStringWithDefault
        [("idseparator", .str "-"), ("idprefix", .nil), ("experimental", .bool true),
          ("role", .other "types.ElementRole" "[a b]")] "sectids" "_" = "_"
    ∧ Attributes.GetAsStringWithDefault
        [("idseparator", .str "-"), ("idprefix", .nil), ("experimental", .bool true),
          ("role", .other "types.ElementRole" "[a b]")] "idprefix" "_" = ""
    ∧ Attributes.GetAsStringWithDefault
        [("idseparator", .str "-"), ("idprefix", .nil), ("experimental", .bool true),
          ("role", .other "types.ElementRole" "[a b]")] "idseparator" "_" = "-"
    ∧ Attributes.GetAsStringWithDefault
        [("idseparator", .str "-"), ("idprefix", .nil), ("experimental", .bool true),
          ("role", .other "types.ElementRole" "[a b]")] "experimental" "_"
        = (Value.bool true).sprint
    ∧ Attributes.GetAsStringWithDefault
        [("idseparator", .str "-"), ("idprefix", .nil), ("experimental", .bool true),
          ("role", .other "types.ElementRole" "[a b]")] "role" "_" = "[a b]"
    ∧ Attributes.GetAsStringWithDefault [("idprefix", .nil)] "idprefix" "_"
        ≠ Attributes.GetAsStringWithDefault [] "idprefix" "_" :=
  ⟨(GetAsStringWithDefault_cases _ "sectids" "_").1 rfl,
    (GetAsStringWithDefault_cases _ "idprefix" "_").2.1 rfl,
    (GetAsStringWithDefault_cases _ "idseparator" "_").2.2.1 "-" rfl,
    (GetAsStringWithDefault_cases _ "experimental" "_").2.2.2.1 (.bool true) rfl
      (by simp) (by simp),
    rfl,
    (GetAsStringWithDefault_cases [("idprefix", .nil)] "idprefix" "_").2.2.2.2 []
      (by decide) rfl rfl⟩

/-! ## The substitution selector -/

theorem defaultSubstitutionsFor_registered (block : Element) :
    ∀ n ∈ defaultSubstitutionsFor block, (GoMap.get substitutions n).isSome = true := by
  unfold defaultSubstitutionsFor
  split
  all_goals first
    | decide
    | (split <;> decide)

theorem names_registered :
    ∀ n ∈ substitutionsFor.names, (GoMap.get substitutions n).isSome = true := by decide

theorem appended_registered :
    ∀ s ∈ substitutionsFor.appended,
      (GoMap.get substitutions (ReplaceAllByNothing s '+')).isSome = true := by decide

theorem prepended_registered :
    ∀ s ∈ substitutionsFor.prepended,
      (GoMap.get substitutions (ReplaceAllByNothing s '+')).isSome = true := by decide

theorem funcs.remove_subset (f : funcs) (other : String) :
    ∀ n ∈ funcs.remove f other, n ∈ f := by
  induction f with
  | nil => intro n hn; simp [funcs.remove] at hn
  | cons s rest ih =>
    intro n hn
    unfold funcs.remove at hn
    split at hn
    · exact List.mem_cons_of_mem _ hn
    · rcases List.mem_cons.mp hn with h | h
      · exact h ▸ List.mem_cons_self _ _
      · exact List.mem_cons_of_mem _ (ih n h)

theorem seeded_registered (block : Element) (subs : funcs)
    (h : ∀ n ∈ subs, (GoMap.get substitutions n).isSome = true) :
    ∀ n ∈ substitutionsFor.seeded block subs, (GoMap.get substitutions n).isSome = true := by
  unfold substitutionsFor.seeded
  split
  · intro n hn
    rcases List.mem_append.mp hn with h1 | h1
    · exact h n h1
    · exact defaultSubstitutionsFor_registered block n h1
  · exact h

theorem token_registered (block : Element) (subs subs1 : funcs) (s : String)
    (h : ∀ n ∈ subs, (GoMap.get substitutions n).isSome = true)
    (hs : substitutionsFor.token block subs s = .ok subs1) :
    ∀ n ∈ subs1, (GoMap.get substitutions n).isSome = true := by
  unfold substitutionsFor.token at hs
  split at hs
  · cases hs
    intro n hn
    rcases List.mem_append.mp hn with h1 | h1
    · exact h n h1
    · exact defaultSubstitutionsFor_registered block n h1
  split at hs
  · cases hs
    intro n hn
    rcases List.mem_append.mp hn with h1 | h1
    · exact h n h1
    · exact (by decide : ∀ n ∈ ["inline_passthrough", "specialcharacters", "quotes",
        "attributes", "replacements", "macros", "post_replacements"],
        (GoMap.get substitutions n).isSome = true) n h1
  split at hs
  · rename_i hmem
    cases hs
    intro n hn
    rcases List.mem_append.mp hn with h1 | h1
    · exact h n h1
    · rw [List.mem_singleton] at h1
      subst h1
      exact names_registered n hmem
  split at hs
  · rename_i hmem
    cases hs
    intro n hn
    rcases List.mem_append.mp hn with h1 | h1
    · exact seeded_registered block subs h n h1
    · rw [List.mem_singleton] at h1
      subst h1
      exact appended_registered s hmem
  split at hs
  · rename_i hmem
    cases hs
    intro n hn
    rcases List.mem_append.mp hn with h1 | h1
    · rw [List.mem_singleton] at h1
      subst h1
      exact prepended_registered s hmem
    · exact seeded_registered block subs h n h1
  split at hs
  · cases hs
    intro n hn
    exact seeded_registered block subs h n (funcs.remove_subset _ _ n hn)
  · cases hs

theorem subs_registered (block : Element) (tokens : List String) (subs subs1 : funcs)
    (h : ∀ n ∈ subs, (GoMap.get substitutions n).isSome = true)
    (hs : substitutionsFor.subs block tokens subs = .ok subs1) :
    ∀ n ∈ subs1, (GoMap.get substitutions n).isSome = true := by
  induction tokens generalizing subs with
  | nil =>
    simp only [substitutionsFor.subs] at hs
    cases hs
    exact h
  | cons s rest ih =>
    simp only [substitutionsFor.subs] at hs
    cases ht : substitutionsFor.token block subs s with
    | error err => rw [ht] at hs; cases hs
    | ok subs2 =>
      rw [ht] at hs
      exact ih subs2 (token_registered block subs subs2 s h ht) hs

theorem filterMap_registered (subs : funcs)
    (h : ∀ n ∈ subs, (GoMap.get substitutions n).isSome = true) :
    ∃ implementations : List elementsSubstitution,
      List.Forall₂ (fun name step => GoMap.get substitutions name = some step) subs
        implementations
      ∧ subs.filterMap (GoMap.get substitutions) = implementations := by
  induction subs with
  | nil => exact ⟨[], List.Forall₂.nil, rfl⟩
  | cons n rest ih =>
    obtain ⟨steps, h1, h2⟩ := ih (fun m hm => h m (List.mem_cons_of_mem _ hm))
    have hn := h n (List.mem_cons_self _ _)
    cases hg : GoMap.get substitutions n with
    | none => rw [hg] at hn; cases hn
    | some step =>
      refine ⟨step :: steps, List.Forall₂.cons hg h1, ?_⟩
      rw [List.filterMap_cons, hg, h2]

/-- C15: when `substitutionsFor` succeeds, the list it returns holds exactly
one step for each name accumulated by its first loop, the implementation that
`substitutions` registers for that name, in the accumulated order, and then
`splitLines` as its last entry: no accumulated name is dropped. -/
theorem substitutionsFor_drops_no_step (render : Element → String)
    (block : BlockWithSubstitution) (steps : List elementsSubstitution)
    (h : substitutionsFor render block = .ok steps) :
    ∃ (subs : funcs) (implementations : List elementsSubstitution),
      substitutionsFor.subs block.val (Split (block.SubstitutionsToApply render) ',') []
          = .ok subs
      ∧ List.Forall₂ (fun name step => GoMap.get substitutions name = some step) subs
          implementations
      ∧ steps = implementations ++ [.splitLines] := by
  unfold substitutionsFor at h
  cases hs : substitutionsFor.subs block.val (Split (block.SubstitutionsToApply render) ',') []
    with
  | error err => rw [hs] at h; cases h
  | ok subs =>
    rw [hs] at h
    simp only [Except.ok.injEq] at h
    obtain ⟨implementations, h1, h2⟩ := filterMap_registered subs
      (subs_registered block.val _ [] subs (fun n hn => absurd hn (List.not_mem_nil n)) hs)
    refine ⟨subs, implementations, rfl, h1, ?_⟩
    rw [← h, substitutionsFor.result, h2]

/-- C15, on an example block with the directive `attributes,+quotes,macros+`. -/
theorem substitutionsFor_drops_no_step_witness :
    substitutionsFor (fun _ => "")
        ⟨.ExampleBlock [("subs", .raw (.str "attributes,+quotes,macros+"))] [], rfl⟩
      = .ok [.substituteInlineMacros, .substituteAttributes, .substituteQuotedTexts, .splitLines]
    ∧ ∃ (subs : funcs) (implementations : List elementsSubstitution),
      substitutionsFor.subs
          (.ExampleBlock [("subs", .raw (.str "attributes,+quotes,macros+"))] [])
          (Split (BlockWithSubstitution.SubstitutionsToApply (fun _ => "")
            ⟨.ExampleBlock [("subs", .raw (.str "attributes,+quotes,macros+"))] [], rfl⟩) ',')
          [] = .ok subs
      ∧ List.Forall₂ (fun name step => GoMap.get substitutions name = some step) subs
          implementations
      ∧ [elementsSubstitution.substituteInlineMacros, .substituteAttributes,
          .substituteQuotedTexts, .splitLines] = implementations ++ [.splitLines] :=
  ⟨rfl, substitutionsFor_drops_no_step (fun _ => "")
    ⟨.ExampleBlock [("subs", .raw (.str "attributes,+quotes,macros+"))] [], rfl⟩ _ rfl⟩

theorem Split_empty : Split "" ',' = [""] := rfl

/-- The type `CommentBlock` has no method `SubstitutionsToApply`: a comment
block is not a `BlockWithSubstitution`, and its default list is read through
`defaultSubstitutionsFor` alone. -/
theorem comment_block_is_no_block_with_substitution :
    (Element.CommentBlock [] []).isBlockWithSubstitution = false
    ∧ ¬ ∃ block : BlockWithSubstitution, block.val = Element.CommentBlock [] [] := by
  refine ⟨rfl, ?_⟩
  rintro ⟨⟨e, he⟩, h⟩
  simp only at h
  subst h
  simp [Element.isBlockWithSubstitution] at he

/-- C16: with an empty subs directive, `substitutionsFor` picks for an
example, a quote and a sidebar block the full ordered list
(inline_passthrough, specialcharacters, quotes, attributes, replacements,
macros, post_replacements) and for a passthrough block the empty list, each
followed only by `splitLines`.  For a comment block `defaultSubstitutionsFor`
returns the list with `none` alone, which the second loop of the selector
turns into the `none` step followed only by `splitLines`. -/
theorem default_steps_of_element_blocks (render : Element → String) (as : ElementAttributes)
    (elements : List Element) (lines : List (List Element))
    (hsubs : ElementAttributes.GetAsStringWithDefault render as AttrSubstitutions "" = "") :
    substitutionsFor render ⟨.ExampleBlock as elements, rfl⟩
      = .ok [.substituteInlinePassthrough, .substituteSpecialCharacters, .substituteQuotedTexts,
          .substituteAttributes, .substituteReplacements, .substituteInlineMacros,
          .substitutePostReplacements, .splitLines]
    ∧ substitutionsFor render ⟨.QuoteBlock as elements, rfl⟩
      = .ok [.substituteInlinePassthrough, .substituteSpecialCharacters, .substituteQuotedTexts,
          .substituteAttributes, .substituteReplacements, .substituteInlineMacros,
          .substitutePostReplacements, .splitLines]
    ∧ substitutionsFor render ⟨.SidebarBlock as elements, rfl⟩
      = .ok [.substituteInlinePassthrough, .substituteSpecialCharacters, .substituteQuotedTexts,
          .substituteAttributes, .substituteReplacements, .substituteInlineMacros,
          .substitutePostReplacements, .splitLines]
    ∧ substitutionsFor render ⟨.PassthroughBlock as lines, rfl⟩ = .ok [.splitLines]
    ∧ defaultSubstitutionsFor (.CommentBlock as lines) = ["none"]
    ∧ substitutionsFor.result (defaultSubstitutionsFor (.CommentBlock as lines))
      = [.substituteNone, .splitLines] := by
  refine ⟨?_, ?_, ?_, ?_, rfl, rfl⟩
  all_goals
    simp only [substitutionsFor, BlockWithSubstitution.SubstitutionsToApply, hsubs, Split_empty]
    rfl

/-- C16, on blocks without attributes. -/
theorem default_steps_of_element_blocks_witness :
    ElementAttributes.GetAsStringWithDefault (fun _ => "") [] AttrSubstitutions "" = ""
    ∧ substitutionsFor (fun _ => "") ⟨.ExampleBlock [] [], rfl⟩
      = .ok [.substituteInlinePassthrough, .substituteSpecialCharacters, .substituteQuotedTexts,
          .substituteAttributes, .substituteReplacements, .substituteInlineMacros,
          .substitutePostReplacements, .splitLines]
    ∧ substitutionsFor (fun _ => "") ⟨.PassthroughBlock [] [], rfl⟩ = .ok [.splitLines]
    ∧ substitutionsFor.result (defaultSubstitutionsFor (.CommentBlock [] []))
      = [.substituteNone, .splitLines] :=
  ⟨rfl, (default_steps_of_element_blocks (fun _ => "") [] [] [] rfl).1,
    (default_steps_of_element_blocks (fun _ => "") [] [] [] rfl).2.2.2.1,
    (default_steps_of_element_blocks (fun _ => "") [] [] [] rfl).2.2.2.2.2⟩

/-- C17, as stated, fails for a verse block: its default is the list of the
blocks of blocks, not the list with callouts and specialcharacters. -/
theorem verse_block_default_counterexample :
    substitutionsFor (fun _ => "") ⟨.VerseBlock [] [], rfl⟩
      = .ok [.substituteInlinePassthrough, .substituteSpecialCharacters, .substituteQuotedTexts,
          .substituteAttributes, .substituteReplacements, .substituteInlineMacros,
          .substitutePostReplacements, .splitLines]
    ∧ substitutionsFor (fun _ => "") ⟨.VerseBlock [] [], rfl⟩
      ≠ .ok [.substituteCallouts, .substituteSpecialCharacters, .splitLines] := by
  refine ⟨rfl, ?_⟩
  rw [show substitutionsFor (fun _ => "") ⟨.VerseBlock [] [], rfl⟩
      = .ok [.substituteInlinePassthrough, .substituteSpecialCharacters, .substituteQuotedTexts,
          .substituteAttributes, .substituteReplacements, .substituteInlineMacros,
          .substitutePostReplacements, .splitLines] from rfl]
  simp

/-- C17, amended: with an empty subs directive, a fenced, a listing and a
literal block get the default steps callouts and specialcharacters, in that
order, followed by `splitLines`; a verse block gets the full list of the
blocks of blocks, followed by `splitLines`. -/
theorem default_steps_of_line_blocks (render : Element → String) (as : ElementAttributes)
    (lines : List (List Element))
    (hsubs : ElementAttributes.GetAsStringWithDefault render as AttrSubstitutions "" = "") :
    substitutionsFor render ⟨.FencedBlock as lines, rfl⟩
      = .ok [.substituteCallouts, .substituteSpecialCharacters, .splitLines]
    ∧ substitutionsFor render ⟨.ListingBlock as lines, rfl⟩
      = .ok [.substituteCallouts, .substituteSpecialCharacters, .splitLines]
    ∧ substitutionsFor render ⟨.LiteralBlock as lines, rfl⟩
      = .ok [.substituteCallouts, .substituteSpecialCharacters, .splitLines]
    ∧ substitutionsFor render ⟨.VerseBlock as lines, rfl⟩
      = .ok [.substituteInlinePassthrough, .substituteSpecialCharacters, .substituteQuotedTexts,
          .substituteAttributes, .substituteReplacements, .substituteInlineMacros,
          .substitutePostReplacements, .splitLines] := by
  refine ⟨?_, ?_, ?_, ?_⟩
  all_goals
    simp only [substitutionsFor, BlockWithSubstitution.SubstitutionsToApply, hsubs, Split_empty]
    rfl

/-- C17, amended, on the listing block of the repository's source-block test,
whose only attribute is its block kind. -/
theorem default_steps_of_line_blocks_witness :
    ElementAttributes.GetAsStringWithDefault (fun _ => "")
        [("block-kind", .raw (.other "types.BlockKind" "source"))] AttrSubstitutions "" = ""
    ∧ substitutionsFor (fun _ => "")
        ⟨.ListingBlock [("block-kind", .raw (.other "types.BlockKind" "source"))]
          [[.StringElement "package foo"]], rfl⟩
      = .ok [.substituteCallouts, .substituteSpecialCharacters, .splitLines] :=
  ⟨rfl, (default_steps_of_line_blocks (fun _ => "")
    [("block-kind", .raw (.other "types.BlockKind" "source"))]
    [[.StringElement "package foo"]] rfl).2.1⟩

theorem names_token_facts :
    ∀ name ∈ substitutionsFor.names,
      name ≠ "" ∧ name ≠ "normal"
      ∧ ("+" ++ name ≠ "" ∧ "+" ++ name ≠ "normal" ∧ "+" ++ name ∉ substitutionsFor.names
          ∧ "+" ++ name ∈ substitutionsFor.appended
          ∧ ReplaceAllByNothing ("+" ++ name) '+' = name)
      ∧ (name ++ "+" ≠ "" ∧ name ++ "+" ≠ "normal" ∧ name ++ "+" ∉ substitutionsFor.names
          ∧ name ++ "+" ∉ substitutionsFor.appended
          ∧ name ++ "+" ∈ substitutionsFor.prepended
          ∧ ReplaceAllByNothing (name ++ "+") '+' = name)
      ∧ ("-" ++ name ≠ "" ∧ "-" ++ name ≠ "normal" ∧ "-" ++ name ∉ substitutionsFor.names
          ∧ "-" ++ name ∉ substitutionsFor.appended
          ∧ "-" ++ name ∉ substitutionsFor.prepended
          ∧ "-" ++ name ∈ substitutionsFor.removed
          ∧ ReplaceAllByNothing ("-" ++ name) '-' = name) := by
  decide

theorem token_bare (block : Element) (subs : funcs) (s : String)
    (hs : s ∈ substitutionsFor.names) :
    substitutionsFor.token block subs s = .ok (subs ++ [s]) := by
  obtain ⟨h1, h2, -⟩ := names_token_facts s hs
  simp [substitutionsFor.token, h1, h2, hs, funcs.append]

theorem token_appended (block : Element) (subs : funcs) (name : String)
    (hs : name ∈ substitutionsFor.names) :
    substitutionsFor.token block subs ("+" ++ name)
      = .ok (substitutionsFor.seeded block subs ++ [name]) := by
  obtain ⟨-, -, ⟨h1, h2, h3, h4, h5⟩, -⟩ := names_token_facts name hs
  simp [substitutionsFor.token, h1, h2, h3, h4, h5, funcs.append]

theorem token_prepended (block : Element) (subs : funcs) (name : String)
    (hs : name ∈ substitutionsFor.names) :
    substitutionsFor.token block subs (name ++ "+")
      = .ok ([name] ++ substitutionsFor.seeded block subs) := by
  obtain ⟨-, -, -, ⟨h1, h2, h3, h4, h5, h6⟩, -⟩ := names_token_facts name hs
  simp [substitutionsFor.token, h1, h2, h3, h4, h5, h6, funcs.prepend]

theorem token_removed (block : Element) (subs : funcs) (name : String)
    (hs : name ∈ substitutionsFor.names) :
    substitutionsFor.token block subs ("-" ++ name)
      = .ok (funcs.remove (substitutionsFor.seeded block subs) name) := by
  obtain ⟨-, -, -, -, ⟨h1, h2, h3, h4, h5, h6, h7⟩⟩ := names_token_facts name hs
  simp [substitutionsFor.token, h1, h2, h3, h4, h5, h6, h7]

theorem seeded_nil (block : Element) :
    substitutionsFor.seeded block [] = defaultSubstitutionsFor block := by
  simp [substitutionsFor.seeded, funcs.append]

theorem seeded_of_ne_nil (block : Element) (subs : funcs) (h : subs ≠ []) :
    substitutionsFor.seeded block subs = subs := by
  cases subs with
  | nil => exact absurd rfl h
  | cons s rest => simp [substitutionsFor.seeded]

/-- C18, as stated, fails: a bare step name is appended to what the earlier
tokens accumulated.  With the directive `quotes,attributes` the set after the
token `attributes` holds `quotes` and `attributes`, and both steps are run. -/
theorem bare_token_counterexample :
    substitutionsFor.token (.Paragraph [("subs", .raw (.str "quotes,attributes"))] [])
        ["quotes"] "attributes" = .ok ["quotes", "attributes"]
    ∧ substitutionsFor.token (.Paragraph [("subs", .raw (.str "quotes,attributes"))] [])
        ["quotes"] "attributes" ≠ .ok ["attributes"]
    ∧ substitutionsFor (fun _ => "")
        ⟨.Paragraph [("subs", .raw (.str "quotes,attributes"))] [], rfl⟩
      = .ok [.substituteQuotedTexts, .substituteAttributes, .splitLines] := by
  refine ⟨rfl, ?_, rfl⟩
  rw [show substitutionsFor.token (.Paragraph [("subs", .raw (.str "quotes,attributes"))] [])
        ["quotes"] "attributes" = .ok ["quotes", "attributes"] from rfl]
  simp

/-- C18, amended: for every block, when `substitutionsFor` processes a bare
step-name token (callouts, specialcharacters, specialchars, quotes,
attributes, macros, replacements, post_replacements or none), the accumulated
set right after that token is the set accumulated by the earlier tokens with
that step added at the end; it is exactly that one step when nothing had
been accumulated. -/
theorem bare_token_is_appended (block : Element) (subs : funcs) (s : String)
    (hs : s ∈ substitutionsFor.names) :
    substitutionsFor.token block subs s = .ok (subs ++ [s])
    ∧ substitutionsFor.token block [] s = .ok [s] :=
  ⟨token_bare block subs s hs, token_bare block [] s hs⟩

/-- C18, amended, on the tokens `quotes` and `attributes` of a paragraph. -/
theorem bare_token_is_appended_witness :
    "attributes" ∈ substitutionsFor.names
    ∧ substitutionsFor.token (.Paragraph [] []) ["quotes"] "attributes"
      = .ok (["quotes"] ++ ["attributes"])
    ∧ substitutionsFor.token (.Paragraph [] []) [] "attributes" = .ok ["attributes"] :=
  ⟨by decide, bare_token_is_appended (.Paragraph [] []) ["quotes"] "attributes" (by decide)⟩

/-- C19: for every block and every supported step name, the token `+name`
makes the accumulated set the previous set with the name added at the end,
and the token `name+` makes it the previous set with the name added at the
front, where an empty previous set is first replaced by the default list of
the block. -/
theorem plus_token_appends_or_prepends (block : Element) (subs : funcs) (name : String)
    (hs : name ∈ substitutionsFor.names) :
    substitutionsFor.token block subs ("+" ++ name)
      = .ok (substitutionsFor.seeded block subs ++ [name])
    ∧ substitutionsFor.token block subs (name ++ "+")
      = .ok ([name] ++ substitutionsFor.seeded block subs)
    ∧ substitutionsFor.seeded block [] = defaultSubstitutionsFor block
    ∧ (subs ≠ [] → substitutionsFor.seeded block subs = subs) :=
  ⟨token_appended block subs name hs, token_prepended block subs name hs, seeded_nil block,
    seeded_of_ne_nil block subs⟩

/-- C19, on the repository's tests of `funcs`: `macros` appended to
attributes, quotes and prepended to them; and on a listing block, whose
empty set is first seeded with callouts and specialcharacters. -/
theorem plus_token_appends_or_prepends_witness :
    "macros" ∈ substitutionsFor.names
    ∧ (substitutionsFor.token (.ListingBlock [] []) ["attributes", "quotes"] ("+" ++ "macros")
        = .ok (substitutionsFor.seeded (.ListingBlock [] []) ["attributes", "quotes"]
            ++ ["macros"])
      ∧ substitutionsFor.token (.ListingBlock [] []) ["attributes", "quotes"] ("macros" ++ "+")
        = .ok (["macros"]
            ++ substitutionsFor.seeded (.ListingBlock [] []) ["attributes", "quotes"])
      ∧ substitutionsFor.seeded (.ListingBlock [] []) []
        = defaultSubstitutionsFor (.ListingBlock [] [])
      ∧ (["attributes", "quotes"] ≠ [] →
          substitutionsFor.seeded (.ListingBlock [] []) ["attributes", "quotes"]
            = ["attributes", "quotes"]))
    ∧ substitutionsFor.token (.ListingBlock [] []) ["attributes", "quotes"] "+macros"
      = .ok ["attributes", "quotes", "macros"]
    ∧ substitutionsFor.token (.ListingBlock [] []) ["attributes", "quotes"] "macros+"
      = .ok ["macros", "attributes", "quotes"]
    ∧ substitutionsFor.token (.ListingBlock [] []) [] "+macros"
      = .ok ["callouts", "specialcharacters", "macros"]
    ∧ funcs.append ["attributes", "quotes"] ["macros"] = ["attributes", "quotes", "macros"]
    ∧ funcs.append ["attributes"] ["quotes", "macros"] = ["attributes", "quotes", "macros"]
    ∧ funcs.prepend ["attributes", "quotes"] "macros" = ["macros", "attributes", "quotes"] :=
  ⟨by decide,
    plus_token_appends_or_prepends (.ListingBlock [] []) ["attributes", "quotes"] "macros"
      (by decide),
    rfl, rfl, rfl, rfl, rfl, rfl⟩

theorem funcs.remove_of_not_mem (f : funcs) (other : String) (h : other ∉ f) :
    funcs.remove f other = f := by
  induction f with
  | nil => rfl
  | cons s rest ih =>
    have hs : s ≠ other := fun e => h (e ▸ List.mem_cons_self _ _)
    have hr : other ∉ rest := fun e => h (List.mem_cons_of_mem _ e)
    simp [funcs.remove, hs, ih hr]

theorem funcs.remove_sublist (f : funcs) (other : String) :
    List.Sublist (funcs.remove f other) f := by
  induction f with
  | nil => exact List.Sublist.slnil
  | cons s rest ih =>
    unfold funcs.remove
    split
    · exact List.sublist_cons_self _ _
    · exact List.Sublist.cons₂ _ ih

theorem funcs.remove_count (f : funcs) (other : String) :
    (funcs.remove f other).count other = f.count other - 1 := by
  induction f with
  | nil => rfl
  | cons s rest ih =>
    unfold funcs.remove
    split
    · rename_i h
      subst h
      simp
    · rename_i h
      simp [List.count_cons, h, ih]

theorem funcs.remove_other (f : funcs) (other name : String) (h : name ≠ other) :
    (funcs.remove f other).count name = f.count name := by
  induction f with
  | nil => rfl
  | cons s rest ih =>
    unfold funcs.remove
    split
    · rename_i hs
      subst hs
      simp [List.count_cons, Ne.symm h]
    · simp [List.count_cons, ih]

/-- C20, as stated, fails when the set holds the step more than once:
`funcs.remove` returns at the first entry that matches.  On a paragraph, the
token `+quotes` seeds the set with the defaults, which hold quotes, and adds
quotes at the end; after the token `-quotes` the set still holds quotes, and
the selector still returns the quotes step. -/
theorem minus_token_counterexample :
    substitutionsFor.subs (.Paragraph [] []) ["+quotes", "-quotes"] []
      = .ok ["inline_passthrough", "specialcharacters", "attributes", "replacements",
          "macros", "post_replacements", "quotes"]
    ∧ "quotes" ∈ ["inline_passthrough", "specialcharacters", "attributes", "replacements",
          "macros", "post_replacements", "quotes"]
    ∧ substitutionsFor (fun _ => "") ⟨.Paragraph [("subs", .raw (.str "+quotes,-quotes"))] [],
        rfl⟩
      = .ok [.substituteInlinePassthrough, .substituteSpecialCharacters, .substituteAttributes,
          .substituteReplacements, .substituteInlineMacros, .substitutePostReplacements,
          .substituteQuotedTexts, .splitLines]
    ∧ funcs.remove ["quotes", "quotes"] "quotes" = ["quotes"] :=
  ⟨rfl, by decide, rfl, rfl⟩

/-- C20, amended: for every block and every supported step name, the token
`-name` (an empty accumulated set being first seeded from the default list of
the block) removes the first entry of that step from the accumulated set:
the remaining steps keep their number and their relative order, a set that
did not hold the step is unchanged, and a set that held it at most once no
longer holds it. -/
theorem minus_token_removes_first (block : Element) (subs : funcs) (name : String)
    (hs : name ∈ substitutionsFor.names) :
    substitutionsFor.token block subs ("-" ++ name)
      = .ok (funcs.remove (substitutionsFor.seeded block subs) name)
    ∧ (∀ f : funcs, List.Sublist (funcs.remove f name) f)
    ∧ (∀ (f : funcs) (other : String), other ≠ name →
        (funcs.remove f name).count other = f.count other)
    ∧ (∀ f : funcs, (funcs.remove f name).count name = f.count name - 1)
    ∧ (∀ f : funcs, name ∉ f → funcs.remove f name = f)
    ∧ (∀ f : funcs, f.count name ≤ 1 → name ∉ funcs.remove f name) := by
  refine ⟨token_removed block subs name hs, fun f => funcs.remove_sublist f name,
    fun f other h => funcs.remove_other f name other h, fun f => funcs.remove_count f name,
    fun f h => funcs.remove_of_not_mem f name h, ?_⟩
  intro f hf
  have h := funcs.remove_count f name
  intro hmem
  have hpos := List.count_pos_iff.mpr hmem
  omega

/-- C20, amended, on the repository's tests of `funcs.remove`: the first, the
middle and the last of attributes, quotes, macros, and a name that the list
does not hold. -/
theorem minus_token_removes_first_witness :
    "quotes" ∈ substitutionsFor.names
    ∧ substitutionsFor.token (.Paragraph [] []) ["attributes", "quotes", "macros"]
        ("-" ++ "quotes")
      = .ok (funcs.remove
          (substitutionsFor.seeded (.Paragraph [] []) ["attributes", "quotes", "macros"])
          "quotes")
    ∧ substitutionsFor.token (.Paragraph [] []) ["attributes", "quotes", "macros"] "-quotes"
      = .ok ["attributes", "macros"]
    ∧ funcs.remove ["attributes", "quotes", "macros"] "attributes" = ["quotes", "macros"]
    ∧ funcs.remove ["attributes", "quotes", "macros"] "quotes" = ["attributes", "macros"]
    ∧ funcs.remove ["attributes", "quotes", "macros"] "macros" = ["attributes", "quotes"]
    ∧ funcs.remove ["attributes", "quotes", "macros"] "other"
      = ["attributes", "quotes", "macros"]
    ∧ substitutionsFor.token (.FencedBlock [] []) [] "-callouts" = .ok ["specialcharacters"] :=
  ⟨by decide,
    (minus_token_removes_first (.Paragraph [] []) ["attributes", "quotes", "macros"] "quotes"
      (by decide)).1,
    rfl, rfl, rfl, rfl, rfl, rfl⟩

theorem token_of_supported (block : Element) (subs : funcs) (s : String)
    (h : substitutionsFor.supported s = true) :
    ∃ subs1, substitutionsFor.token block subs s = .ok subs1 := by
  unfold substitutionsFor.token
  simp only [substitutionsFor.supported, decide_eq_true_eq] at h
  split
  · exact ⟨_, rfl⟩
  split
  · exact ⟨_, rfl⟩
  split
  · exact ⟨_, rfl⟩
  split
  · exact ⟨_, rfl⟩
  split
  · exact ⟨_, rfl⟩
  split
  · exact ⟨_, rfl⟩
  · rename_i h1 h2 h3 h4 h5 h6
    rcases h with h | h | h | h | h | h <;> contradiction

theorem token_of_unsupported (block : Element) (subs : funcs) (s : String)
    (h : substitutionsFor.supported s = false) :
    substitutionsFor.token block subs s = .error ("unsupported substitution: '" ++ s) := by
  simp only [substitutionsFor.supported, decide_eq_false_iff_not, not_or] at h
  obtain ⟨h1, h2, h3, h4, h5, h6⟩ := h
  simp [substitutionsFor.token, h1, h2, h3, h4, h5, h6]

theorem subs_error_iff (block : Element) (tokens : List String) (subs : funcs) (err : String) :
    substitutionsFor.subs block tokens subs = .error err
      ↔ ∃ pre s post, tokens = pre ++ s :: post
          ∧ (∀ t ∈ pre, substitutionsFor.supported t = true)
          ∧ substitutionsFor.supported s = false
          ∧ err = "unsupported substitution: '" ++ s := by
  induction tokens generalizing subs with
  | nil =>
    simp [substitutionsFor.subs]
  | cons s rest ih =>
    rw [substitutionsFor.subs]
    cases hs : substitutionsFor.supported s
    · rw [token_of_unsupported block subs s hs]
      constructor
      · intro h
        simp only [Except.error.injEq] at h
        exact ⟨[], s, rest, rfl, by simp, hs, h.symm⟩
      · rintro ⟨pre, t, post, heq, hpre, ht, herr⟩
        cases pre with
        | nil =>
          simp only [List.nil_append, List.cons.injEq] at heq
          obtain ⟨rfl, -⟩ := heq
          simp [herr]
        | cons p pre1 =>
          simp only [List.cons_append, List.cons.injEq] at heq
          obtain ⟨rfl, -⟩ := heq
          have := hpre s (List.mem_cons_self _ _)
          rw [hs] at this
          cases this
    · obtain ⟨subs1, h1⟩ := token_of_supported block subs s hs
      rw [h1]
      simp only
      rw [ih subs1]
      constructor
      · rintro ⟨pre, t, post, heq, hpre, ht, herr⟩
        refine ⟨s :: pre, t, post, by simp [heq], ?_, ht, herr⟩
        intro x hx
        rcases List.mem_cons.mp hx with rfl | hx
        · exact hs
        · exact hpre x hx
      · rintro ⟨pre, t, post, heq, hpre, ht, herr⟩
        cases pre with
        | nil =>
          simp only [List.nil_append, List.cons.injEq] at heq
          obtain ⟨rfl, -⟩ := heq
          rw [hs] at ht
          cases ht
        | cons p pre1 =>
          simp only [List.cons_append, List.cons.injEq] at heq
          obtain ⟨rfl, rfl⟩ := heq
          exact ⟨pre1, t, post, rfl, fun x hx => hpre x (List.mem_cons_of_mem _ hx), ht, herr⟩

theorem substitutionsFor_error (render : Element → String) (block : BlockWithSubstitution)
    (err : String) :
    substitutionsFor render block = .error err
      ↔ substitutionsFor.subs block.val (Split (block.SubstitutionsToApply render) ',') []
          = .error err := by
  unfold substitutionsFor
  cases substitutionsFor.subs block.val (Split (block.SubstitutionsToApply render) ',') [] <;>
    simp

/-- C21: `substitutionsFor` returns an error exactly when one of the tokens of
the directive, split at the commas, is neither empty, nor `normal`, nor a
supported step name, nor a supported step name with a leading `+`, a
trailing `+` or a leading `-`; the error message ends with the first such
token, and an error comes without a list of steps. -/
theorem substitutionsFor_error_iff_unsupported (render : Element → String)
    (block : BlockWithSubstitution) :
    ((∃ err, substitutionsFor render block = .error err)
        ↔ ∃ s ∈ Split (block.SubstitutionsToApply render) ',',
            substitutionsFor.supported s = false)
    ∧ (∀ err, substitutionsFor render block = .error err ↔
        ∃ pre s post, Split (block.SubstitutionsToApply render) ',' = pre ++ s :: post
          ∧ (∀ t ∈ pre, substitutionsFor.supported t = true)
          ∧ substitutionsFor.supported s = false
          ∧ err = "unsupported substitution: '" ++ s)
    ∧ (∀ err, substitutionsFor render block = .error err →
        ¬ ∃ steps, substitutionsFor render block = .ok steps) := by
  have hsecond : ∀ err, substitutionsFor render block = .error err ↔
        ∃ pre s post, Split (block.SubstitutionsToApply render) ',' = pre ++ s :: post
          ∧ (∀ t ∈ pre, substitutionsFor.supported t = true)
          ∧ substitutionsFor.supported s = false
          ∧ err = "unsupported substitution: '" ++ s := fun err =>
    (substitutionsFor_error render block err).trans (subs_error_iff _ _ _ _)
  refine ⟨?_, hsecond, ?_⟩
  · constructor
    · rintro ⟨err, h⟩
      obtain ⟨pre, s, post, heq, -, hs, -⟩ := (hsecond err).mp h
      exact ⟨s, by rw [heq]; simp, hs⟩
    · rintro ⟨s, hmem, hs⟩
      -- the first unsupported token
      have : ∀ tokens : List String, (∃ s ∈ tokens, substitutionsFor.supported s = false) →
          ∃ pre s post, tokens = pre ++ s :: post
            ∧ (∀ t ∈ pre, substitutionsFor.supported t = true)
            ∧ substitutionsFor.supported s = false := by
        intro tokens
        induction tokens with
        | nil => rintro ⟨s, hs, -⟩; cases hs
        | cons t rest ih =>
          rintro ⟨s, hs, hu⟩
          cases ht : substitutionsFor.supported t
          · exact ⟨[], t, rest, rfl, by simp, ht⟩
          · rcases List.mem_cons.mp hs with rfl | hs
            · rw [ht] at hu; cases hu
            · obtain ⟨pre, s1, post, heq, hpre, hs1⟩ := ih ⟨s, hs, hu⟩
              refine ⟨t :: pre, s1, post, by simp [heq], ?_, hs1⟩
              intro x hx
              rcases List.mem_cons.mp hx with rfl | hx
              · exact ht
              · exact hpre x hx
      obtain ⟨pre, s1, post, heq, hpre, hs1⟩ := this _ ⟨s, hmem, hs⟩
      exact ⟨_, (hsecond _).mpr ⟨pre, s1, post, heq, hpre, hs1, rfl⟩⟩
  · intro err h
    rintro ⟨steps, hsteps⟩
    rw [h] at hsteps
    cases hsteps

/-- C21, on a paragraph with the directive `quotes,foo,+bar`: the error names
`foo`, the first token without a case. -/
theorem substitutionsFor_error_iff_unsupported_witness :
    substitutionsFor (fun _ => "") ⟨.Paragraph [("subs", .raw (.str "quotes,foo,+bar"))] [], rfl⟩
      = .error "unsupported substitution: 'foo"
    ∧ ∃ pre s post,
        Split (BlockWithSubstitution.SubstitutionsToApply (fun _ => "")
          ⟨.Paragraph [("subs", .raw (.str "quotes,foo,+bar"))] [], rfl⟩) ','
          = pre ++ s :: post
        ∧ (∀ t ∈ pre, substitutionsFor.supported t = true)
        ∧ substitutionsFor.supported s = false
        ∧ "unsupported substitution: 'foo" = "unsupported substitution: '" ++ s :=
  ⟨rfl, ((substitutionsFor_error_iff_unsupported (fun _ => "")
    ⟨.Paragraph [("subs", .raw (.str "quotes,foo,+bar"))] [], rfl⟩).2.1 _).mp rfl⟩

/-- C22: for every paragraph with an empty subs directive, the selected steps
are the defaults of a listing block (callouts, specialcharacters) when the
block-kind attribute of the paragraph is the `Listing` kind, and otherwise
the defaults of a paragraph, the full list; both are followed by
`splitLines`. -/
theorem paragraph_default_steps (render : Element → String) (as : ElementAttributes)
    (lines : List (List Element))
    (hsubs : BlockWithSubstitution.SubstitutionsToApply render ⟨.Paragraph as lines, rfl⟩ = "") :
    (GoMap.get as AttrBlockKind = some Listing →
      substitutionsFor render ⟨.Paragraph as lines, rfl⟩
        = .ok [.substituteCallouts, .substituteSpecialCharacters, .splitLines])
    ∧ (GoMap.get as AttrBlockKind ≠ some Listing →
      substitutionsFor render ⟨.Paragraph as lines, rfl⟩
        = .ok [.substituteInlinePassthrough, .substituteSpecialCharacters,
            .substituteQuotedTexts, .substituteAttributes, .substituteReplacements,
            .substituteInlineMacros, .substitutePostReplacements, .splitLines]) := by
  constructor
  · intro hkind
    have hd : defaultSubstitutionsFor (.Paragraph as lines) = ["callouts", "specialcharacters"] := by
      simp only [defaultSubstitutionsFor, hkind, Listing]
      rfl
    simp only [substitutionsFor, hsubs, Split_empty, substitutionsFor.subs,
      substitutionsFor.token, if_true, hd]
    rfl
  · intro hkind
    have hd : defaultSubstitutionsFor (.Paragraph as lines)
        = defaultParagraphSubstitutions := by
      simp only [defaultSubstitutionsFor]
      split
      · rename_i h
        exact absurd h hkind
      · rfl
    simp only [substitutionsFor, hsubs, Split_empty, substitutionsFor.subs,
      substitutionsFor.token, if_true, hd]
    rfl

/-- C22, on a paragraph marked as a listing and on a plain paragraph. -/
theorem paragraph_default_steps_witness :
    BlockWithSubstitution.SubstitutionsToApply (fun _ => "")
        ⟨.Paragraph [("block-kind", Listing)] [[.StringElement "a"]], rfl⟩ = ""
    ∧ substitutionsFor (fun _ => "") ⟨.Paragraph [("block-kind", Listing)] [[.StringElement "a"]], rfl⟩
      = .ok [.substituteCallouts, .substituteSpecialCharacters, .splitLines]
    ∧ substitutionsFor (fun _ => "") ⟨.Paragraph [] [[.StringElement "a"]], rfl⟩
      = .ok [.substituteInlinePassthrough, .substituteSpecialCharacters,
          .substituteQuotedTexts, .substituteAttributes, .substituteReplacements,
          .substituteInlineMacros, .substitutePostReplacements, .splitLines] :=
  ⟨rfl,
    (paragraph_default_steps (fun _ => "") [("block-kind", Listing)] [[.StringElement "a"]]
      rfl).1 rfl,
    (paragraph_default_steps (fun _ => "") [] [[.StringElement "a"]] rfl).2
      (fun h => by simp [GoMap.get] at h)⟩

/-! ## Footnotes -/

theorem Footnotes.Reference_content (f : Footnotes) (note : Footnote)
    (h : note.hasContent = true) :
    f.Reference note
      = ({ ID := f.sequence.counter + 1, Ref := note.Ref, Duplicate := false },
          { sequence := { counter := f.sequence.counter + 1 },
            notes := f.notes ++ [{ note with ID := f.sequence.counter + 1 }] }) := by
  simp only [Footnote.hasContent, decide_eq_true_eq] at h
  simp [Footnotes.Reference, h, sequence.nextVal]

theorem Footnotes.Reference_reference (f : Footnotes) (note : Footnote)
    (h : note.hasContent = false) :
    f.Reference note
      = (match Footnotes.indexOf.loop f.notes note with
          | (id, true) => { ID := id, Ref := note.Ref, Duplicate := true }
          | (_, false) => { ID := InvalidFootnoteReference, Ref := note.Ref, Duplicate := false },
          f) := by
  simp only [Footnote.hasContent, decide_eq_false_iff_not] at h
  simp only [Footnotes.Reference, h, if_false, Footnotes.indexOf]
  rcases Footnotes.indexOf.loop f.notes note with ⟨id, found⟩
  cases found <;> rfl

theorem Footnotes.indexOf_loop_find (notes : List Footnote) (actual : Footnote) :
    Footnotes.indexOf.loop notes actual
      = match notes.find? (fun n => decide (n.Ref = actual.Ref)) with
        | some n => (n.ID, true)
        | none => (-1, false) := by
  induction notes with
  | nil => rfl
  | cons n rest ih =>
    unfold Footnotes.indexOf.loop
    by_cases h : n.Ref = actual.Ref
    · simp [h]
    · simp [h, ih]

theorem Footnotes.References_cons (f : Footnotes) (x : Footnote) (rest : List Footnote) :
    Footnotes.References f (x :: rest)
      = ((f.Reference x).1 :: (Footnotes.References (f.Reference x).2 rest).1,
          (Footnotes.References (f.Reference x).2 rest).2) := by
  rw [Footnotes.References]

theorem Footnotes.References_append (f : Footnotes) (xs ys : List Footnote) :
    Footnotes.References f (xs ++ ys)
      = ((Footnotes.References f xs).1
            ++ (Footnotes.References (Footnotes.References f xs).2 ys).1,
          (Footnotes.References (Footnotes.References f xs).2 ys).2) := by
  induction xs generalizing f with
  | nil => simp [Footnotes.References]
  | cons x rest ih =>
    rw [List.cons_append, Footnotes.References_cons, ih, Footnotes.References_cons]
    rfl

/-- The collector reached from a fresh one: the counter is the number of
stored notes, and the note stored at index `i` has the ID `i + 1`. -/
theorem Footnotes.References_invariant (calls : List Footnote) :
    (Footnotes.References NewFootnotes calls).2.sequence.counter
        = ((calls.filter Footnote.hasContent).length : Int)
    ∧ (Footnotes.References NewFootnotes calls).2.notes.length
        = (calls.filter Footnote.hasContent).length
    ∧ ∀ (i : Nat) (note : Footnote),
        (Footnotes.References NewFootnotes calls).2.notes[i]? = some note →
          note.ID = (i : Int) + 1 := by
  induction calls using List.reverseRecOn with
  | nil => exact ⟨rfl, rfl, fun i note h => by simp [Footnotes.References, NewFootnotes] at h⟩
  | append_singleton before last ih =>
    obtain ⟨h1, h2, h3⟩ := ih
    rw [Footnotes.References_append, Footnotes.References_cons]
    simp only [Footnotes.References]
    cases hc : last.hasContent
    · rw [Footnotes.Reference_reference _ _ hc]
      simp only [List.filter_append, List.filter_cons, hc, List.filter_nil, List.append_nil,
        Bool.false_eq_true, if_false]
      exact ⟨h1, h2, h3⟩
    · rw [Footnotes.Reference_content _ _ hc]
      simp only [List.filter_append, List.filter_cons, hc, List.filter_nil, List.length_append,
        List.length_singleton, if_true]
      refine ⟨by rw [h1]; push_cast; rfl, by rw [h2], ?_⟩
      intro i note hi
      by_cases hlt : i < (Footnotes.References NewFootnotes before).2.notes.length
      · rw [List.getElem?_append_left hlt] at hi
        exact h3 i note hi
      · rw [List.getElem?_append_right (by omega)] at hi
        have hidx : i - (Footnotes.References NewFootnotes before).2.notes.length = 0 := by
          by_contra hne
          rw [List.getElem?_eq_none (by simp; omega)] at hi
          cases hi
        rw [hidx] at hi
        simp only [List.getElem?_cons_zero, Option.some.injEq] at hi
        subst hi
        simp only
        rw [h1]
        have : i = (Footnotes.References NewFootnotes before).2.notes.length := by omega
        rw [this, h2]

/-- C29: on the collector reached from a fresh one by any sequence of calls,
a call whose footnote has content returns the ID `k`, where `k - 1` such
calls came before, and appends that footnote, carrying the ID `k`, at the
end of the stored list; whatever the call, the stored list only grows at its
end, and the note stored at index `i` (from 0) has the ID `i + 1`. -/
theorem footnotes_are_numbered_in_order (before : List Footnote) (note : Footnote) :
    (note.hasContent = true →
      ((Footnotes.References NewFootnotes before).2.Reference note).1.ID
          = ((before.filter Footnote.hasContent).length : Int) + 1
        ∧ ((Footnotes.References NewFootnotes before).2.Reference note).2.notes
          = (Footnotes.References NewFootnotes before).2.notes
            ++ [{ note with ID := ((before.filter Footnote.hasContent).length : Int) + 1 }])
    ∧ (∃ added : List Footnote,
        ((Footnotes.References NewFootnotes before).2.Reference note).2.notes
          = (Footnotes.References NewFootnotes before).2.notes ++ added)
    ∧ (∀ (i : Nat) (stored : Footnote),
        (Footnotes.References NewFootnotes before).2.notes[i]? = some stored →
          stored.ID = (i : Int) + 1) := by
  obtain ⟨h1, -, h3⟩ := Footnotes.References_invariant before
  refine ⟨?_, ?_, h3⟩
  · intro hc
    rw [Footnotes.Reference_content _ _ hc, h1]
    exact ⟨rfl, rfl⟩
  · cases hc : note.hasContent
    · rw [Footnotes.Reference_reference _ _ hc]
      exact ⟨[], (List.append_nil _).symm⟩
    · rw [Footnotes.Reference_content _ _ hc]
      exact ⟨_, rfl⟩

/-- C29, on the calls with the notes `a` (with content), `a` (a bare
reference), `b` (a bare reference) and an anonymous note with content: the
IDs are 1, 1 (duplicate), -1 and 2, and the stored notes have the IDs 1 and
2. -/
theorem footnotes_are_numbered_in_order_witness :
    (Footnote.hasContent ⟨0, "", [.StringElement "y"]⟩ = true →
      ((Footnotes.References NewFootnotes
          [⟨0, "a", [.StringElement "x"]⟩, ⟨0, "a", []⟩, ⟨0, "b", []⟩]).2.Reference
            ⟨0, "", [.StringElement "y"]⟩).1.ID
          = ((List.filter Footnote.hasContent
              [⟨0, "a", [.StringElement "x"]⟩, ⟨0, "a", []⟩, ⟨0, "b", []⟩]).length : Int) + 1
        ∧ ((Footnotes.References NewFootnotes
          [⟨0, "a", [.StringElement "x"]⟩, ⟨0, "a", []⟩, ⟨0, "b", []⟩]).2.Reference
            ⟨0, "", [.StringElement "y"]⟩).2.notes
          = (Footnotes.References NewFootnotes
              [⟨0, "a", [.StringElement "x"]⟩, ⟨0, "a", []⟩, ⟨0, "b", []⟩]).2.notes
            ++ [{ (⟨0, "", [.StringElement "y"]⟩ : Footnote) with
                ID := ((List.filter Footnote.hasContent
                  [⟨0, "a", [.StringElement "x"]⟩, ⟨0, "a", []⟩, ⟨0, "b", []⟩]).length : Int)
                    + 1 }])
    ∧ (Footnotes.References NewFootnotes
        [⟨0, "a", [.StringElement "x"]⟩, ⟨0, "a", []⟩, ⟨0, "b", []⟩,
          ⟨0, "", [.StringElement "y"]⟩]).1
      = [⟨1, "a", false⟩, ⟨1, "a", true⟩, ⟨-1, "b", false⟩, ⟨2, "", false⟩]
    ∧ ((Footnotes.References NewFootnotes
        [⟨0, "a", [.StringElement "x"]⟩, ⟨0, "a", []⟩, ⟨0, "b", []⟩,
          ⟨0, "", [.StringElement "y"]⟩]).2.notes.map fun n => (n.ID, n.Ref))
      = [(1, "a"), (2, "")] :=
  ⟨(footnotes_are_numbered_in_order
      [⟨0, "a", [.StringElement "x"]⟩, ⟨0, "a", []⟩, ⟨0, "b", []⟩]
      ⟨0, "", [.StringElement "y"]⟩).1,
    rfl, rfl⟩

/-- C30: for every collector and every footnote without content, when a
stored footnote has the same reference name, `Footnotes.Reference` returns
the ID of the first such footnote with the duplicate flag set; otherwise it
returns the ID -1 with the duplicate flag clear.  In both cases the collector
(stored list and sequence) is left as it was, and the reference carries the
given reference name. -/
theorem bare_footnote_reference (f : Footnotes) (note : Footnote)
    (h : note.hasContent = false) :
    (f.Reference note).2 = f
    ∧ (f.Reference note).1.Ref = note.Ref
    ∧ (∀ stored : Footnote,
        f.notes.find? (fun n => decide (n.Ref = note.Ref)) = some stored →
          (f.Reference note).1.ID = stored.ID ∧ (f.Reference note).1.Duplicate = true)
    ∧ ((∀ stored ∈ f.notes, stored.Ref ≠ note.Ref) →
        (f.Reference note).1.ID = -1 ∧ (f.Reference note).1.Duplicate = false)
    ∧ ((∃ stored ∈ f.notes, stored.Ref = note.Ref) → (f.Reference note).1.Duplicate = true) := by
  rw [Footnotes.Reference_reference f note h, Footnotes.indexOf_loop_find]
  refine ⟨rfl, ?_, ?_, ?_, ?_⟩
  · cases f.notes.find? (fun n => decide (n.Ref = note.Ref)) <;> rfl
  · intro stored hs
    rw [hs]
    exact ⟨rfl, rfl⟩
  · intro hnone
    have : f.notes.find? (fun n => decide (n.Ref = note.Ref)) = none := by
      rw [List.find?_eq_none]
      intro x hx
      simpa using hnone x hx
    rw [this]
    exact ⟨rfl, rfl⟩
  · rintro ⟨stored, hmem, href⟩
    cases hfind : f.notes.find? (fun n => decide (n.Ref = note.Ref)) with
    | none =>
      rw [List.find?_eq_none] at hfind
      have := hfind stored hmem
      simp [href] at this
    | some n => rfl

/-- C30, on a collector that holds the note `a` with the ID 1: a bare
reference to `a` gets the ID 1 and is a duplicate, a bare reference to `b`
gets the ID -1. -/
theorem bare_footnote_reference_witness :
    Footnote.hasContent ⟨0, "a", []⟩ = false
    ∧ (Footnotes.Reference ⟨⟨1⟩, [⟨1, "a", [.StringElement "x"]⟩]⟩ ⟨0, "a", []⟩).1
      = ⟨1, "a", true⟩
    ∧ (Footnotes.Reference ⟨⟨1⟩, [⟨1, "a", [.StringElement "x"]⟩]⟩ ⟨0, "b", []⟩).1
      = ⟨-1, "b", false⟩
    ∧ (Footnotes.Reference ⟨⟨1⟩, [⟨1, "a", [.StringElement "x"]⟩]⟩ ⟨0, "a", []⟩).2.notes.length = 1
    ∧ (Footnotes.Reference ⟨⟨1⟩, [⟨1, "a", [.StringElement "x"]⟩]⟩ ⟨0, "a", []⟩).2
      = ⟨⟨1⟩, [⟨1, "a", [.StringElement "x"]⟩]⟩ :=
  ⟨rfl, rfl, rfl, rfl,
    (bare_footnote_reference ⟨⟨1⟩, [⟨1, "a", [.StringElement "x"]⟩]⟩ ⟨0, "a", []⟩ rfl).1⟩

/-! ## Decimal numerals -/

theorem digitChar_value (d : Nat) (h : d < 10) : (Nat.digitChar d).toNat - 48 = d := by
  interval_cases d <;> rfl

theorem toDigitsCore_value (fuel : Nat) : ∀ (n : Nat) (ds : List Char), n < fuel →
    (Nat.toDigitsCore 10 fuel n ds).foldl (fun a c => 10 * a + (c.toNat - 48)) 0
      = ds.foldl (fun a c => 10 * a + (c.toNat - 48)) n := by
  induction fuel with
  | zero => intro n ds h; omega
  | succ fuel ih =>
    intro n ds h
    rw [Nat.toDigitsCore]
    by_cases h0 : n / 10 = 0
    · simp only [h0, if_true, List.foldl_cons]
      have hn : n < 10 := by omega
      rw [Nat.mod_eq_of_lt hn, digitChar_value n hn]
      simp
    · simp only [h0, if_false]
      rw [ih (n / 10) _ (by omega)]
      simp only [List.foldl_cons]
      rw [digitChar_value (n % 10) (Nat.mod_lt _ (by decide))]
      congr 1
      omega

theorem Nat_repr_injective (a b : Nat) (h : Nat.repr a = Nat.repr b) : a = b := by
  have ha := toDigitsCore_value (a + 1) a [] (by omega)
  have hb := toDigitsCore_value (b + 1) b [] (by omega)
  simp only [List.foldl_nil] at ha hb
  have h2 : Nat.toDigits 10 a = Nat.toDigits 10 b := by
    have := congrArg String.data h
    simpa [Nat.repr, List.asString] using this
  simp only [Nat.toDigits] at h2
  rw [← ha, ← hb, h2]

theorem Itoa_natCast (n : Nat) : Itoa (n : Int) = Nat.repr n := rfl

theorem Itoa_natCast_injective (a b : Nat) (h : Itoa (a : Int) = Itoa (b : Int)) : a = b :=
  Nat_repr_injective a b h

/-! ## The placeholder codec: serializing -/

theorem GoMap.set_fresh {V : Type} (m : GoMap V) (k : String) (v : V)
    (h : k ∉ m.map Prod.fst) : GoMap.set m k v = m ++ [(k, v)] := by
  induction m with
  | nil => rfl
  | cons kv rest ih =>
    obtain ⟨k', v'⟩ := kv
    simp only [List.map_cons, List.mem_cons, not_or] at h
    have hne : ¬ k' = k := fun e => h.1 e.symm
    simp only [GoMap.set, hne, if_false, List.cons_append, ih h.2]

theorem GoMap.get_append_fresh {V : Type} (m m' : GoMap V) (k : String)
    (h : k ∉ m.map Prod.fst) : GoMap.get (m ++ m') k = GoMap.get m' k := by
  induction m with
  | nil => rfl
  | cons kv rest ih =>
    obtain ⟨k', v'⟩ := kv
    simp only [List.map_cons, List.mem_cons, not_or] at h
    have hne : ¬ k' = k := fun e => h.1 e.symm
    rw [List.cons_append]
    simp only [GoMap.get, hne, if_false]
    exact ih h.2

theorem serializeLines.line_text (Content : String) (rest : List Element) (result : String)
    (p : placeholders) :
    serializeLines.line (.StringElement Content :: rest) result p
      = serializeLines.line rest (result ++ Content) p := by
  rw [serializeLines.line]

theorem serializeLines.line_other (e : Element) (rest : List Element) (result : String)
    (p : placeholders) (h : e.isStringElement = false) :
    serializeLines.line (e :: rest) result p
      = serializeLines.line rest (result ++ (p.add e).1.String) (p.add e).2 := by
  cases e <;> first | (simp [Element.isStringElement] at h; done) | rfl

theorem lineText_other (seen : Nat) (e : Element) (rest : List Element)
    (h : e.isStringElement = false) :
    lineText seen (e :: rest) = referenceToken (seen + 1) ++ lineText (seen + 1) rest := by
  cases e <;> first | (simp [Element.isStringElement] at h; done) | rfl

theorem Element.eq_StringElement_of_isStringElement (e : Element)
    (h : e.isStringElement = true) : ∃ Content, e = .StringElement Content := by
  cases e <;> first | exact ⟨_, rfl⟩ | simp [Element.isStringElement] at h

theorem numberedTable_append (a b : List Element) : ∀ seen : Nat,
    numberedTable seen (a ++ b) = numberedTable seen a ++ numberedTable (seen + a.length) b := by
  induction a with
  | nil => intro seen; rfl
  | cons e es ih =>
    intro seen
    show numberedTable seen (e :: (es ++ b)) = numberedTable seen (e :: es) ++ _
    rw [numberedTable, numberedTable, ih (seen + 1), List.length_cons,
      show seen + 1 + es.length = seen + (es.length + 1) by omega]
    rfl

theorem numberedTable_keys (es : List Element) : ∀ (seen : Nat) (key : String),
    key ∈ (numberedTable seen es).map Prod.fst →
      ∃ j : Nat, seen < j ∧ j ≤ seen + es.length ∧ key = Itoa (j : Int) := by
  induction es with
  | nil => intro seen key h; simp [numberedTable] at h
  | cons e es ih =>
    intro seen key h
    simp only [numberedTable, List.map_cons, List.mem_cons] at h
    rcases h with h | h
    · exact ⟨seen + 1, by omega, by simp, h⟩
    · obtain ⟨j, h1, h2, h3⟩ := ih (seen + 1) key h
      exact ⟨j, by omega, by simp only [List.length_cons]; omega, h3⟩

theorem numberedTable_get (es : List Element) : ∀ (seen i : Nat),
    GoMap.get (numberedTable seen es) (Itoa ((seen + 1 + i : Nat) : Int)) = es[i]? := by
  induction es with
  | nil => intro seen i; rfl
  | cons e es ih =>
    intro seen i
    cases i with
    | zero => simp [numberedTable, GoMap.get]
    | succ i =>
      have hne : ¬ Itoa ((seen + 1 : Nat) : Int) = Itoa ((seen + 1 + (i + 1) : Nat) : Int) := by
        intro h
        have := Itoa_natCast_injective _ _ h
        omega
      simp only [numberedTable, GoMap.get, hne, if_false, List.getElem?_cons_succ]
      rw [show seen + 1 + (i + 1) = seen + 1 + 1 + i by omega]
      exact ih (seen + 1) i

theorem placeholders.add_fresh (p : placeholders) (e : Element) (n : Nat)
    (hseq : p.seq = (n : Int))
    (hfresh : ∀ k : Nat, n < k → Itoa (k : Int) ∉ p.elements.map Prod.fst) :
    p.add e = ({ Ref := Itoa ((n + 1 : Nat) : Int) },
      { seq := ((n + 1 : Nat) : Int), elements := p.elements ++ [(Itoa ((n + 1 : Nat) : Int), e)] }) := by
  have h1 : p.seq + 1 = ((n + 1 : Nat) : Int) := by rw [hseq]; push_cast; rfl
  simp only [placeholders.add, h1]
  rw [GoMap.set_fresh _ _ _ (hfresh (n + 1) (by omega))]

theorem serializeLines.line_spec (line : List Element) : ∀ (result : String) (p : placeholders)
    (n : Nat), p.seq = (n : Int) →
    (∀ k : Nat, n < k → Itoa (k : Int) ∉ p.elements.map Prod.fst) →
    serializeLines.line line result p
      = (result ++ lineText n line,
          { seq := ((n + (nonTextElementsOf line).length : Nat) : Int),
            elements := p.elements ++ numberedTable n (nonTextElementsOf line) }) := by
  induction line with
  | nil =>
    intro result p n hseq _
    simp [serializeLines.line, lineText, nonTextElementsOf, numberedTable, ← hseq]
  | cons e rest ih =>
    intro result p n hseq hfresh
    cases he : e.isStringElement with
    | true =>
      obtain ⟨Content, rfl⟩ := Element.eq_StringElement_of_isStringElement e he
      rw [serializeLines.line_text, ih _ p n hseq hfresh]
      simp [lineText, nonTextElementsOf, Element.isStringElement, String.append_assoc]
    | false =>
      rw [serializeLines.line_other e rest result p he, placeholders.add_fresh p e n hseq hfresh]
      rw [ih _ _ (n + 1) rfl]
      · rw [lineText_other n e rest he]
        simp only [nonTextElementsOf, List.filter_cons, he, Bool.not_false, if_true,
          numberedTable, List.length_cons, ElementPlaceHolder.String, referenceToken,
          String.append_assoc, List.append_assoc, List.singleton_append]
        rw [show n + 1 + (List.filter (fun e => !e.isStringElement) rest).length
          = n + ((List.filter (fun e => !e.isStringElement) rest).length + 1) by omega]
      · intro k hk hmem
        simp only [List.map_append, List.map_cons, List.map_nil, List.mem_append,
          List.mem_singleton] at hmem
        rcases hmem with hmem | hmem
        · exact hfresh k (by omega) hmem
        · have := Itoa_natCast_injective _ _ hmem
          omega

theorem nonTextElements_cons (line : List Element) (rest : List (List Element)) :
    nonTextElements (line :: rest) = nonTextElementsOf line ++ nonTextElements rest := by
  simp [nonTextElements, nonTextElementsOf]

theorem serializeLines.lines_spec (lines : List (List Element)) : ∀ (result : String)
    (p : placeholders) (n : Nat), p.seq = (n : Int) →
    (∀ k : Nat, n < k → Itoa (k : Int) ∉ p.elements.map Prod.fst) →
    serializeLines.lines lines result p
      = (result ++ joinedByNewlines (lineTexts n lines),
          { seq := ((n + (nonTextElements lines).length : Nat) : Int),
            elements := p.elements ++ numberedTable n (nonTextElements lines) }) := by
  induction lines with
  | nil =>
    intro result p n hseq _
    simp [serializeLines.lines, lineTexts, joinedByNewlines, nonTextElements, nonTextElementsOf,
      numberedTable, ← hseq]
  | cons line rest ih =>
    intro result p n hseq hfresh
    rw [serializeLines.lines, serializeLines.line_spec line result p n hseq hfresh]
    simp only []
    rw [ih _ _ (n + (nonTextElementsOf line).length) rfl]
    · rw [nonTextElements_cons, numberedTable_append]
      cases rest with
      | nil =>
        simp [lineTexts, joinedByNewlines, nonTextElements, nonTextElementsOf, numberedTable]
      | cons l2 rest2 =>
        simp [lineTexts, joinedByNewlines, String.append_assoc, Nat.add_assoc]
    · intro k hk hmem
      simp only [List.map_append, List.mem_append] at hmem
      rcases hmem with hmem | hmem
      · exact hfresh k (by omega) hmem
      · obtain ⟨j, _, h2, h3⟩ := numberedTable_keys _ _ _ hmem
        have := Itoa_natCast_injective _ _ h3
        omega

theorem serializeLines_spec (lines : List (List Element)) :
    serializeLines lines newPlaceHolders
      = (joinedByNewlines (lineTexts 0 lines),
          { seq := (((nonTextElements lines).length : Nat) : Int),
            elements := numberedTable 0 (nonTextElements lines) }) := by
  rw [serializeLines, serializeLines.lines_spec lines "" newPlaceHolders 0 rfl
    (by intro k _ h; simp [newPlaceHolders] at h)]
  simp [newPlaceHolders]

theorem numberedTable_nodup (es : List Element) : ∀ seen : Nat,
    ((numberedTable seen es).map Prod.fst).Nodup := by
  induction es with
  | nil => intro seen; simp [numberedTable]
  | cons e es ih =>
    intro seen
    simp only [numberedTable, List.map_cons, List.nodup_cons]
    refine ⟨?_, ih (seen + 1)⟩
    intro hmem
    obtain ⟨j, h1, _, h3⟩ := numberedTable_keys _ _ _ hmem
    have := Itoa_natCast_injective _ _ h3
    omega

/-- C26: for every sequence of lines, `serializeLines` on a fresh table
returns the texts of the lines joined by single newlines, none after the last
line, where a text element contributes its content and the `k`-th element
that is not text, in reading order, contributes U+FFFD, the numeral of `k`,
U+FFFD.  Afterwards the table maps the numerals of 1 to `N` to those `N`
elements, in this order and each key once, it has no other key, and the
sequence number is `N`. -/
theorem serializeLines_text_and_table (lines : List (List Element)) :
    (serializeLines lines newPlaceHolders).1 = joinedByNewlines (lineTexts 0 lines)
    ∧ (serializeLines lines newPlaceHolders).2.elements
        = numberedTable 0 (nonTextElements lines)
    ∧ (serializeLines lines newPlaceHolders).2.seq = ((nonTextElements lines).length : Int)
    ∧ (∀ k : Nat, 1 ≤ k → k ≤ (nonTextElements lines).length →
        GoMap.get (serializeLines lines newPlaceHolders).2.elements (Itoa (k : Int))
          = (nonTextElements lines)[k - 1]?)
    ∧ (∀ key : String,
        GoMap.get (serializeLines lines newPlaceHolders).2.elements key ≠ none →
          ∃ k : Nat, 1 ≤ k ∧ k ≤ (nonTextElements lines).length ∧ key = Itoa (k : Int))
    ∧ ((serializeLines lines newPlaceHolders).2.elements.map Prod.fst).Nodup := by
  rw [serializeLines_spec]
  refine ⟨rfl, rfl, rfl, ?_, ?_, ?_⟩
  · intro k h1 _
    have := numberedTable_get (nonTextElements lines) 0 (k - 1)
    rwa [show 0 + 1 + (k - 1) = k by omega] at this
  · intro key hkey
    have hmem : key ∈ (numberedTable 0 (nonTextElements lines)).map Prod.fst := by
      by_contra hnot
      have := GoMap.get_append_fresh (numberedTable 0 (nonTextElements lines)) [] key hnot
      rw [List.append_nil] at this
      exact hkey this
    obtain ⟨j, h1, h2, h3⟩ := numberedTable_keys _ _ _ hmem
    exact ⟨j, by omega, by omega, h3⟩
  · exact numberedTable_nodup (nonTextElements lines) 0

/-- C26, on two lines with a comment, a line break and a special character
among the texts. -/
theorem serializeLines_text_and_table_witness :
    (serializeLines
        [[.StringElement "a ", .SingleLineComment "c", .StringElement " b", .LineBreak],
          [.SpecialCharacter "<", .StringElement "d"]] newPlaceHolders).1
      = "a \uFFFD1\uFFFD b\uFFFD2\uFFFD\n\uFFFD3\uFFFDd"
    ∧ (serializeLines
        [[.StringElement "a ", .SingleLineComment "c", .StringElement " b", .LineBreak],
          [.SpecialCharacter "<", .StringElement "d"]] newPlaceHolders).2.elements
      = [("1", .SingleLineComment "c"), ("2", .LineBreak), ("3", .SpecialCharacter "<")]
    ∧ joinedByNewlines (lineTexts 0
        [[.StringElement "a ", .SingleLineComment "c", .StringElement " b", .LineBreak],
          [.SpecialCharacter "<", .StringElement "d"]])
      = "a \uFFFD1\uFFFD b\uFFFD2\uFFFD\n\uFFFD3\uFFFDd" :=
  ⟨by decide,
    (serializeLines_text_and_table
      [[.StringElement "a ", .SingleLineComment "c", .StringElement " b", .LineBreak],
        [.SpecialCharacter "<", .StringElement "d"]]).2.1.trans rfl,
    by decide⟩

/-! ## The placeholder codec: restoring -/

theorem restoreElements_nil (p : placeholders) : restoreElements [] p = [] := by
  rw [restoreElements]

theorem restoreElements_cons (elmt : Element) (rest : List Element) (p : placeholders) :
    restoreElements (elmt :: rest) p
      = if p.elements.length = 0 then elmt :: rest
        else restoreElements.element elmt p :: restoreElements rest p := by
  rw [restoreElements]

/-- The shape of the source: one test of the table, then the loop. -/
theorem restoreElements_eq (elmts : List Element) (p : placeholders) :
    restoreElements elmts p
      = if p.elements.length = 0 then elmts
        else elmts.map fun elmt => restoreElements.element elmt p := by
  induction elmts with
  | nil => simp [restoreElements_nil]
  | cons e rest ih =>
    rw [restoreElements_cons, ih]
    by_cases h : p.elements.length = 0 <;> simp [h]

theorem numberedTable_length (es : List Element) : ∀ seen : Nat,
    (numberedTable seen es).length = es.length := by
  induction es with
  | nil => intro seen; rfl
  | cons e es ih => intro seen; simp [numberedTable, ih (seen + 1)]

theorem restoreElements.element_placeholder (Ref : String) (p : placeholders) :
    restoreElements.element (.ElementPlaceHolder Ref) p
      = (GoMap.get p.elements Ref).getD (.raw .nil) := by
  rw [restoreElements.element]

theorem restoreElements.element_text (Content : String) (p : placeholders) :
    restoreElements.element (.StringElement Content) p = .StringElement Content := by
  rw [restoreElements.element]

/-- C25: for every sequence of lines whose elements that are not text are
`e1`, ..., `eN` in reading order, and for every sequence made of texts and of
the references 1 to `N`, in any order and any number: once `serializeLines`
has filled a fresh table from the lines, `restoreElements` returns the
sequence with every reference `k` replaced by `ek` and every text element
unchanged. -/
theorem serialize_then_restore (lines : List (List Element)) (items : List (String ⊕ Nat))
    (hrefs : ∀ k : Nat, Sum.inr k ∈ items → 1 ≤ k ∧ k ≤ (nonTextElements lines).length) :
    (restoreElements (items.map reparsedElement) (serializeLines lines newPlaceHolders).2).map some
      = items.map (expectedElement (nonTextElements lines)) := by
  rw [serializeLines_spec, restoreElements_eq]
  simp only [numberedTable_length]
  by_cases hN : (nonTextElements lines).length = 0
  · rw [if_pos hN, List.map_map]
    apply List.map_congr_left
    intro item hitem
    cases item with
    | inl text => rfl
    | inr k => have := hrefs k hitem; omega
  · rw [if_neg hN, List.map_map, List.map_map]
    apply List.map_congr_left
    intro item hitem
    cases item with
    | inl text =>
      simp only [Function.comp, reparsedElement, expectedElement, restoreElements.element_text]
    | inr k =>
      obtain ⟨h1, h2⟩ := hrefs k hitem
      have hget := numberedTable_get (nonTextElements lines) 0 (k - 1)
      rw [show 0 + 1 + (k - 1) = k by omega] at hget
      have hsome : (nonTextElements lines)[k - 1]? = some ((nonTextElements lines)[k - 1]) :=
        List.getElem?_eq_getElem (by omega)
      simp only [Function.comp, reparsedElement, expectedElement,
        restoreElements.element_placeholder, hget, hsome, Option.getD_some]

/-- C25, on a line with a comment and a line break among the texts: the
references come back in the other order and twice, between new texts. -/
theorem serialize_then_restore_witness :
    (∀ k : Nat, Sum.inr k ∈ [Sum.inl "x", Sum.inr 2, Sum.inl "y", Sum.inr 1, Sum.inr 2] →
      1 ≤ k ∧ k ≤ (nonTextElements
        [[.StringElement "a", .SingleLineComment "c"], [.LineBreak]]).length)
    ∧ (restoreElements
          [.StringElement "x", .ElementPlaceHolder "2", .StringElement "y",
            .ElementPlaceHolder "1", .ElementPlaceHolder "2"]
          (serializeLines [[.StringElement "a", .SingleLineComment "c"], [.LineBreak]]
            newPlaceHolders).2).map some
      = [some (.StringElement "x"), some .LineBreak, some (.StringElement "y"),
          some (.SingleLineComment "c"), some .LineBreak] :=
  ⟨by simp [nonTextElements, nonTextElementsOf, Element.isStringElement],
    serialize_then_restore [[.StringElement "a", .SingleLineComment "c"], [.LineBreak]]
      [Sum.inl "x", Sum.inr 2, Sum.inl "y", Sum.inr 1, Sum.inr 2]
      (by simp [nonTextElements, nonTextElementsOf, Element.isStringElement])⟩

/-- C27 does not hold: with the table that holds the key `1` only, the
placeholder with the reference `2` is replaced by the nil value and the
sequence is returned; `restoreElements` has no way to report a failure. -/
theorem unknown_placeholder_counterexample :
    GoMap.get (placeholders.mk 1 [("1", .LineBreak)]).elements "2" = none
    ∧ (placeholders.mk 1 [("1", .LineBreak)]).elements.length ≠ 0
    ∧ restoreElements [.StringElement "a", .ElementPlaceHolder "2", .ElementPlaceHolder "1"]
        (placeholders.mk 1 [("1", .LineBreak)])
      = [.StringElement "a", .raw .nil, .LineBreak] :=
  ⟨rfl, by decide, rfl⟩

/-- C27, amended: for a table that is not empty and a sequence that holds a
placeholder whose reference is not a key of the table, `restoreElements`
returns a sequence of the same length, in which this placeholder is replaced
by the nil value and the elements before and after it are restored as they
are without it. -/
theorem unknown_placeholder_becomes_nil (p : placeholders) (before after : List Element)
    (Ref : String) (htable : p.elements.length ≠ 0) (hkey : GoMap.get p.elements Ref = none) :
    restoreElements (before ++ .ElementPlaceHolder Ref :: after) p
      = restoreElements before p ++ .raw .nil :: restoreElements after p
    ∧ (restoreElements (before ++ .ElementPlaceHolder Ref :: after) p).length
      = (before ++ .ElementPlaceHolder Ref :: after).length := by
  simp only [restoreElements_eq, if_neg htable, List.map_append, List.map_cons,
    restoreElements.element_placeholder, hkey, Option.getD_none, List.length_append,
    List.length_map, List.length_cons, and_self]

/-- C27, amended, on the table that holds the key `1` only. -/
theorem unknown_placeholder_becomes_nil_witness :
    (placeholders.mk 1 [("1", .LineBreak)]).elements.length ≠ 0
    ∧ GoMap.get (placeholders.mk 1 [("1", .LineBreak)]).elements "2" = none
    ∧ restoreElements ([.StringElement "a"] ++ .ElementPlaceHolder "2" :: [.ElementPlaceHolder "1"])
        (placeholders.mk 1 [("1", .LineBreak)])
      = restoreElements [.StringElement "a"] (placeholders.mk 1 [("1", .LineBreak)])
        ++ .raw .nil :: restoreElements [.ElementPlaceHolder "1"]
          (placeholders.mk 1 [("1", .LineBreak)]) :=
  ⟨by decide, rfl,
    (unknown_placeholder_becomes_nil (placeholders.mk 1 [("1", .LineBreak)])
      [.StringElement "a"] [.ElementPlaceHolder "1"] "2" (by decide) rfl).1⟩

/-- C28 does not hold: with a table that holds a special character under the
key `1`, the placeholder `1` in the path of an inline link is restored, and
the same placeholder stays in the path of an inline image, in the path of a
cross-reference and in an inline passthrough. -/
theorem placeholder_left_in_image_path :
    restoreElements
        [.InlineLink "" [.StringElement "a", .ElementPlaceHolder "1"] [],
          .InlineImage "" [.StringElement "a", .ElementPlaceHolder "1"] [],
          .ExternalCrossReference "" [.ElementPlaceHolder "1"] [.ElementPlaceHolder "1"],
          .InlinePassthrough 0 [.ElementPlaceHolder "1"]]
        (placeholders.mk 1 [("1", .SpecialCharacter "&")])
      = [.InlineLink "" [.StringElement "a", .SpecialCharacter "&"] [],
          .InlineImage "" [.StringElement "a", .ElementPlaceHolder "1"] [],
          .ExternalCrossReference "" [.ElementPlaceHolder "1"] [.SpecialCharacter "&"],
          .InlinePassthrough 0 [.ElementPlaceHolder "1"]] :=
  rfl

/-! ## Splitting at a character -/

theorem splitChars_ne_nil (sep : Char) (cs : List Char) : splitChars sep cs ≠ [] := by
  induction cs with
  | nil => simp [splitChars]
  | cons c cs ih =>
    rw [splitChars]
    split
    · simp
    · split <;> simp

theorem splitChars_cons_ne (sep c : Char) (cs : List Char) (h : c ≠ sep) :
    ∃ w ws, splitChars sep cs = w :: ws ∧ splitChars sep (c :: cs) = (c :: w) :: ws := by
  cases hs : splitChars sep cs with
  | nil => exact absurd hs (splitChars_ne_nil sep cs)
  | cons w ws =>
    refine ⟨w, ws, rfl, ?_⟩
    rw [splitChars, if_neg h, hs]

theorem splitChars_length (sep : Char) (cs : List Char) :
    (splitChars sep cs).length = cs.count sep + 1 := by
  induction cs with
  | nil => rfl
  | cons c cs ih =>
    by_cases h : c = sep
    · subst h
      rw [splitChars, if_pos rfl, List.length_cons, ih, List.count_cons_self]
    · obtain ⟨w, ws, h1, h2⟩ := splitChars_cons_ne sep c cs h
      have hc : List.count sep (c :: cs) = List.count sep cs := by
        simp [List.count_cons, h]
      rw [h2, List.length_cons, hc, ← ih, h1, List.length_cons]

theorem splitChars_free (sep : Char) (cs : List Char) :
    ∀ w ∈ splitChars sep cs, sep ∉ w := by
  induction cs with
  | nil => intro w hw; simp [splitChars] at hw; subst hw; simp
  | cons c cs ih =>
    intro w hw
    by_cases h : c = sep
    · subst h
      rw [splitChars, if_pos rfl] at hw
      rcases List.mem_cons.mp hw with rfl | hw
      · simp
      · exact ih w hw
    · obtain ⟨w', ws, h1, h2⟩ := splitChars_cons_ne sep c cs h
      rw [h2] at hw
      rw [h1] at ih
      rcases List.mem_cons.mp hw with rfl | hw
      · intro hmem
        rcases List.mem_cons.mp hmem with e | hmem
        · exact h e.symm
        · exact ih w' (List.mem_cons_self _ _) hmem
      · exact ih w (List.mem_cons_of_mem _ hw)

theorem Split_length (s : String) (sep : Char) :
    (Split s sep).length = s.data.count sep + 1 := by
  rw [Split, List.length_map, splitChars_length]

theorem Split_free (s : String) (sep : Char) : ∀ t ∈ Split s sep, sep ∉ t.data := by
  intro t ht
  rw [Split, List.mem_map] at ht
  obtain ⟨w, hw, rfl⟩ := ht
  exact splitChars_free sep s.data w hw

/-! ## The line-splitting step -/

theorem splitLines.text_element (Content : String) (rest : List Element)
    (result : List (List Element)) (pendingLine : List Element) :
    splitLines.line (.StringElement Content :: rest) result pendingLine
      = splitLines.line rest (splitLines.pieces (Split Content '\n') result pendingLine).1
          (splitLines.pieces (Split Content '\n') result pendingLine).2 := by
  rw [splitLines.line]

theorem splitLines.other_element (e : Element) (rest : List Element)
    (result : List (List Element)) (pendingLine : List Element)
    (h : e.isStringElement = false) :
    splitLines.line (e :: rest) result pendingLine
      = splitLines.line rest result (pendingLine ++ [e]) := by
  cases e <;> first | (simp [Element.isStringElement] at h; done) | rfl

theorem Element.newlines_other (e : Element) (h : e.isStringElement = false) :
    e.newlines = 0 := by
  cases e <;> first | (simp [Element.isStringElement] at h; done) | rfl

theorem nonTextElementsOf_append (a b : List Element) :
    nonTextElementsOf (a ++ b) = nonTextElementsOf a ++ nonTextElementsOf b := by
  simp [nonTextElementsOf]

theorem isSplit_append (a b : List Element) : isSplit (a ++ b) ↔ isSplit a ∧ isSplit b := by
  constructor
  · intro h
    exact ⟨fun c hc => h c (List.mem_append_left _ hc), fun c hc => h c (List.mem_append_right _ hc)⟩
  · rintro ⟨ha, hb⟩ c hc
    rcases List.mem_append.mp hc with hc | hc
    · exact ha c hc
    · exact hb c hc

theorem isSplit_nil : isSplit [] := by
  intro c hc
  simp at hc

theorem isSplit_other (e : Element) (h : e.isStringElement = false) : isSplit [e] := by
  intro c hc
  rw [List.mem_singleton] at hc
  subst hc
  simp [Element.isStringElement] at h

theorem isSplit_piece (s : String) (hs : s.length > 0) (hfree : '\n' ∉ s.data) :
    isSplit [.StringElement s] := by
  intro c hc
  rw [List.mem_singleton] at hc
  cases hc
  refine ⟨?_, hfree⟩
  intro h
  rw [h] at hs
  exact absurd hs (by decide)

theorem splitLines.pieces_spec (split : List String) :
    ∀ (result : List (List Element)) (pendingLine : List Element),
    (∀ s ∈ split, '\n' ∉ s.data) →
    (splitLines.pieces split result pendingLine).1.length = result.length + (split.length - 1)
    ∧ nonTextElementsOf ((splitLines.pieces split result pendingLine).1.flatten
        ++ (splitLines.pieces split result pendingLine).2)
      = nonTextElementsOf (result.flatten ++ pendingLine)
    ∧ (isSplit (result.flatten ++ pendingLine) →
        isSplit ((splitLines.pieces split result pendingLine).1.flatten
          ++ (splitLines.pieces split result pendingLine).2)) := by
  induction split with
  | nil =>
    intro result pendingLine _
    simp [splitLines.pieces]
  | cons s rest ih =>
    intro result pendingLine hfree
    have hrest : ∀ t ∈ rest, '\n' ∉ t.data := fun t ht => hfree t (List.mem_cons_of_mem _ ht)
    have hs : '\n' ∉ s.data := hfree s (List.mem_cons_self _ _)
    have hpend : nonTextElementsOf
          (if s.length > 0 then pendingLine ++ [Element.StringElement s] else pendingLine)
        = nonTextElementsOf pendingLine
      ∧ (isSplit pendingLine →
          isSplit (if s.length > 0 then pendingLine ++ [Element.StringElement s]
            else pendingLine)) := by
      by_cases h0 : s.length > 0
      · rw [if_pos h0]
        refine ⟨by simp [nonTextElementsOf, Element.isStringElement], fun hp => ?_⟩
        exact (isSplit_append _ _).mpr ⟨hp, isSplit_piece s h0 hs⟩
      · rw [if_neg h0]
        exact ⟨rfl, id⟩
    rw [splitLines.pieces]
    by_cases hr : rest.length > 0
    · rw [if_pos hr]
      obtain ⟨h1, h2, h3⟩ := ih (result ++
        [if s.length > 0 then pendingLine ++ [Element.StringElement s] else pendingLine]) []
        hrest
      refine ⟨?_, ?_, ?_⟩
      · rw [h1]
        simp only [List.length_append, List.length_cons, List.length_nil]
        omega
      · rw [h2]
        simp only [List.flatten_append, List.flatten_cons, List.flatten_nil, List.append_nil,
          nonTextElementsOf_append, hpend.1]
      · intro hp
        apply h3
        simp only [List.flatten_append, List.flatten_cons, List.flatten_nil, List.append_nil]
        rw [isSplit_append] at hp ⊢
        exact ⟨hp.1, hpend.2 hp.2⟩
    · rw [if_neg hr]
      have hnil : rest = [] := by
        cases rest with
        | nil => rfl
        | cons a b => simp at hr
      subst hnil
      simp only [splitLines.pieces, List.length_cons, List.length_nil, Nat.add_zero,
        Nat.zero_add, Nat.sub_self, true_and]
      refine ⟨?_, ?_⟩
      · rw [nonTextElementsOf_append, hpend.1, ← nonTextElementsOf_append]
      · intro hp
        rw [isSplit_append] at hp ⊢
        exact ⟨hp.1, hpend.2 hp.2⟩

theorem splitLines.line_invariant (line : List Element) :
    ∀ (result : List (List Element)) (pendingLine : List Element),
    (splitLines.line line result pendingLine).1.length
      = result.length + (line.map Element.newlines).sum
    ∧ nonTextElementsOf ((splitLines.line line result pendingLine).1.flatten
        ++ (splitLines.line line result pendingLine).2)
      = nonTextElementsOf (result.flatten ++ pendingLine ++ line)
    ∧ (isSplit (result.flatten ++ pendingLine) →
        isSplit ((splitLines.line line result pendingLine).1.flatten
          ++ (splitLines.line line result pendingLine).2)) := by
  induction line with
  | nil =>
    intro result pendingLine
    simp [splitLines.line]
  | cons e rest ih =>
    intro result pendingLine
    cases he : e.isStringElement with
    | true =>
      obtain ⟨Content, rfl⟩ := Element.eq_StringElement_of_isStringElement e he
      rw [splitLines.text_element]
      obtain ⟨p1, p2, p3⟩ := splitLines.pieces_spec (Split Content '\n') result pendingLine
        (Split_free Content '\n')
      obtain ⟨h1, h2, h3⟩ := ih (splitLines.pieces (Split Content '\n') result pendingLine).1
        (splitLines.pieces (Split Content '\n') result pendingLine).2
      refine ⟨?_, ?_, fun hp => h3 (p3 hp)⟩
      · rw [h1, p1, Split_length]
        simp only [List.map_cons, List.sum_cons, Element.newlines]
        omega
      · rw [h2, nonTextElementsOf_append, p2]
        simp [nonTextElementsOf, Element.isStringElement]
    | false =>
      rw [splitLines.other_element e rest result pendingLine he]
      obtain ⟨h1, h2, h3⟩ := ih result (pendingLine ++ [e])
      refine ⟨?_, ?_, fun hp => h3 ?_⟩
      · rw [h1]
        simp only [List.map_cons, List.sum_cons, Element.newlines_other e he]
        omega
      · rw [h2]
        simp only [List.append_assoc, List.singleton_append]
      · rw [← List.append_assoc, isSplit_append]
        exact ⟨hp, isSplit_other e he⟩

theorem splitLines.lines_invariant (lines : List (List Element)) :
    ∀ (result : List (List Element)),
    (splitLines.lines lines result).length
      = result.length + lines.length + (lines.flatten.map Element.newlines).sum
    ∧ nonTextElementsOf (splitLines.lines lines result).flatten
      = nonTextElementsOf (result.flatten ++ lines.flatten)
    ∧ (isSplit result.flatten → isSplit (splitLines.lines lines result).flatten) := by
  induction lines with
  | nil =>
    intro result
    simp [splitLines.lines]
  | cons line rest ih =>
    intro result
    rw [splitLines.lines]
    obtain ⟨p1, p2, p3⟩ := splitLines.line_invariant line result []
    obtain ⟨h1, h2, h3⟩ := ih ((splitLines.line line result []).1
      ++ [(splitLines.line line result []).2])
    refine ⟨?_, ?_, fun hp => h3 ?_⟩
    · rw [h1]
      simp only [List.length_append, List.length_cons, List.length_nil, p1, List.flatten_cons,
        List.map_append, List.sum_append]
      omega
    · rw [h2]
      simp only [List.flatten_append, List.flatten_cons, List.flatten_nil, List.append_nil]
      rw [nonTextElementsOf_append, p2]
      simp only [List.append_nil, nonTextElementsOf_append, List.append_assoc]
    · simp only [List.flatten_append, List.flatten_cons, List.flatten_nil, List.append_nil]
      apply p3
      rw [List.append_nil]
      exact hp

/-- C23: for every sequence of lines, `splitLines` succeeds; in the lines it
returns no text element is empty and none holds a newline, their number is
the number of the input lines plus the number of newlines in the text
elements of the input, and the elements that are not text are those of the
input, unchanged and in the same order. -/
theorem splitLines_splits_at_newlines (lines : List (List Element))
    (attrs : AttributesWithOverrides) :
    ∃ out : List (List Element), splitLines lines attrs = .ok out
      ∧ (∀ line ∈ out, ∀ Content : String, Element.StringElement Content ∈ line →
          Content ≠ "" ∧ '\n' ∉ Content.data)
      ∧ out.length = lines.length + (lines.flatten.map Element.newlines).sum
      ∧ nonTextElements out = nonTextElements lines := by
  obtain ⟨h1, h2, h3⟩ := splitLines.lines_invariant lines []
  refine ⟨splitLines.lines lines [], rfl, ?_, ?_, ?_⟩
  · intro line hline Content hmem
    exact h3 isSplit_nil Content (List.mem_flatten.mpr ⟨line, hline, hmem⟩)
  · rw [h1]
    simp
  · rw [nonTextElements, nonTextElements, h2]
    simp

/-- C23, on two lines: the first one holds a text with two newlines in a row
before a line break, the second one a comment. -/
theorem splitLines_splits_at_newlines_witness :
    splitLines [[.StringElement "a\n\nb", .LineBreak, .StringElement "c\n"],
        [.SingleLineComment "d"]] ⟨[], [], []⟩
      = .ok [[.StringElement "a"], [], [.StringElement "b", .LineBreak, .StringElement "c"], [],
          [.SingleLineComment "d"]]
    ∧ ∃ out : List (List Element),
        splitLines [[.StringElement "a\n\nb", .LineBreak, .StringElement "c\n"],
          [.SingleLineComment "d"]] ⟨[], [], []⟩ = .ok out
        ∧ (∀ line ∈ out, ∀ Content : String, Element.StringElement Content ∈ line →
            Content ≠ "" ∧ '\n' ∉ Content.data)
        ∧ out.length = [[Element.StringElement "a\n\nb", .LineBreak, .StringElement "c\n"],
            [.SingleLineComment "d"]].length
          + ([[Element.StringElement "a\n\nb", .LineBreak, .StringElement "c\n"],
            [.SingleLineComment "d"]].flatten.map Element.newlines).sum
        ∧ nonTextElements out
          = nonTextElements [[.StringElement "a\n\nb", .LineBreak, .StringElement "c\n"],
              [.SingleLineComment "d"]] :=
  ⟨rfl, splitLines_splits_at_newlines _ _⟩

/-! ## The step `none` before the line-splitting step -/

theorem splitChars_of_free (sep : Char) (w : List Char) (h : sep ∉ w) :
    splitChars sep w = [w] := by
  induction w with
  | nil => rfl
  | cons c cs ih =>
    simp only [List.mem_cons, not_or] at h
    rw [splitChars, if_neg (fun e => h.1 e.symm), ih h.2]

theorem splitChars_append_sep (sep : Char) (w cs : List Char) (h : sep ∉ w) :
    splitChars sep (w ++ sep :: cs) = w :: splitChars sep cs := by
  induction w with
  | nil => simp [splitChars]
  | cons c w ih =>
    simp only [List.mem_cons, not_or] at h
    rw [List.cons_append, splitChars, if_neg (fun e => h.1 e.symm), ih h.2]

theorem joinedByNewlines_cons_cons (a b : String) (rest : List String) :
    (joinedByNewlines (a :: b :: rest)).data
      = a.data ++ '\n' :: (joinedByNewlines (b :: rest)).data := by
  rw [joinedByNewlines]
  simp [String.data_append]

theorem Split_joinedByNewlines (a : String) (rest : List String) :
    (∀ s ∈ a :: rest, '\n' ∉ s.data) →
    Split (joinedByNewlines (a :: rest)) '\n' = a :: rest := by
  induction rest generalizing a with
  | nil =>
    intro h
    rw [joinedByNewlines, Split, splitChars_of_free _ _ (h a (List.mem_cons_self _ _))]
    rfl
  | cons b rest ih =>
    intro h
    have hb := ih b (fun s hs => h s (List.mem_cons_of_mem _ hs))
    rw [Split] at hb ⊢
    rw [joinedByNewlines_cons_cons, splitChars_append_sep _ _ _ (h a (List.mem_cons_self _ _)),
      List.map_cons, hb]

theorem splitLines.pieces_flush (rest : List String) :
    ∀ (s : String) (result : List (List Element)) (pendingLine : List Element),
    (splitLines.pieces (s :: rest) result pendingLine).1
        ++ [(splitLines.pieces (s :: rest) result pendingLine).2]
      = result ++ (pendingLine ++ if s.length > 0 then [Element.StringElement s] else [])
        :: rest.map fun t => if t.length > 0 then [Element.StringElement t] else [] := by
  induction rest with
  | nil =>
    intro s result pendingLine
    by_cases h0 : s.length > 0 <;> simp [splitLines.pieces, h0]
  | cons t rest ih =>
    intro s result pendingLine
    rw [splitLines.pieces, if_pos (by simp), ih]
    by_cases h0 : s.length > 0 <;> simp [h0]

theorem String.length_pos_of_ne_empty (s : String) (h : s ≠ "") : s.length > 0 := by
  cases hs : s.data with
  | nil =>
    exact absurd (String.ext hs) h
  | cons c cs =>
    rw [String.length, hs]
    simp

theorem lineTexts_of_texts (lines : List (List Element))
    (h : ∀ line ∈ lines, nonTextElementsOf line = []) :
    lineTexts 0 lines = lines.map (lineText 0) := by
  induction lines with
  | nil => rfl
  | cons line rest ih =>
    rw [lineTexts, h line (List.mem_cons_self _ _), List.length_nil, Nat.add_zero,
      ih (fun l hl => h l (List.mem_cons_of_mem _ hl)), List.map_cons]

theorem nonTextElements_of_texts (lines : List (List Element))
    (h : ∀ line ∈ lines, nonTextElementsOf line = []) : nonTextElements lines = [] := by
  induction lines with
  | nil => rfl
  | cons line rest ih =>
    rw [nonTextElements_cons, h line (List.mem_cons_self _ _),
      ih (fun l hl => h l (List.mem_cons_of_mem _ hl))]
    rfl

theorem substituteNone_of_texts (ParseReader : Grammar) (lines : List (List Element))
    (attrs : AttributesWithOverrides)
    (htexts : ∀ line ∈ lines, nonTextElementsOf line = [])
    (hgrammar : ∀ content imagesdir : String,
      parseContent ParseReader "" content imagesdir "NoneSubs"
        = .ok [.StringElement content]) :
    substituteNone ParseReader lines attrs
      = .ok [[.StringElement (joinedByNewlines (lines.map (lineText 0)))]] := by
  rw [substituteNone, newElementsSubstitution]
  simp only [serializeLines_spec, nonTextElements_of_texts lines htexts,
    lineTexts_of_texts lines htexts, numberedTable, newElementsSubstitution.placeholders,
    hgrammar]
  rfl

/-- C24 does not hold for the empty sequence of lines: with a grammar that
returns its input as one text element, the step `none` returns one line that
holds the empty text, and `splitLines` makes one empty line of it, not the
empty sequence. -/
theorem none_then_splitLines_counterexample :
    (∀ content imagesdir : String,
      parseContent (fun _ content _ _ => .ok (.StringElement content)) "" content imagesdir
        "NoneSubs" = .ok [.StringElement content])
    ∧ substituteNone (fun _ content _ _ => .ok (.StringElement content)) [] ⟨[], [], []⟩
      = .ok [[.StringElement ""]]
    ∧ splitLines [[.StringElement ""]] ⟨[], [], []⟩ = .ok [[]]
    ∧ ([[]] : List (List Element)) ≠ [] :=
  ⟨fun _ _ => rfl, rfl, rfl, by simp⟩

/-- C24, amended: for every sequence of lines that is not empty and in which
every line is empty or holds one text element, not empty and without a
newline, and for a grammar that under the rule `NoneSubs` returns its input
as one text element: the step `none` succeeds, and `splitLines` on its
result returns the sequence of lines. -/
theorem none_then_splitLines_identity (ParseReader : Grammar) (lines : List (List Element))
    (attrs : AttributesWithOverrides) (hne : lines ≠ [])
    (hsplit : ∀ line ∈ lines, line = [] ∨ ∃ Content : String,
      line = [.StringElement Content] ∧ Content ≠ "" ∧ '\n' ∉ Content.data)
    (hgrammar : ∀ content imagesdir : String,
      parseContent ParseReader "" content imagesdir "NoneSubs"
        = .ok [.StringElement content]) :
    ∃ result : List (List Element), substituteNone ParseReader lines attrs = .ok result
      ∧ splitLines result attrs = .ok lines := by
  have htexts : ∀ line ∈ lines, nonTextElementsOf line = [] := by
    intro line hline
    rcases hsplit line hline with rfl | ⟨c, rfl, _, _⟩ <;> rfl
  refine ⟨_, substituteNone_of_texts ParseReader lines attrs htexts hgrammar, ?_⟩
  cases lines with
  | nil => exact absurd rfl hne
  | cons first rest =>
    have hfree : ∀ s ∈ lineText 0 first :: rest.map (lineText 0), '\n' ∉ s.data := by
      intro s hs
      rw [← List.map_cons, List.mem_map] at hs
      obtain ⟨line, hline, rfl⟩ := hs
      rcases hsplit line hline with rfl | ⟨c, rfl, _, hc⟩
      · simp [lineText]
      · simpa [lineText] using hc
    have hback : ∀ line ∈ first :: rest,
        (if (lineText 0 line).length > 0 then [Element.StringElement (lineText 0 line)] else [])
          = line := by
      intro line hline
      rcases hsplit line hline with rfl | ⟨c, rfl, hc, _⟩
      · rfl
      · have : lineText 0 [Element.StringElement c] = c := by simp [lineText]
        rw [this, if_pos (String.length_pos_of_ne_empty c hc)]
    rw [splitLines, splitLines.lines, splitLines.text_element, List.map_cons,
      Split_joinedByNewlines _ _ hfree, splitLines.line, splitLines.lines,
      splitLines.pieces_flush, List.nil_append, List.nil_append,
      hback first (List.mem_cons_self _ _)]
    congr 2
    rw [List.map_map]
    calc List.map _ rest = List.map id rest :=
          List.map_congr_left (fun line hline => hback line (List.mem_cons_of_mem _ hline))
      _ = rest := List.map_id rest

/-- C24, amended, on three lines, the second one empty. -/
theorem none_then_splitLines_identity_witness :
    ([[Element.StringElement "a"], [], [Element.StringElement "b"]] ≠ [])
    ∧ ∃ result : List (List Element),
        substituteNone (fun _ content _ _ => .ok (.StringElement content))
          [[.StringElement "a"], [], [.StringElement "b"]] ⟨[], [], []⟩ = .ok result
        ∧ splitLines result ⟨[], [], []⟩
          = .ok [[.StringElement "a"], [], [.StringElement "b"]] :=
  ⟨by simp,
    none_then_splitLines_identity (fun _ content _ _ => .ok (.StringElement content))
      [[.StringElement "a"], [], [.StringElement "b"]] ⟨[], [], []⟩ (by simp)
      (by
        intro line hline
        simp only [List.mem_cons, List.mem_singleton, List.not_mem_nil, or_false] at hline
        rcases hline with rfl | rfl | rfl
        · exact Or.inr ⟨"a", rfl, by decide, by decide⟩
        · exact Or.inl rfl
        · exact Or.inr ⟨"b", rfl, by decide, by decide⟩)
      (fun _ _ => rfl)⟩

/-! ## The preamble -/

theorem Preamble.HasContent.loop_iff (elements : List Element) :
    Preamble.HasContent.loop elements = true ↔ ∃ e ∈ elements, e.isBlankLine = false := by
  induction elements with
  | nil => simp [Preamble.HasContent.loop]
  | cons e rest ih =>
    cases e <;> simp [Preamble.HasContent.loop, Element.isBlankLine, ih]

/-- C36 does not hold: `Preamble.HasContent` returns `true` for a preamble that
holds an attribute declaration only, and for a preamble of blank lines and
declarations; it returns `true` exactly when an element of the preamble is
not a blank line. -/
theorem preamble_of_declarations_has_content :
    Preamble.HasContent ⟨[.AttributeDeclaration "author" "me"]⟩ = true
    ∧ Preamble.HasContent ⟨[.BlankLine, .AttributeDeclaration "author" "me", .BlankLine]⟩ = true
    ∧ Preamble.HasContent ⟨[.BlankLine, .BlankLine]⟩ = false
    ∧ ∀ p : Preamble, p.HasContent = true ↔ ∃ e ∈ p.Elements, e.isBlankLine = false :=
  ⟨rfl, rfl, rfl, fun p => Preamble.HasContent.loop_iff p.Elements⟩

/-! ## Counter references that fail -/

/-- C38 does not hold: a reference that pins a string as the value of the
counter returns an error, and the counters hold the string afterwards. -/
theorem counter_error_counterexample :
    (applyCounterSubstitution "c" false (.str "x") ⟨[], [], []⟩).1
      = .error "invalid counter type string"
    ∧ (applyCounterSubstitution "c" false (.str "x") ⟨[], [], []⟩).2.Counters
      = [("c", .str "x")]
    ∧ (applyCounterSubstitution "c" false (.str "x") ⟨[], [], []⟩).2.Counters
      ≠ (AttributesWithOverrides.mk [] [] []).Counters :=
  ⟨rfl, rfl, by rw [show (applyCounterSubstitution "c" false (.str "x") ⟨[], [], []⟩).2.Counters
      = [("c", .str "x")] from rfl]; decide⟩

/-- C38, amended: whenever `applyCounterSubstitution` returns an error, the
live attributes and the overrides are as before; the counters are as before
when the reference has no pinned value, and otherwise they are the counters
before the call with the pinned value written under the name of the counter. -/
theorem counter_error_leaves_pinned_value (Name : String) (Hidden : Bool) (Value : Value)
    (attrs : AttributesWithOverrides) (err : String)
    (h : (applyCounterSubstitution Name Hidden Value attrs).1 = .error err) :
    (applyCounterSubstitution Name Hidden Value attrs).2.Content = attrs.Content
    ∧ (applyCounterSubstitution Name Hidden Value attrs).2.Overrides = attrs.Overrides
    ∧ (Value = .nil →
        (applyCounterSubstitution Name Hidden Value attrs).2.Counters = attrs.Counters)
    ∧ (Value ≠ .nil →
        (applyCounterSubstitution Name Hidden Value attrs).2.Counters
          = GoMap.set attrs.Counters Name Value) := by
  cases hc : (applyCounterSubstitution.counter Name Value attrs).isCounterType with
  | false =>
    rw [applyCounterSubstitution_invalid Name Hidden Value attrs hc]
    unfold applyCounterSubstitution.pinned
    by_cases hv : Value = .nil
    · simp [hv]
    · simp [hv]
  | true =>
    cases hv : applyCounterSubstitution.counter Name Value attrs with
    | int v =>
      rw [applyCounterSubstitution_int Name Hidden Value attrs v hv] at h
      cases Hidden <;> simp at h
    | rune c =>
      rw [applyCounterSubstitution_rune Name Hidden Value attrs c hv] at h
      cases Hidden <;> simp at h
    | nil => rw [hv] at hc; exact Bool.noConfusion hc
    | str s => rw [hv] at hc; exact Bool.noConfusion hc
    | bool b => rw [hv] at hc; exact Bool.noConfusion hc
    | other t s => rw [hv] at hc; exact Bool.noConfusion hc

/-- C38, amended, on a stored counter that holds a string, read by a
reference without a pinned value, and on a reference that pins a string. -/
theorem counter_error_leaves_pinned_value_witness :
    (applyCounterSubstitution "c" false .nil ⟨[], [], [("c", .str "x")]⟩).1
      = .error "invalid counter type string"
    ∧ (applyCounterSubstitution "c" false .nil ⟨[], [], [("c", .str "x")]⟩).2.Counters
      = [("c", .str "x")]
    ∧ (applyCounterSubstitution "c" false (.str "y") ⟨[], [], [("c", .int 1)]⟩).2.Counters
      = GoMap.set [("c", .int 1)] "c" (.str "y") :=
  ⟨rfl,
    (counter_error_leaves_pinned_value "c" false .nil ⟨[], [], [("c", .str "x")]⟩
      "invalid counter type string" rfl).2.2.1 rfl,
    (counter_error_leaves_pinned_value "c" false (.str "y") ⟨[], [], [("c", .int 1)]⟩
      "invalid counter type string" rfl).2.2.2 (by decide)⟩

/-! ## The grammar-backed steps -/

theorem parseContent_eq (ParseReader : Grammar) (filename content imagesdir entrypoint : String) :
    parseContent ParseReader filename content imagesdir entrypoint
      = match ParseReader filename content (some imagesdir) entrypoint with
        | .error err => .error ("unable to parse '" ++ content ++ "': " ++ err)
        | .ok result => .ok (parseContent.elements result) := by
  unfold parseContent
  rcases ParseReader filename content (some imagesdir) entrypoint with err | result
  · rfl
  · cases result <;> rfl

/-- C37: for every step built by `newElementsSubstitution`, whatever the two
rule names and the number of input lines, zero included.  The parser
`ParseReader` is called under the content rule on the texts of all the input
lines joined by newlines; when the step succeeds, the parser has returned a
value, and the result of the step is exactly one line: this value, as a
merged slice of elements, with its placeholders restored.  Conversely the
step returns this one line whenever the loop over the table and the parser
succeed, and it returns the wrapped error of the parser when the parser
fails. -/
theorem grammar_step_returns_one_line (ParseReader : Grammar)
    (contentRuleName placeholderRuleName : String) (lines : List (List Element))
    (attrs : AttributesWithOverrides) :
    (serializeLines lines newPlaceHolders).1 = joinedByNewlines (lineTexts 0 lines)
    ∧ (∀ result : List (List Element),
        newElementsSubstitution ParseReader contentRuleName placeholderRuleName lines attrs
          = .ok result →
        result.length = 1
        ∧ ∃ (parsed : Element) (table : GoMap Element),
          newElementsSubstitution.placeholders ParseReader
              (attrs.GetAsStringWithDefault "imagesdir" "") placeholderRuleName
              (serializeLines lines newPlaceHolders).2.elements
              (serializeLines lines newPlaceHolders).2.elements = .ok table
          ∧ ParseReader "" (joinedByNewlines (lineTexts 0 lines))
              (some (attrs.GetAsStringWithDefault "imagesdir" "")) contentRuleName = .ok parsed
          ∧ result = [restoreElements (parseContent.elements parsed)
              { seq := (serializeLines lines newPlaceHolders).2.seq, elements := table }])
    ∧ (∀ (parsed : Element) (table : GoMap Element),
        newElementsSubstitution.placeholders ParseReader
            (attrs.GetAsStringWithDefault "imagesdir" "") placeholderRuleName
            (serializeLines lines newPlaceHolders).2.elements
            (serializeLines lines newPlaceHolders).2.elements = .ok table →
        ParseReader "" (joinedByNewlines (lineTexts 0 lines))
            (some (attrs.GetAsStringWithDefault "imagesdir" "")) contentRuleName = .ok parsed →
        newElementsSubstitution ParseReader contentRuleName placeholderRuleName lines attrs
          = .ok [restoreElements (parseContent.elements parsed)
              { seq := (serializeLines lines newPlaceHolders).2.seq, elements := table }])
    ∧ (∀ (err : String) (table : GoMap Element),
        newElementsSubstitution.placeholders ParseReader
            (attrs.GetAsStringWithDefault "imagesdir" "") placeholderRuleName
            (serializeLines lines newPlaceHolders).2.elements
            (serializeLines lines newPlaceHolders).2.elements = .ok table →
        ParseReader "" (joinedByNewlines (lineTexts 0 lines))
            (some (attrs.GetAsStringWithDefault "imagesdir" "")) contentRuleName = .error err →
        newElementsSubstitution ParseReader contentRuleName placeholderRuleName lines attrs
          = .error ("unable to parse '" ++ joinedByNewlines (lineTexts 0 lines) ++ "': "
              ++ err)) := by
  have htext : (serializeLines lines newPlaceHolders).1 = joinedByNewlines (lineTexts 0 lines) := by
    rw [serializeLines_spec]
  refine ⟨htext, ?_, ?_, ?_⟩
  · intro result h
    rw [newElementsSubstitution] at h
    split at h
    · exact absurd h (by simp)
    · rename_i table htable
      rw [parseContent_eq, htext] at h
      split at h
      · rename_i heq
        split at heq
        · exact absurd h (by simp)
        · exact absurd heq (by simp)
      · rename_i elmts heq
        split at heq
        · exact absurd heq (by simp)
        · rename_i parsed hparsed
          simp only [Except.ok.injEq] at heq h
          subst heq
          exact ⟨by rw [← h]; rfl, parsed, table, htable, hparsed, h.symm⟩
  · intro parsed table htable hparsed
    rw [newElementsSubstitution]
    simp only [htable, parseContent_eq, htext, hparsed]
  · intro err table htable hparsed
    rw [newElementsSubstitution]
    simp only [htable, parseContent_eq, htext, hparsed]

/-- C37, on no line at all, with a parser that returns its input as one text
element, and on two lines that hold a line break, with a parser that returns
a slice of two texts and the placeholder of the line break: one line comes
back each time, made of what the parser returned. -/
theorem grammar_step_returns_one_line_witness :
    newElementsSubstitution (fun _ content _ _ => .ok (.StringElement content))
        "QuotedTextSubs" "QuotedTextSubs" [] ⟨[], [], []⟩ = .ok [[.StringElement ""]]
    ∧ newElementsSubstitution
        (fun _ _ _ _ =>
          .ok (.slice [.StringElement "x", .StringElement "y", .ElementPlaceHolder "1"]))
        "QuotedTextSubs" "QuotedTextSubs" [[.StringElement "a", .LineBreak], [.StringElement "b"]]
        ⟨[], [], []⟩ = .ok [[.StringElement "xy", .LineBreak]]
    ∧ ([[Element.StringElement "xy", .LineBreak]] : List (List Element)).length = 1
    ∧ ∃ (parsed : Element) (table : GoMap Element),
        (fun _ _ _ _ =>
            .ok (.slice [.StringElement "x", .StringElement "y", .ElementPlaceHolder "1"])
            : Grammar)
            "" (joinedByNewlines (lineTexts 0
              [[.StringElement "a", .LineBreak], [.StringElement "b"]]))
            (some (AttributesWithOverrides.GetAsStringWithDefault ⟨[], [], []⟩ "imagesdir" ""))
            "QuotedTextSubs" = .ok parsed
        ∧ [[Element.StringElement "xy", .LineBreak]]
          = [restoreElements (parseContent.elements parsed)
              { seq := (serializeLines [[.StringElement "a", .LineBreak], [.StringElement "b"]]
                  newPlaceHolders).2.seq,
                elements := table }] :=
  ⟨rfl, rfl,
    ((grammar_step_returns_one_line
      (fun _ _ _ _ => .ok (.slice [.StringElement "x", .StringElement "y", .ElementPlaceHolder "1"]))
      "QuotedTextSubs" "QuotedTextSubs" [[.StringElement "a", .LineBreak], [.StringElement "b"]]
      ⟨[], [], []⟩).2.1 [[.StringElement "xy", .LineBreak]] rfl).1,
    ((grammar_step_returns_one_line
      (fun _ _ _ _ => .ok (.slice [.StringElement "x", .StringElement "y", .ElementPlaceHolder "1"]))
      "QuotedTextSubs" "QuotedTextSubs" [[.StringElement "a", .LineBreak], [.StringElement "b"]]
      ⟨[], [], []⟩).2.1 [[.StringElement "xy", .LineBreak]] rfl).2.imp
      fun _ h => h.imp fun _ h2 => ⟨h2.2.1, h2.2.2⟩⟩

/-! ## Markdown quote blocks -/

theorem extractMarkdownQuoteAttribution_eq_none (ParseReader : Grammar)
    (lines : List (List Element)) :
    extractMarkdownQuoteAttribution ParseReader lines = none ↔ lines.getLast? = some [] := by
  unfold extractMarkdownQuoteAttribution
  split
  · rename_i h; simp [h]
  · rename_i h; simp [h]
  · rename_i Content tail h
    simp only [h, Option.some.injEq]
    split <;> simp
  · rename_i e tail _ h
    simp [h]

/-- C39 does not hold: on a sequence of lines whose last line has no element
`extractMarkdownQuoteAttribution` returns no result, it stops at the index
expression `lines[len(lines)-1][0]`; this is the one case without a result. -/
theorem attribution_of_empty_last_line :
    (∀ ParseReader : Grammar,
      extractMarkdownQuoteAttribution ParseReader [[.StringElement "a quote"], []] = none)
    ∧ ∀ (ParseReader : Grammar) (lines : List (List Element)),
        extractMarkdownQuoteAttribution ParseReader lines = none ↔ lines.getLast? = some [] :=
  ⟨fun _ => rfl, extractMarkdownQuoteAttribution_eq_none⟩

/-- C35 does not hold when the attribution is the empty string: the last
line is removed and no author is written to the attributes of the block. -/
theorem markdown_quote_empty_author_counterexample :
    (fun _ content _ entrypoint =>
        if entrypoint = "MarkdownQuoteAttribution" then .ok (.raw (.str ""))
        else .ok (.StringElement content) : Grammar)
      "" "-- " none "MarkdownQuoteAttribution" = .ok (.raw (.str ""))
    ∧ applySubstitutionsOnMarkdownQuoteBlock
        (fun _ content _ entrypoint =>
          if entrypoint = "MarkdownQuoteAttribution" then .ok (.raw (.str ""))
          else .ok (.StringElement content))
        [] [[.StringElement "a quote"], [.StringElement "-- "]] ⟨[], [], []⟩
      = some (.ok (.MarkdownQuoteBlock [] [[.StringElement "a quote"]]), ⟨[], [], []⟩)
    ∧ GoMap.get ([] : List (String × Element)) AttrQuoteAuthor = none :=
  ⟨rfl, rfl, rfl⟩

/-- C35, amended: for every Markdown quote block whose last line has at least
one element.  If this element is a text element and the parser, under the
rule `MarkdownQuoteAttribution`, makes a string `a` of its content, the block
is processed without its last line, and `a`, when it is not empty, is the
value of the attribute `quoteAuthor`; in every other case the block is
processed with all its lines and its attributes as they are. -/
theorem markdown_quote_attribution (ParseReader : Grammar)
    (Attributes : List (String × Element)) (Lines : List (List Element))
    (attrs : AttributesWithOverrides) (first : Element) (more : List Element)
    (hlast : Lines.getLast? = some (first :: more)) :
    (∀ Content a : String, first = .StringElement Content →
      ParseReader "" Content none "MarkdownQuoteAttribution" = .ok (.raw (.str a)) →
      applySubstitutionsOnMarkdownQuoteBlock ParseReader Attributes Lines attrs
        = some (applySubstitutionsOnMarkdownQuoteBlock.substitute ParseReader
            (if a ≠ "" then GoMap.set Attributes AttrQuoteAuthor (.raw (.str a)) else Attributes)
            Lines.dropLast attrs))
    ∧ ((¬ ∃ Content a : String, first = .StringElement Content ∧
        ParseReader "" Content none "MarkdownQuoteAttribution" = .ok (.raw (.str a))) →
      applySubstitutionsOnMarkdownQuoteBlock ParseReader Attributes Lines attrs
        = some (applySubstitutionsOnMarkdownQuoteBlock.substitute ParseReader Attributes
            Lines attrs)) := by
  constructor
  · intro Content a hfirst hparse
    subst hfirst
    simp only [applySubstitutionsOnMarkdownQuoteBlock, extractMarkdownQuoteAttribution, hlast,
      hparse]
  · intro hnot
    unfold applySubstitutionsOnMarkdownQuoteBlock extractMarkdownQuoteAttribution
    rw [hlast]
    split
    · rename_i h
      split at h
      · rename_i heq; simp at heq
      · rename_i heq; simp at heq
      · split at h <;> simp at h
      · simp at h
    · rename_i Lines2 author h
      split at h
      · rename_i heq; simp at heq
      · rename_i heq; simp at heq
      · rename_i Content tail heq
        simp only [Option.some.injEq, List.cons.injEq] at heq
        obtain ⟨rfl, -⟩ := heq
        split at h
        · simp only [Option.some.injEq, Prod.mk.injEq] at h
          obtain ⟨rfl, rfl⟩ := h
          simp
        · rename_i a hparse
          exact absurd ⟨Content, a, rfl, hparse⟩ hnot
        · simp only [Option.some.injEq, Prod.mk.injEq] at h
          obtain ⟨rfl, rfl⟩ := h
          simp
      · simp only [Option.some.injEq, Prod.mk.injEq] at h
        obtain ⟨rfl, rfl⟩ := h
        simp

/-- C35, amended, on a block of two lines whose last line is the attribution
`-- me`, with a parser that returns the text after the dashes. -/
theorem markdown_quote_attribution_witness :
    List.getLast? [[Element.StringElement "a quote"], [Element.StringElement "-- me"]]
      = some (.StringElement "-- me" :: [])
    ∧ applySubstitutionsOnMarkdownQuoteBlock
        (fun _ content _ entrypoint =>
          if entrypoint = "MarkdownQuoteAttribution" then .ok (.raw (.str (content.drop 3)))
          else .ok (.StringElement content))
        [] [[.StringElement "a quote"], [.StringElement "-- me"]] ⟨[], [], []⟩
      = some (applySubstitutionsOnMarkdownQuoteBlock.substitute
          (fun _ content _ entrypoint =>
            if entrypoint = "MarkdownQuoteAttribution" then .ok (.raw (.str (content.drop 3)))
            else .ok (.StringElement content))
          (if "me" ≠ "" then GoMap.set [] AttrQuoteAuthor (.raw (.str "me")) else [])
          (List.dropLast [[.StringElement "a quote"], [.StringElement "-- me"]]) ⟨[], [], []⟩)
    ∧ applySubstitutionsOnMarkdownQuoteBlock
        (fun _ content _ entrypoint =>
          if entrypoint = "MarkdownQuoteAttribution" then .ok (.raw (.str (content.drop 3)))
          else .ok (.StringElement content))
        [] [[.StringElement "a quote"], [.StringElement "-- me"]] ⟨[], [], []⟩
      = some (.ok (.MarkdownQuoteBlock [("quoteAuthor", .raw (.str "me"))]
          [[.StringElement "a quote"]]), ⟨[], [], []⟩) :=
  ⟨rfl,
    (markdown_quote_attribution _ [] [[.StringElement "a quote"], [.StringElement "-- me"]]
      ⟨[], [], []⟩ (.StringElement "-- me") [] rfl).1 "-- me" "me" rfl rfl,
    rfl⟩

/-! ## Serializing the lines that `splitLines` returns -/

theorem lineText_text (seen : Nat) (Content : String) (rest : List Element) :
    lineText seen (.StringElement Content :: rest) = Content ++ lineText seen rest := by
  rw [lineText]

theorem nonTextElementsOf_text (Content : String) (rest : List Element) :
    nonTextElementsOf (.StringElement Content :: rest) = nonTextElementsOf rest := by
  simp [nonTextElementsOf, Element.isStringElement]

theorem nonTextElementsOf_other (e : Element) (rest : List Element)
    (h : e.isStringElement = false) :
    nonTextElementsOf (e :: rest) = e :: nonTextElementsOf rest := by
  simp [nonTextElementsOf, h]

theorem lineText_append (a : List Element) : ∀ (seen : Nat) (b : List Element),
    lineText seen (a ++ b)
      = lineText seen a ++ lineText (seen + (nonTextElementsOf a).length) b := by
  induction a with
  | nil => intro seen b; simp [lineText, nonTextElementsOf]
  | cons e rest ih =>
    intro seen b
    cases he : e.isStringElement with
    | true =>
      obtain ⟨Content, rfl⟩ := Element.eq_StringElement_of_isStringElement e he
      rw [List.cons_append, lineText_text, lineText_text, ih, nonTextElementsOf_text,
        String.append_assoc]
    | false =>
      rw [List.cons_append, lineText_other _ _ _ he, lineText_other _ _ _ he, ih,
        nonTextElementsOf_other _ _ he, String.append_assoc, List.length_cons,
        show seen + 1 + (nonTextElementsOf rest).length
          = seen + ((nonTextElementsOf rest).length + 1) by omega]

theorem closedText_append (a : List (List Element)) : ∀ (seen : Nat) (b : List (List Element)),
    closedText seen (a ++ b)
      = closedText seen a ++ closedText (seen + (nonTextElementsOf a.flatten).length) b := by
  induction a with
  | nil => intro seen b; simp [closedText, nonTextElementsOf]
  | cons line rest ih =>
    intro seen b
    rw [List.cons_append, closedText, closedText, ih, List.flatten_cons,
      nonTextElementsOf_append, List.length_append, Nat.add_assoc]
    simp only [String.append_assoc]

theorem closedText_eq_joined (line : List Element) (rest : List (List Element)) :
    ∀ seen : Nat, closedText seen (line :: rest)
      = joinedByNewlines (lineTexts seen (line :: rest)) ++ "\n" := by
  induction rest generalizing line with
  | nil => intro seen; simp [closedText, lineTexts, joinedByNewlines]
  | cons l2 rest ih =>
    intro seen
    rw [closedText, ih l2, lineTexts, lineTexts]
    rw [show lineTexts (seen + (nonTextElementsOf line).length + (nonTextElementsOf l2).length) rest
        = (lineTexts (seen + (nonTextElementsOf line).length) (l2 :: rest)).tail by
      rw [lineTexts]; rfl]
    rw [lineTexts]
    simp [joinedByNewlines, String.append_assoc]

theorem joinedByNewlines_cons_char (c : Char) (w : List Char) (rest : List String) :
    (joinedByNewlines (String.mk (c :: w) :: rest)).data
      = c :: (joinedByNewlines (String.mk w :: rest)).data := by
  cases rest with
  | nil => rfl
  | cons b rest => simp [joinedByNewlines, String.data_append]

theorem joinedByNewlines_splitChars (cs : List Char) :
    (joinedByNewlines ((splitChars '\n' cs).map String.mk)).data = cs := by
  induction cs with
  | nil => rfl
  | cons c cs ih =>
    by_cases h : c = '\n'
    · subst h
      rw [splitChars, if_pos rfl]
      cases hs : splitChars '\n' cs with
      | nil => exact absurd hs (splitChars_ne_nil _ _)
      | cons w ws =>
        rw [hs] at ih
        simp only [List.map_cons] at ih ⊢
        rw [joinedByNewlines]
        simp only [String.data_append]
        rw [ih]
        rfl
    · obtain ⟨w, ws, h1, h2⟩ := splitChars_cons_ne '\n' c cs h
      rw [h1] at ih
      rw [h2, List.map_cons, joinedByNewlines_cons_char, ← List.map_cons, ih]

theorem joinedByNewlines_Split (s : String) : joinedByNewlines (Split s '\n') = s :=
  String.ext (joinedByNewlines_splitChars s.data)

theorem lineText_piece (seen : Nat) (s : String) :
    lineText seen (if s.length > 0 then [Element.StringElement s] else []) = s := by
  by_cases h : s.length > 0
  · rw [if_pos h, lineText_text, lineText, String.append_empty]
  · rw [if_neg h, lineText]
    have : s.data = [] := List.eq_nil_of_length_eq_zero (by
      have : s.length = s.data.length := rfl
      omega)
    exact (String.ext this).symm

theorem nonTextElementsOf_piece (s : String) :
    nonTextElementsOf (if s.length > 0 then [Element.StringElement s] else []) = [] := by
  by_cases h : s.length > 0
  · rw [if_pos h]; rfl
  · rw [if_neg h]; rfl

theorem splitLines.pieces_text (split : List String) :
    ∀ (result : List (List Element)) (pendingLine : List Element),
    closedText 0 (splitLines.pieces split result pendingLine).1
        ++ lineText (nonTextElementsOf (splitLines.pieces split result pendingLine).1.flatten).length
          (splitLines.pieces split result pendingLine).2
      = closedText 0 result ++ lineText (nonTextElementsOf result.flatten).length pendingLine
        ++ joinedByNewlines split := by
  induction split with
  | nil =>
    intro result pendingLine
    simp [splitLines.pieces, joinedByNewlines]
  | cons s rest ih =>
    intro result pendingLine
    have hpend : (if s.length > 0 then pendingLine ++ [Element.StringElement s] else pendingLine)
        = pendingLine ++ (if s.length > 0 then [Element.StringElement s] else []) := by
      by_cases h : s.length > 0 <;> simp [h]
    rw [splitLines.pieces, hpend]
    cases rest with
    | nil =>
      rw [if_neg (by simp), splitLines.pieces]
      simp only [lineText_append, lineText_piece, joinedByNewlines, String.append_assoc]
    | cons t rest =>
      rw [if_pos (by simp), ih]
      simp only [closedText_append, closedText, lineText_append, lineText_piece, lineText,
        joinedByNewlines, String.append_assoc, Nat.zero_add, String.append_empty,
        String.empty_append]

theorem splitLines.pieces_count (split : List String) (result : List (List Element))
    (pendingLine : List Element) :
    nonTextElementsOf ((splitLines.pieces split result pendingLine).1.flatten
        ++ (splitLines.pieces split result pendingLine).2)
      = nonTextElementsOf (result.flatten ++ pendingLine) := by
  induction split generalizing result pendingLine with
  | nil => rfl
  | cons s rest ih =>
    have hpend : (if s.length > 0 then pendingLine ++ [Element.StringElement s] else pendingLine)
        = pendingLine ++ (if s.length > 0 then [Element.StringElement s] else []) := by
      by_cases h : s.length > 0 <;> simp [h]
    rw [splitLines.pieces, hpend]
    by_cases hr : rest.length > 0
    · rw [if_pos hr, ih]
      simp [nonTextElementsOf_append, nonTextElementsOf_piece]
    · rw [if_neg hr, ih]
      simp [nonTextElementsOf_append, nonTextElementsOf_piece]

theorem splitLines.line_keeps_text (line : List Element) :
    ∀ (result : List (List Element)) (pendingLine : List Element),
    closedText 0 (splitLines.line line result pendingLine).1
        ++ lineText (nonTextElementsOf (splitLines.line line result pendingLine).1.flatten).length
          (splitLines.line line result pendingLine).2
      = closedText 0 result ++ lineText (nonTextElementsOf result.flatten).length
          (pendingLine ++ line) := by
  induction line with
  | nil =>
    intro result pendingLine
    simp [splitLines.line]
  | cons e rest ih =>
    intro result pendingLine
    cases he : e.isStringElement with
    | true =>
      obtain ⟨Content, rfl⟩ := Element.eq_StringElement_of_isStringElement e he
      have hcount := congrArg List.length
        (splitLines.pieces_count (Split Content '\n') result pendingLine)
      simp only [nonTextElementsOf_append, List.length_append] at hcount
      rw [splitLines.text_element, ih, lineText_append, hcount, ← String.append_assoc,
        splitLines.pieces_text, joinedByNewlines_Split, lineText_append, lineText_text]
      simp only [String.append_assoc]
    | false =>
      rw [splitLines.other_element e rest result pendingLine he, ih, List.append_assoc]
      rfl

theorem splitLines.line_count (line : List Element) (result : List (List Element))
    (pendingLine : List Element) :
    nonTextElementsOf ((splitLines.line line result pendingLine).1.flatten
        ++ (splitLines.line line result pendingLine).2)
      = nonTextElementsOf (result.flatten ++ pendingLine ++ line) :=
  (splitLines.line_invariant line result pendingLine).2.1

theorem splitLines.lines_text (lines : List (List Element)) :
    ∀ result : List (List Element),
    closedText 0 (splitLines.lines lines result)
      = closedText 0 result ++ closedText (nonTextElementsOf result.flatten).length lines := by
  induction lines with
  | nil =>
    intro result
    simp [splitLines.lines, closedText]
  | cons line rest ih =>
    intro result
    have hcount := congrArg List.length (splitLines.line_count line result [])
    simp only [List.append_nil, nonTextElementsOf_append, List.length_append] at hcount
    rw [splitLines.lines, ih, closedText_append]
    simp only [closedText, String.append_empty, List.flatten_append, List.flatten_cons,
      List.flatten_nil, List.append_nil, nonTextElementsOf_append, List.length_append, hcount,
      Nat.zero_add]
    rw [← String.append_assoc (closedText 0 (splitLines.line line result []).1),
      splitLines.line_keeps_text]
    simp only [List.nil_append, String.append_assoc]

theorem String.append_right_cancel (a b c : String) (h : a ++ c = b ++ c) : a = b := by
  apply String.ext
  have := congrArg String.data h
  simp only [String.data_append] at this
  exact List.append_cancel_right this

/-- C40: for every sequence of lines, `splitLines` succeeds, and
`serializeLines` on a fresh table gives for the lines that `splitLines`
returns the same text and the same table (entries and sequence number) as for
the lines themselves. -/
theorem splitLines_keeps_serialized_text (lines : List (List Element))
    (attrs : AttributesWithOverrides) :
    ∃ out : List (List Element), splitLines lines attrs = .ok out
      ∧ (serializeLines out newPlaceHolders).1 = (serializeLines lines newPlaceHolders).1
      ∧ (serializeLines out newPlaceHolders).2.elements
        = (serializeLines lines newPlaceHolders).2.elements
      ∧ (serializeLines out newPlaceHolders).2.seq = (serializeLines lines newPlaceHolders).2.seq
      ∧ serializeLines out newPlaceHolders = serializeLines lines newPlaceHolders := by
  refine ⟨splitLines.lines lines [], rfl, ?_⟩
  have htable : nonTextElements (splitLines.lines lines []) = nonTextElements lines := by
    have := (splitLines.lines_invariant lines []).2.1
    simpa [nonTextElements] using this
  have htext : joinedByNewlines (lineTexts 0 (splitLines.lines lines []))
      = joinedByNewlines (lineTexts 0 lines) := by
    have hclosed := splitLines.lines_text lines []
    simp only [closedText, String.empty_append, List.flatten_nil] at hclosed
    have hlen := (splitLines.lines_invariant lines []).1
    cases lines with
    | nil => rfl
    | cons line rest =>
      cases hout : splitLines.lines (line :: rest) [] with
      | nil => rw [hout] at hlen; simp at hlen; omega
      | cons o outs =>
        rw [hout] at hclosed
        rw [closedText_eq_joined, show (nonTextElementsOf ([] : List Element)).length = 0 from rfl,
          closedText_eq_joined] at hclosed
        exact String.append_right_cancel _ _ _ hclosed
  have hall : serializeLines (splitLines.lines lines []) newPlaceHolders
      = serializeLines lines newPlaceHolders := by
    rw [serializeLines_spec, serializeLines_spec, htable, htext]
  exact ⟨by rw [hall], by rw [hall], by rw [hall], hall⟩

/-- C40, on two lines with newlines in the texts and elements between them. -/
theorem splitLines_keeps_serialized_text_witness :
    splitLines [[.StringElement "a\n\nb", .LineBreak, .StringElement "c\n"],
        [.SingleLineComment "d"]] ⟨[], [], []⟩
      = .ok [[.StringElement "a"], [], [.StringElement "b", .LineBreak, .StringElement "c"], [],
          [.SingleLineComment "d"]]
    ∧ (serializeLines [[.StringElement "a"], [],
          [.StringElement "b", .LineBreak, .StringElement "c"], [], [.SingleLineComment "d"]]
        newPlaceHolders).1 = "a\n\nb\uFFFD1\uFFFDc\n\n\uFFFD2\uFFFD"
    ∧ (serializeLines [[.StringElement "a\n\nb", .LineBreak, .StringElement "c\n"],
        [.SingleLineComment "d"]] newPlaceHolders).1 = "a\n\nb\uFFFD1\uFFFDc\n\n\uFFFD2\uFFFD"
    ∧ ∃ out : List (List Element),
        splitLines [[.StringElement "a\n\nb", .LineBreak, .StringElement "c\n"],
          [.SingleLineComment "d"]] ⟨[], [], []⟩ = .ok out
        ∧ serializeLines out newPlaceHolders
          = serializeLines [[.StringElement "a\n\nb", .LineBreak, .StringElement "c\n"],
              [.SingleLineComment "d"]] newPlaceHolders :=
  ⟨rfl, by decide, by decide,
    (splitLines_keeps_serialized_text _ _).imp fun _ h => ⟨h.1, h.2.2.2.2⟩⟩

/-! ## The resolver on containers -/

theorem Resolved.map_map {α β γ : Type} (f : β → γ) (g : α → β) (r : Resolved α) :
    Resolved.map f (Resolved.map g r) = Resolved.map (fun x => f (g x)) r := by
  obtain ⟨x, a⟩ := r
  cases x <;> rfl

theorem applyAttributeSubstitutionsOnElement_default (e : Element)
    (attrs : AttributesWithOverrides) (h : e.hasResolverCase = false) :
    applyAttributeSubstitutionsOnElement e attrs = (.ok e, attrs) := by
  cases e <;> first
    | (simp [Element.hasResolverCase] at h; done)
    | simp only [applyAttributeSubstitutionsOnElement]

theorem applyAttributeSubstitutionsOnElement_reference (name : String)
    (attrs : AttributesWithOverrides) :
    applyAttributeSubstitutionsOnElement (.AttributeSubstitution name) attrs
      = (.ok (.StringElement (if (attrs.GetAsString name).2 then (attrs.GetAsString name).1
          else "\x7b" ++ name ++ "\x7d")), attrs) := by
  rw [applyAttributeSubstitutionsOnElement]
  rcases attrs.GetAsString name with ⟨value, found⟩
  cases found <;> rfl

/-- C31 does not hold for the label of a cross-reference: with `foo` declared,
a reference to `foo` in the label stays as it is, while the same reference in
the path is resolved. -/
theorem cross_reference_label_counterexample :
    applyAttributeSubstitutionsOnElement
        (.ExternalCrossReference "" [.AttributeSubstitution "foo"] [.AttributeSubstitution "foo"])
        ⟨[("foo", .str "bar")], [], []⟩
      = (.ok (.ExternalCrossReference "" [.StringElement "bar"] [.AttributeSubstitution "foo"]),
          ⟨[("foo", .str "bar")], [], []⟩) :=
  rfl

/-! ## Quoted text in the lines of a paragraph -/

theorem Merge_cons_other (e : Element) (l : List Element) (he : e.isStringElement = false) :
    Merge (e :: l) = e :: Merge l := by
  cases e <;> first | (simp [Element.isStringElement] at he; done) | simp [Merge]

theorem Merge_append_other (xs ys : List Element) (e : Element)
    (he : e.isStringElement = false) : Merge (xs ++ e :: ys) = Merge xs ++ e :: Merge ys := by
  induction xs with
  | nil => simpa using Merge_cons_other e ys he
  | cons x rest ih =>
    cases hx : x.isStringElement with
    | true =>
      obtain ⟨a, rfl⟩ := Element.eq_StringElement_of_isStringElement x hx
      rw [List.cons_append, Merge, ih, Merge]
      cases hm : Merge rest with
      | nil =>
        cases e <;> first | (simp [Element.isStringElement] at he; done) | simp
      | cons m t =>
        cases m <;> simp
    | false =>
      rw [List.cons_append, Merge_cons_other x _ hx, Merge_cons_other x _ hx, ih]
      rfl

theorem applyAttributeSubstitutionsOnElement_quoted (Kind : Nat) (Elements : List Element)
    (Attributes : List (String × Element)) (attrs : AttributesWithOverrides) :
    applyAttributeSubstitutionsOnElement (.QuotedText Kind Elements Attributes) attrs
      = Resolved.map (fun Elements => .QuotedText Kind Elements Attributes)
          (applyAttributeSubstitutionsOnElements Elements attrs) := by
  rw [applyAttributeSubstitutionsOnElement, applyAttributeSubstitutionsOnElements,
    Resolved.map_map]

theorem quoted_in_sequence (before after : List Element) (Kind : Nat) (Elements : List Element)
    (Attributes : List (String × Element)) (attrs : AttributesWithOverrides)
    (line : List Element) (out : AttributesWithOverrides)
    (h : applyAttributeSubstitutionsOnElements
      (before ++ .QuotedText Kind Elements Attributes :: after) attrs = (.ok line, out)) :
    ∃ (before1 Elements1 after1 : List Element) (a1 a2 : AttributesWithOverrides),
      applyAttributeSubstitutionsOnElementsLoop before attrs = (.ok before1, a1)
      ∧ applyAttributeSubstitutionsOnElements Elements a1 = (.ok Elements1, a2)
      ∧ applyAttributeSubstitutionsOnElementsLoop after a2 = (.ok after1, out)
      ∧ line = Merge before1 ++ .QuotedText Kind Elements1 Attributes :: Merge after1 := by
  rw [applyAttributeSubstitutionsOnElements, applyAttributeSubstitutionsOnElementsLoop_append]
    at h
  rcases hb : applyAttributeSubstitutionsOnElementsLoop before attrs with ⟨rb, a1⟩
  rw [hb] at h
  cases rb with
  | error err => simp [Resolved.map] at h
  | ok before1 =>
    simp only [] at h
    rw [applyAttributeSubstitutionsOnElementsLoop_cons,
      applyAttributeSubstitutionsOnElement_quoted] at h
    rcases hq : applyAttributeSubstitutionsOnElements Elements a1 with ⟨rq, a2⟩
    rw [hq] at h
    cases rq with
    | error err => simp [Resolved.map] at h
    | ok Elements1 =>
      simp only [Resolved.map_ok] at h
      rcases ha : applyAttributeSubstitutionsOnElementsLoop after a2 with ⟨ra, a3⟩
      rw [ha] at h
      cases ra with
      | error err => simp [Resolved.map] at h
      | ok after1 =>
        simp only [Resolved.map_ok, Prod.mk.injEq, Except.ok.injEq] at h
        obtain ⟨h1, h2⟩ := h
        refine ⟨before1, Elements1, after1, a1, a2, rfl, hq, ?_, ?_⟩
        · rw [← h2]
          exact ha
        · rw [← h1, Merge_append_other before1 after1 (.QuotedText Kind Elements1 Attributes) rfl]

theorem applyAttributeSubstitutionsOnLines_get (lines : List (List Element)) :
    ∀ (attrs : AttributesWithOverrides) (result : List (List Element))
      (out : AttributesWithOverrides),
    applyAttributeSubstitutionsOnLines lines attrs = (.ok result, out) →
    result.length = lines.length
    ∧ ∀ (i : Nat) (line : List Element), lines[i]? = some line →
        ∃ (line1 : List Element) (a1 a2 : AttributesWithOverrides),
          result[i]? = some line1
          ∧ applyAttributeSubstitutionsOnElements line a1 = (.ok line1, a2) := by
  induction lines with
  | nil =>
    intro attrs result out h
    rw [applyAttributeSubstitutionsOnLines_nil] at h
    simp only [Prod.mk.injEq, Except.ok.injEq] at h
    obtain ⟨rfl, -⟩ := h
    exact ⟨rfl, fun i line hi => by simp at hi⟩
  | cons first rest ih =>
    intro attrs result out h
    rw [applyAttributeSubstitutionsOnLines_cons] at h
    rcases hf : applyAttributeSubstitutionsOnElements first attrs with ⟨rf, a1⟩
    rw [applyAttributeSubstitutionsOnElements] at hf
    rw [hf] at h
    cases rf with
    | error err => simp [Resolved.map] at h
    | ok first1 =>
      simp only [] at h
      rcases hr : applyAttributeSubstitutionsOnLines rest a1 with ⟨rr, a2⟩
      rw [hr] at h
      cases rr with
      | error err => simp [Resolved.map] at h
      | ok rest1 =>
        simp only [Resolved.map_ok, Prod.mk.injEq, Except.ok.injEq] at h
        obtain ⟨rfl, rfl⟩ := h
        obtain ⟨hlen, hget⟩ := ih a1 rest1 a2 hr
        refine ⟨by simp [hlen], ?_⟩
        intro i line hi
        cases i with
        | zero =>
          simp only [List.getElem?_cons_zero, Option.some.injEq] at hi
          subst hi
          exact ⟨first1, attrs, a1, by simp, by rw [applyAttributeSubstitutionsOnElements, hf]⟩
        | succ i =>
          simp only [List.getElem?_cons_succ] at hi ⊢
          exact hget i line hi

theorem applyAttributeSubstitutionsOnElements_single_text (Content : String)
    (attrs : AttributesWithOverrides) :
    applyAttributeSubstitutionsOnElements [.StringElement Content] attrs
      = (.ok [.StringElement Content], attrs) := by
  rw [applyAttributeSubstitutionsOnElements, applyAttributeSubstitutionsOnElementsLoop_cons,
    applyAttributeSubstitutionsOnElement_text]
  simp only [applyAttributeSubstitutionsOnElementsLoop_nil, Resolved.map_ok, Merge]

/-- C32: for every paragraph that the resolver returns without an error: the
result is the paragraph with its attributes and as many lines as before; a
line that holds a single text element is returned as it is; and a line that
holds a quoted text is returned with the elements before it merged among
themselves, then the quoted text with its kind and its attributes as they
were and, as children, the result of the resolver on its own children
(resolved, then merged among themselves), then the elements after it merged
among themselves. -/
theorem paragraph_resolves_quoted_text_in_place (Attributes : List (String × Element))
    (lines : List (List Element)) (attrs : AttributesWithOverrides) (result : Element)
    (out : AttributesWithOverrides)
    (h : applyAttributeSubstitutionsOnElement (.Paragraph Attributes lines) attrs
      = (.ok result, out)) :
    ∃ resolved : List (List Element),
      result = .Paragraph Attributes resolved
      ∧ resolved.length = lines.length
      ∧ (∀ (i : Nat) (Content : String), lines[i]? = some [.StringElement Content] →
          resolved[i]? = some [.StringElement Content])
      ∧ (∀ (i : Nat) (before after : List Element) (Kind : Nat) (Elements : List Element)
          (QuotedAttributes : List (String × Element)),
          lines[i]? = some (before ++ .QuotedText Kind Elements QuotedAttributes :: after) →
          ∃ (before1 Elements1 after1 : List Element) (a0 a1 a2 a3 : AttributesWithOverrides),
            applyAttributeSubstitutionsOnElementsLoop before a0 = (.ok before1, a1)
            ∧ applyAttributeSubstitutionsOnElements Elements a1 = (.ok Elements1, a2)
            ∧ applyAttributeSubstitutionsOnElementsLoop after a2 = (.ok after1, a3)
            ∧ resolved[i]? = some (Merge before1
                ++ .QuotedText Kind Elements1 QuotedAttributes :: Merge after1)) := by
  rw [applyAttributeSubstitutionsOnElement_paragraph] at h
  rcases hl : applyAttributeSubstitutionsOnLines lines attrs with ⟨r, a⟩
  rw [hl] at h
  cases r with
  | error err => simp [Resolved.map] at h
  | ok resolved =>
    simp only [Resolved.map_ok, Prod.mk.injEq, Except.ok.injEq] at h
    obtain ⟨rfl, rfl⟩ := h
    obtain ⟨hlen, hget⟩ := applyAttributeSubstitutionsOnLines_get lines attrs resolved a hl
    refine ⟨resolved, rfl, hlen, ?_, ?_⟩
    · intro i Content hi
      obtain ⟨line1, a1, a2, h1, h2⟩ := hget i _ hi
      rw [applyAttributeSubstitutionsOnElements_single_text] at h2
      simp only [Prod.mk.injEq, Except.ok.injEq] at h2
      rw [h1, ← h2.1]
    · intro i before after Kind Elements QuotedAttributes hi
      obtain ⟨line1, a0, a3, h1, h2⟩ := hget i _ hi
      obtain ⟨before1, Elements1, after1, a1, a2, hb, hq, ha, hline⟩ :=
        quoted_in_sequence before after Kind Elements QuotedAttributes a0 line1 a3 h2
      exact ⟨before1, Elements1, after1, a0, a1, a2, a3, hb, hq, ha, by rw [h1, hline]⟩

/-- C32, on the paragraph of two lines of the test `should replace with new
StringElement in quoted text`, with `foo` declared as `bar`. -/
theorem paragraph_resolves_quoted_text_in_place_witness :
    applyAttributeSubstitutionsOnElement
        (.Paragraph []
          [[.StringElement "hello ",
              .QuotedText 0 [.AttributeSubstitution "foo", .StringElement " and more content."] []],
            [.StringElement "and another line"]])
        ⟨[("foo", .str "bar")], [], []⟩
      = (.ok (.Paragraph []
          [[.StringElement "hello ",
              .QuotedText 0 [.StringElement "bar and more content."] []],
            [.StringElement "and another line"]]), ⟨[("foo", .str "bar")], [], []⟩)
    ∧ ∃ resolved : List (List Element),
        Element.Paragraph []
          [[.StringElement "hello ",
              .QuotedText 0 [.StringElement "bar and more content."] []],
            [.StringElement "and another line"]] = .Paragraph [] resolved
        ∧ resolved.length = 2
        ∧ resolved[1]? = some [.StringElement "and another line"] :=
  ⟨rfl,
    (paragraph_resolves_quoted_text_in_place []
      [[.StringElement "hello ",
          .QuotedText 0 [.AttributeSubstitution "foo", .StringElement " and more content."] []],
        [.StringElement "and another line"]]
      ⟨[("foo", .str "bar")], [], []⟩ _ _ rfl).imp
      fun _ hr => ⟨hr.1, hr.2.1, hr.2.2.1 1 "and another line" rfl⟩⟩

/-! ## The attributes of the raw document -/

theorem rawAttributes_loop_declaration (lib : Library) (Name Value : String)
    (rest : List Element) (result : Attributes) :
    RawDocument.Attributes.loop lib (.AttributeDeclaration Name Value :: rest) result
      = RawDocument.Attributes.loop lib rest (result.Set Name (.str Value)) := by
  rw [RawDocument.Attributes.loop]

theorem rawAttributes_loop_section (lib : Library) (Level : Int)
    (SectionAttributes : List (String × Element)) (Title Elements rest : List Element)
    (result : Attributes) :
    RawDocument.Attributes.loop lib (.Section Level SectionAttributes Title Elements :: rest)
        result
      = if Level = 0 then
          RawDocument.Attributes.loop lib rest
            (RawDocument.Attributes.section lib SectionAttributes result)
        else result := by
  rw [RawDocument.Attributes.loop]

theorem rawAttributes_loop_stop (lib : Library) (e : Element) (rest : List Element)
    (result : Attributes) (h : e.isDocumentHeader = false) :
    RawDocument.Attributes.loop lib (e :: rest) result = result := by
  cases e <;> first
    | (simp [Element.isDocumentHeader] at h; done)
    | rfl
    | (rw [rawAttributes_loop_section]
       simp only [Element.isDocumentHeader, decide_eq_false_iff_not] at h
       rw [if_neg h])

theorem rawAttributes_section_of_not_expands (lib : Library) (Level : Int)
    (SectionAttributes : List (String × Element)) (Title Elements : List Element)
    (result : Attributes)
    (h : (Element.Section Level SectionAttributes Title Elements).expands lib = false) :
    RawDocument.Attributes.section lib SectionAttributes result = result := by
  simp only [Element.expands, Bool.or_eq_false_iff] at h
  obtain ⟨h1, h2⟩ := h
  unfold RawDocument.Attributes.section
  cases ha : (GoMap.get SectionAttributes AttrAuthors).bind lib.expandAuthors with
  | some a => rw [ha] at h1; exact absurd h1 (by simp)
  | none =>
    cases hr : (GoMap.get SectionAttributes AttrRevision).bind lib.expandRevision with
    | some r => rw [hr] at h2; exact absurd h2 (by simp)
    | none => rfl

/-- The loop reads the leading run of declarations and sections of level 0 and
nothing after the element that ends this run. -/
theorem rawAttributes_loop_top (lib : Library) (top : List Element) :
    ∀ (rest : List Element) (result : Attributes),
    (∀ e ∈ top, e.isDocumentHeader = true) →
    (∀ stop ∈ rest.head?, stop.isDocumentHeader = false) →
    RawDocument.Attributes.loop lib (top ++ rest) result
      = RawDocument.Attributes.loop lib top result := by
  induction top with
  | nil =>
    intro rest result _ hstop
    cases rest with
    | nil => rfl
    | cons stop rest =>
      rw [List.nil_append, rawAttributes_loop_stop lib stop rest result
        (hstop stop (by simp))]
      rfl
  | cons e top ih =>
    intro rest result htop hstop
    have he := htop e (List.mem_cons_self _ _)
    have htop2 : ∀ e ∈ top, e.isDocumentHeader = true :=
      fun e h => htop e (List.mem_cons_of_mem _ h)
    cases e <;> simp [Element.isDocumentHeader] at he
    case AttributeDeclaration Name Value =>
      rw [List.cons_append, rawAttributes_loop_declaration,
        rawAttributes_loop_declaration, ih rest _ htop2 hstop]
    case Section Level SectionAttributes Title Elements =>
      rw [List.cons_append, rawAttributes_loop_section,
        rawAttributes_loop_section, if_pos he, if_pos he, ih rest _ htop2 hstop]

theorem rawAttributes_loop_get (lib : Library) (name : String) (top : List Element) :
    ∀ result : Attributes,
    (∀ e ∈ top, e.isDocumentHeader = true ∧ e.expands lib = false) →
    GoMap.get (RawDocument.Attributes.loop lib top result) name
      = match lastDeclaration name top with
        | some value => some (.str value)
        | none => GoMap.get result name := by
  induction top with
  | nil => intro result _; rfl
  | cons e top ih =>
    intro result htop
    obtain ⟨he, hexp⟩ := htop e (List.mem_cons_self _ _)
    have htop2 : ∀ e ∈ top, e.isDocumentHeader = true ∧ e.expands lib = false :=
      fun e h => htop e (List.mem_cons_of_mem _ h)
    cases e <;> simp [Element.isDocumentHeader] at he
    case AttributeDeclaration Name Value =>
      rw [rawAttributes_loop_declaration, ih _ htop2, lastDeclaration]
      cases lastDeclaration name top with
      | some later => rfl
      | none =>
        by_cases hn : Name = name
        · subst hn
          simp only [if_true, Attributes.Set]
          exact GoMap.get_set_self _ _ _
        · simp only [hn, if_false, Attributes.Set]
          exact GoMap.get_set_ne _ _ _ _ (fun h => hn h.symm)
    case Section Level SectionAttributes Title Elements =>
      rw [rawAttributes_loop_section, if_pos he,
        rawAttributes_section_of_not_expands lib Level SectionAttributes Title Elements
          result hexp, ih _ htop2]
      rfl

/-- C34 does not hold: a declaration that comes after a blank line, and before
the first section of a level other than 0, is not returned. -/
theorem document_attributes_counterexample :
    RawDocument.Attributes exampleLibrary
        ⟨⟨[]⟩, [.AttributeDeclaration "a" "1", .BlankLine, .AttributeDeclaration "b" "2",
          .Section 1 [] [.StringElement "title"] []]⟩
      = [("a", .str "1")]
    ∧ GoMap.get (RawDocument.Attributes exampleLibrary
        ⟨⟨[]⟩, [.AttributeDeclaration "a" "1", .BlankLine, .AttributeDeclaration "b" "2",
          .Section 1 [] [.StringElement "title"] []]⟩) "b" = none := by
  decide

/-- C34, amended: `RawDocument.Attributes` reads the leading run of top-level
elements that are attribute declarations or sections of level 0, and nothing
from the first other element on; when no section of this run has authors or
a revision to expand, it returns for every name the value of the last
declaration of the name in this run, and nothing for a name without a
declaration in this run. -/
theorem document_attributes_of_leading_declarations (lib : Library) (frontMatter : FrontMatter)
    (top rest : List Element)
    (htop : ∀ e ∈ top, e.isDocumentHeader = true)
    (hstop : ∀ stop ∈ rest.head?, stop.isDocumentHeader = false) :
    RawDocument.Attributes lib ⟨frontMatter, top ++ rest⟩
      = RawDocument.Attributes lib ⟨frontMatter, top⟩
    ∧ ((∀ e ∈ top, e.expands lib = false) →
        ∀ name : String,
          GoMap.get (RawDocument.Attributes lib ⟨frontMatter, top ++ rest⟩) name
            = (lastDeclaration name top).map Value.str) := by
  have h1 : RawDocument.Attributes lib ⟨frontMatter, top ++ rest⟩
      = RawDocument.Attributes lib ⟨frontMatter, top⟩ :=
    rawAttributes_loop_top lib top rest [] htop hstop
  refine ⟨h1, fun hexp name => ?_⟩
  rw [h1]
  show GoMap.get (RawDocument.Attributes.loop lib top []) name = _
  rw [rawAttributes_loop_get lib name top [] (fun e he => ⟨htop e he, hexp e he⟩)]
  cases lastDeclaration name top <;> rfl

/-- C34, amended, on a document that declares `a` twice around a section of
level 0, then holds a section of level 1 and a declaration of `b`. -/
theorem document_attributes_of_leading_declarations_witness :
    (∀ e ∈ [Element.AttributeDeclaration "a" "1", .Section 0 [] [.StringElement "title"] [],
        .AttributeDeclaration "a" "2"], e.isDocumentHeader = true)
    ∧ RawDocument.Attributes exampleLibrary
        ⟨⟨[]⟩, [.AttributeDeclaration "a" "1", .Section 0 [] [.StringElement "title"] [],
            .AttributeDeclaration "a" "2"]
          ++ [.Section 1 [] [.StringElement "first"] [], .AttributeDeclaration "b" "3"]⟩
      = [("a", .str "2")]
    ∧ GoMap.get (RawDocument.Attributes exampleLibrary
        ⟨⟨[]⟩, [.AttributeDeclaration "a" "1", .Section 0 [] [.StringElement "title"] [],
            .AttributeDeclaration "a" "2"]
          ++ [.Section 1 [] [.StringElement "first"] [], .AttributeDeclaration "b" "3"]⟩) "a"
      = (lastDeclaration "a" [.AttributeDeclaration "a" "1",
          .Section 0 [] [.StringElement "title"] [], .AttributeDeclaration "a" "2"]).map
          Value.str :=
  ⟨by
      intro e he
      simp only [List.mem_cons, List.mem_singleton, List.not_mem_nil, or_false] at he
      rcases he with rfl | rfl | rfl <;> rfl,
    by decide,
    (document_attributes_of_leading_declarations exampleLibrary ⟨[]⟩
      [.AttributeDeclaration "a" "1", .Section 0 [] [.StringElement "title"] [],
        .AttributeDeclaration "a" "2"]
      [.Section 1 [] [.StringElement "first"] [], .AttributeDeclaration "b" "3"]
      (by
        intro e he
        simp only [List.mem_cons, List.mem_singleton, List.not_mem_nil, or_false] at he
        rcases he with rfl | rfl | rfl <;> rfl)
      (by
        intro stop hs
        simp only [List.head?_cons, Option.mem_def, Option.some.injEq] at hs
        subst hs
        rfl)).2
      (by
        intro e he
        simp only [List.mem_cons, List.mem_singleton, List.not_mem_nil, or_false] at he
        rcases he with rfl | rfl | rfl <;> rfl)
      "a"⟩

/-! ## Errors while the substitutions are applied -/

theorem applySubstitutions_cons (lib : Library) (e : Element) (rest : List Element)
    (attrs : AttributesWithOverrides) :
    applySubstitutions lib (e :: rest) attrs
      = match applySubstitutions.element lib e attrs with
        | none => none
        | some (.error err, attrs) => some (.error err, attrs)
        | some (.ok e, attrs) =>
          match applySubstitutions lib rest attrs with
          | none => none
          | some r => some (Resolved.map (e :: ·) r) := by
  rw [applySubstitutions]

theorem applySubstitutions_first_error (lib : Library) (before : List Element) :
    ∀ (e : Element) (after : List Element) (attrs : AttributesWithOverrides)
      (r : List Element) (a1 : AttributesWithOverrides) (err : String)
      (a2 : AttributesWithOverrides),
    applySubstitutions lib before attrs = some (.ok r, a1) →
    applySubstitutions.element lib e a1 = some (.error err, a2) →
    applySubstitutions lib (before ++ e :: after) attrs = some (.error err, a2) := by
  induction before with
  | nil =>
    intro e after attrs r a1 err a2 hb he
    rw [applySubstitutions] at hb
    simp only [Option.some.injEq, Prod.mk.injEq] at hb
    obtain ⟨-, rfl⟩ := hb
    rw [List.nil_append, applySubstitutions_cons, he]
  | cons b before ih =>
    intro e after attrs r a1 err a2 hb he
    rw [applySubstitutions_cons] at hb
    rw [List.cons_append, applySubstitutions_cons]
    rcases hfirst : applySubstitutions.element lib b attrs with _ | ⟨x, a0⟩
    · rw [hfirst] at hb; simp at hb
    · rw [hfirst] at hb
      cases x with
      | error err0 => simp at hb
      | ok b1 =>
        simp only [] at hb ⊢
        rcases hrest : applySubstitutions lib before a0 with _ | ⟨y, a3⟩
        · rw [hrest] at hb; simp at hb
        · rw [hrest] at hb
          cases y with
          | error err1 => simp [Resolved.map] at hb
          | ok r1 =>
            simp only [Resolved.map_ok, Option.some.injEq, Prod.mk.injEq] at hb
            obtain ⟨-, rfl⟩ := hb
            rw [ih e after a0 r1 a3 err a2 hrest he]
            rfl

theorem applySubstitutions.element_selector_error (lib : Library) (e : Element)
    (h : e.isBlockWithSubstitution = true) (attrs : AttributesWithOverrides) (err : String)
    (hsel : substitutionsFor lib.render ⟨e, h⟩ = .error err) :
    applySubstitutions.element lib e attrs = some (.error err, attrs) := by
  cases e <;> first
    | (simp [Element.isBlockWithSubstitution] at h; done)
    | simp [applySubstitutions.element, Element.isBlockWithSubstitution,
        Element.isBlockWithElementSubstitution, hsel]

theorem applySubstitutions.element_lines (lib : Library) (e : Element)
    (h : e.isBlockWithSubstitution = true) (hlines : e.isBlockWithLineSubstitution = true)
    (attrs : AttributesWithOverrides) (subs : List elementsSubstitution)
    (hsel : substitutionsFor lib.render ⟨e, h⟩ = .ok subs) :
    applySubstitutions.element lib e attrs
      = some (Resolved.map e.ReplaceLines
          (applySubstitutionsOnLines lib.ParseReader e.LinesToSubstitute subs attrs)) := by
  cases e <;> first
    | (simp [Element.isBlockWithLineSubstitution] at hlines; done)
    | simp [applySubstitutions.element, Element.isBlockWithSubstitution,
        Element.isBlockWithElementSubstitution, hsel]

theorem applySubstitutions.element_elements (lib : Library) (e : Element)
    (h : e.isBlockWithSubstitution = true) (hels : e.isBlockWithElementSubstitution = true)
    (attrs : AttributesWithOverrides) (subs : List elementsSubstitution)
    (hsel : substitutionsFor lib.render ⟨e, h⟩ = .ok subs) :
    applySubstitutions.element lib e attrs
      = some (Resolved.map e.ReplaceElements
          (applySubstitutionsOnElements lib.ParseReader e.ElementsToSubstitute subs attrs)) := by
  cases e <;> first
    | (simp [Element.isBlockWithElementSubstitution] at hels; done)
    | simp [applySubstitutions.element, Element.isBlockWithSubstitution,
        Element.isBlockWithElementSubstitution, hsel]

theorem applySubstitutionsOnLines_first_error (ParseReader : Grammar)
    (before : List elementsSubstitution) :
    ∀ (sub : elementsSubstitution) (after : List elementsSubstitution)
      (lines : List (List Element)) (attrs : AttributesWithOverrides)
      (lines1 : List (List Element)) (a1 : AttributesWithOverrides) (err : String)
      (a2 : AttributesWithOverrides),
    applySubstitutionsOnLines ParseReader lines before attrs = (.ok lines1, a1) →
    sub.apply ParseReader lines1 a1 = (.error err, a2) →
    applySubstitutionsOnLines ParseReader lines (before ++ sub :: after) attrs
      = (.error err, a2) := by
  induction before with
  | nil =>
    intro sub after lines attrs lines1 a1 err a2 hb hs
    rw [applySubstitutionsOnLines] at hb
    simp only [Prod.mk.injEq, Except.ok.injEq] at hb
    obtain ⟨rfl, rfl⟩ := hb
    rw [List.nil_append, applySubstitutionsOnLines, hs]
  | cons b before ih =>
    intro sub after lines attrs lines1 a1 err a2 hb hs
    rw [applySubstitutionsOnLines] at hb
    rw [List.cons_append, applySubstitutionsOnLines]
    rcases hfirst : b.apply ParseReader lines attrs with ⟨x, a0⟩
    rw [hfirst] at hb
    cases x with
    | error err0 => simp at hb
    | ok lines0 =>
      simp only [] at hb ⊢
      exact ih sub after lines0 a0 lines1 a1 err a2 hb hs

theorem applySubstitutionsOnElements_cons (ParseReader : Grammar) (element : Element)
    (rest : List Element) (subs : List elementsSubstitution) (attrs : AttributesWithOverrides) :
    applySubstitutionsOnElements ParseReader (element :: rest) subs attrs
      = match applySubstitutionsOnElements.element ParseReader element subs attrs with
        | (.error err, attrs) => (.error err, attrs)
        | (.ok e, attrs) =>
          Resolved.map (e :: ·) (applySubstitutionsOnElements ParseReader rest subs attrs) := by
  rw [applySubstitutionsOnElements]

theorem applySubstitutionsOnElements_first_error (ParseReader : Grammar)
    (subs : List elementsSubstitution) (before : List Element) :
    ∀ (e : Element) (after : List Element) (attrs : AttributesWithOverrides)
      (r : List Element) (a1 : AttributesWithOverrides) (err : String)
      (a2 : AttributesWithOverrides),
    applySubstitutionsOnElements ParseReader before subs attrs = (.ok r, a1) →
    applySubstitutionsOnElements.element ParseReader e subs a1 = (.error err, a2) →
    applySubstitutionsOnElements ParseReader (before ++ e :: after) subs attrs
      = (.error err, a2) := by
  induction before with
  | nil =>
    intro e after attrs r a1 err a2 hb he
    rw [applySubstitutionsOnElements] at hb
    simp only [Prod.mk.injEq, Except.ok.injEq] at hb
    obtain ⟨-, rfl⟩ := hb
    rw [List.nil_append, applySubstitutionsOnElements_cons, he]
  | cons b before ih =>
    intro e after attrs r a1 err a2 hb he
    rw [applySubstitutionsOnElements_cons] at hb
    rw [List.cons_append, applySubstitutionsOnElements_cons]
    rcases hfirst : applySubstitutionsOnElements.element ParseReader b subs attrs with ⟨x, a0⟩
    rw [hfirst] at hb
    cases x with
    | error err0 => simp at hb
    | ok b1 =>
      simp only [] at hb ⊢
      rcases hrest : applySubstitutionsOnElements ParseReader before subs a0 with ⟨y, a3⟩
      rw [hrest] at hb
      cases y with
      | error err1 => simp [Resolved.map] at hb
      | ok r1 =>
        simp only [Resolved.map_ok, Prod.mk.injEq] at hb
        obtain ⟨-, rfl⟩ := hb
        rw [ih e after a0 r1 a3 err a2 hrest he]
        rfl

theorem applySubstitutionsOnElements.nested_lines (ParseReader : Grammar) (e : Element)
    (h : e.isBlockWithLineSubstitution = true) (subs : List elementsSubstitution)
    (attrs : AttributesWithOverrides) :
    applySubstitutionsOnElements.element ParseReader e subs attrs
      = Resolved.map e.ReplaceLines
          (applySubstitutionsOnLines ParseReader e.LinesToSubstitute subs attrs) := by
  cases e <;> first
    | (simp [Element.isBlockWithLineSubstitution] at h; done)
    | (rw [applySubstitutionsOnElements.element]; rfl)

theorem applySubstitutionsOnElements.nested_elements (ParseReader : Grammar) (e : Element)
    (h : e.isBlockWithElementSubstitution = true) (subs : List elementsSubstitution)
    (attrs : AttributesWithOverrides) :
    applySubstitutionsOnElements.element ParseReader e subs attrs
      = Resolved.map e.ReplaceElements
          (applySubstitutionsOnElements ParseReader e.ElementsToSubstitute subs attrs) := by
  cases e <;> first
    | (simp [Element.isBlockWithElementSubstitution] at h; done)
    | (rw [applySubstitutionsOnElements.element]; rfl)

theorem applySubstitutions.element_continued (lib : Library) (Offset : Int) (inner : Element)
    (attrs : AttributesWithOverrides) :
    applySubstitutions.element lib (.ContinuedListItemElement Offset inner) attrs
      = match applySubstitutions.element lib inner attrs with
        | none => none
        | some (.error err, attrs) => some (.error err, attrs)
        | some (.ok r, attrs) => some (.ok (.ContinuedListItemElement Offset r), attrs) := by
  rw [applySubstitutions.element]

theorem applySubstitutions.element_section (lib : Library) (Level : Int)
    (Attributes : List (String × Element)) (Title Elements : List Element)
    (attrs : AttributesWithOverrides) :
    applySubstitutions.element lib (.Section Level Attributes Title Elements) attrs
      = applySubstitutionsOnSection lib Level Attributes Title Elements attrs := by
  rw [applySubstitutions.element]

theorem applySubstitutions.element_image (lib : Library) (Scheme : String)
    (Path : List Element) (Attributes : List (String × Element))
    (attrs : AttributesWithOverrides) :
    applySubstitutions.element lib (.ImageBlock Scheme Path Attributes) attrs
      = applySubstitutionsOnImageBlock lib Scheme Path Attributes attrs := by
  rw [applySubstitutions.element]

theorem applySubstitutions.element_markdown (lib : Library)
    (Attributes : List (String × Element)) (Lines : List (List Element))
    (attrs : AttributesWithOverrides) :
    applySubstitutions.element lib (.MarkdownQuoteBlock Attributes Lines) attrs
      = applySubstitutionsOnMarkdownQuoteBlock lib.ParseReader Attributes Lines attrs := by
  rw [applySubstitutions.element]

/-- C33: when the selector or a step fails on an element of the document, the
error is what comes back, without elements.  The loop of `applySubstitutions`
returns the error of the first element that fails; an element fails with the
error of the selector of a block, with the error of the first step that
fails on the lines of a block of lines, of a section title or of the path of an
image, with the error met in the elements of a block of elements (the first
nested block that fails, a block of lines with the error of its steps), and
a continued list item element fails with the error of its element; and
`ApplySubstitutions` returns an error of `applySubstitutions` with the zero
value of the draft document: no attributes, no front matter, no elements. -/
theorem substitution_error_aborts (lib : Library) :
    (∀ (before : List Element) (e : Element) (after : List Element)
        (attrs : AttributesWithOverrides) (r : List Element) (a1 : AttributesWithOverrides)
        (err : String) (a2 : AttributesWithOverrides),
      applySubstitutions lib before attrs = some (.ok r, a1) →
      applySubstitutions.element lib e a1 = some (.error err, a2) →
      applySubstitutions lib (before ++ e :: after) attrs = some (.error err, a2))
    ∧ (∀ (e : Element) (h : e.isBlockWithSubstitution = true)
        (attrs : AttributesWithOverrides) (err : String),
      substitutionsFor lib.render ⟨e, h⟩ = .error err →
      applySubstitutions.element lib e attrs = some (.error err, attrs))
    ∧ (∀ (e : Element) (h : e.isBlockWithSubstitution = true)
        (attrs : AttributesWithOverrides) (subs : List elementsSubstitution) (err : String)
        (a2 : AttributesWithOverrides),
      e.isBlockWithLineSubstitution = true →
      substitutionsFor lib.render ⟨e, h⟩ = .ok subs →
      applySubstitutionsOnLines lib.ParseReader e.LinesToSubstitute subs attrs
        = (.error err, a2) →
      applySubstitutions.element lib e attrs = some (.error err, a2))
    ∧ (∀ (e : Element) (h : e.isBlockWithSubstitution = true)
        (attrs : AttributesWithOverrides) (subs : List elementsSubstitution) (err : String)
        (a2 : AttributesWithOverrides),
      e.isBlockWithElementSubstitution = true →
      substitutionsFor lib.render ⟨e, h⟩ = .ok subs →
      applySubstitutionsOnElements lib.ParseReader e.ElementsToSubstitute subs attrs
        = (.error err, a2) →
      applySubstitutions.element lib e attrs = some (.error err, a2))
    ∧ (∀ (before : List elementsSubstitution) (sub : elementsSubstitution)
        (after : List elementsSubstitution) (lines : List (List Element))
        (attrs : AttributesWithOverrides) (lines1 : List (List Element))
        (a1 : AttributesWithOverrides) (err : String) (a2 : AttributesWithOverrides),
      applySubstitutionsOnLines lib.ParseReader lines before attrs = (.ok lines1, a1) →
      sub.apply lib.ParseReader lines1 a1 = (.error err, a2) →
      applySubstitutionsOnLines lib.ParseReader lines (before ++ sub :: after) attrs
        = (.error err, a2))
    ∧ (∀ (subs : List elementsSubstitution) (before : List Element) (e : Element)
        (after : List Element) (attrs : AttributesWithOverrides) (r : List Element)
        (a1 : AttributesWithOverrides) (err : String) (a2 : AttributesWithOverrides),
      applySubstitutionsOnElements lib.ParseReader before subs attrs = (.ok r, a1) →
      (e.isBlockWithLineSubstitution = true
          ∧ applySubstitutionsOnLines lib.ParseReader e.LinesToSubstitute subs a1
            = (.error err, a2)
        ∨ e.isBlockWithElementSubstitution = true
          ∧ applySubstitutionsOnElements lib.ParseReader e.ElementsToSubstitute subs a1
            = (.error err, a2)) →
      applySubstitutionsOnElements lib.ParseReader (before ++ e :: after) subs attrs
        = (.error err, a2))
    ∧ (∀ (Offset : Int) (inner : Element) (attrs : AttributesWithOverrides) (err : String)
        (a2 : AttributesWithOverrides),
      applySubstitutions.element lib inner attrs = some (.error err, a2) →
      applySubstitutions.element lib (.ContinuedListItemElement Offset inner) attrs
        = some (.error err, a2))
    ∧ (∀ (Level : Int) (Attributes : List (String × Element)) (Title Elements : List Element)
        (attrs : AttributesWithOverrides) (err : String) (a2 : AttributesWithOverrides),
      applySubstitutionsOnLines lib.ParseReader [Title]
          [.substituteInlinePassthrough, .substituteSpecialCharacters, .substituteQuotedTexts,
            .substituteAttributes, .substituteReplacements, .substituteInlineMacros,
            .substitutePostReplacements] attrs = (.error err, a2) →
      applySubstitutions.element lib (.Section Level Attributes Title Elements) attrs
        = some (.error err, a2))
    ∧ (∀ (Scheme : String) (Path : List Element) (Attributes : List (String × Element))
        (attrs : AttributesWithOverrides) (err : String) (a2 : AttributesWithOverrides),
      applySubstitutionsOnLines lib.ParseReader [Path] [.substituteAttributes] attrs
        = (.error err, a2) →
      applySubstitutions.element lib (.ImageBlock Scheme Path Attributes) attrs
        = some (.error err, a2))
    ∧ (∀ (rawDoc : RawDocument) (config : Configuration) (err : String)
        (a2 : AttributesWithOverrides),
      applySubstitutions lib (RawDocument.Attributes.elements lib rawDoc.Elements)
          (AttributesWithOverrides.Add
            (AttributesWithOverrides.Add ⟨[], config.AttributeOverrides, []⟩
              rawDoc.FrontMatter.Content)
            (rawDoc.Attributes lib))
        = some (.error err, a2) →
      ApplySubstitutions lib rawDoc config
        = some ({ Attributes := [], FrontMatter := ⟨[]⟩, Elements := [] }, some err)) := by
  refine ⟨applySubstitutions_first_error lib, applySubstitutions.element_selector_error lib,
    ?_, ?_, applySubstitutionsOnLines_first_error lib.ParseReader, ?_, ?_, ?_, ?_, ?_⟩
  · intro e h attrs subs err a2 hlines hsel hsteps
    rw [applySubstitutions.element_lines lib e h hlines attrs subs hsel, hsteps]
    rfl
  · intro e h attrs subs err a2 hels hsel hsteps
    rw [applySubstitutions.element_elements lib e h hels attrs subs hsel, hsteps]
    rfl
  · intro subs before e after attrs r a1 err a2 hb he
    apply applySubstitutionsOnElements_first_error lib.ParseReader subs before e after attrs r a1
      err a2 hb
    rcases he with ⟨h, hsteps⟩ | ⟨h, hsteps⟩
    · rw [applySubstitutionsOnElements.nested_lines _ e h, hsteps]
      rfl
    · rw [applySubstitutionsOnElements.nested_elements _ e h, hsteps]
      rfl
  · intro Offset inner attrs err a2 h
    rw [applySubstitutions.element_continued, h]
  · intro Level Attributes Title Elements attrs err a2 h
    rw [applySubstitutions.element_section, applySubstitutionsOnSection, h]
  · intro Scheme Path Attributes attrs err a2 h
    rw [applySubstitutions.element_image, applySubstitutionsOnImageBlock, h]
  · intro rawDoc config err a2 h
    unfold ApplySubstitutions
    simp only []
    rw [h]

/-- C33, on a document whose second element is a continued list item element
that holds an example block with a paragraph, for a parser that fails: the
error of the first step on the lines of the paragraph is returned by
`applySubstitutions` and by `ApplySubstitutions`, with the zero value of the
draft document. -/
theorem substitution_error_aborts_witness :
    applySubstitutions
        { exampleLibrary with ParseReader := fun _ _ _ _ => .error "no match" }
        [.BlankLine,
          .ContinuedListItemElement 0
            (.ExampleBlock [] [.Paragraph [] [[.StringElement "a"]]]),
          .BlankLine]
        ⟨[], [], []⟩
      = some (.error "unable to parse 'a': no match", ⟨[], [], []⟩)
    ∧ applySubstitutions.element
        { exampleLibrary with ParseReader := fun _ _ _ _ => .error "no match" }
        (.Paragraph [("subs", .raw (.str "quotes,foo"))] [[.StringElement "a"]]) ⟨[], [], []⟩
      = some (.error "unsupported substitution: 'foo", ⟨[], [], []⟩)
    ∧ ApplySubstitutions
        { exampleLibrary with ParseReader := fun _ _ _ _ => .error "no match" }
        ⟨⟨[("k", .str "v")]⟩,
          [.BlankLine,
            .ContinuedListItemElement 0
              (.ExampleBlock [] [.Paragraph [] [[.StringElement "a"]]]),
            .BlankLine]⟩
        ⟨[]⟩
      = some ({ Attributes := [], FrontMatter := ⟨[]⟩, Elements := [] },
          some "unable to parse 'a': no match") :=
  ⟨rfl,
    (substitution_error_aborts
      { exampleLibrary with ParseReader := fun _ _ _ _ => .error "no match" }).2.1
      (.Paragraph [("subs", .raw (.str "quotes,foo"))] [[.StringElement "a"]]) rfl ⟨[], [], []⟩
      "unsupported substitution: 'foo" rfl,
    rfl⟩

/-! ## The resolver on a tree that keeps the store -/

theorem Element.keepsStore_declaration (name value : String) :
    (Element.AttributeDeclaration name value).keepsStore = false := by
  rw [Element.keepsStore]

theorem withResolvedChildren.elements_append (attrs : AttributesWithOverrides)
    (before after : List Element) :
    withResolvedChildren.elements attrs (before ++ after)
      = withResolvedChildren.elements attrs before ++ withResolvedChildren.elements attrs after := by
  induction before with
  | nil => rw [withResolvedChildren.elements]; rfl
  | cons e rest ih =>
    rw [List.cons_append, withResolvedChildren.elements, ih, withResolvedChildren.elements]
    rfl

theorem Element.withResolvedChildren_default (attrs : AttributesWithOverrides) (e : Element)
    (h : e.hasResolverCase = false) : e.withResolvedChildren attrs = e := by
  cases e <;> first
    | (simp [Element.hasResolverCase] at h; done)
    | simp only [Element.withResolvedChildren]

mutual

theorem applyAttributeSubstitutionsOnElement_keepsStore (attrs : AttributesWithOverrides) :
    ∀ (e : Element), e.keepsStore = true →
      applyAttributeSubstitutionsOnElement e attrs = (.ok (e.withResolvedChildren attrs), attrs)
  | .ImageBlock scheme path as, h => by
    rw [Element.keepsStore] at h
    rw [applyAttributeSubstitutionsOnElement,
      applyAttributeSubstitutionsOnElementsLoop_keepsStore attrs path h, Resolved.map_ok,
      Element.withResolvedChildren]
  | .Section level as title elements, h => by
    rw [Element.keepsStore] at h
    rw [applyAttributeSubstitutionsOnElement,
      applyAttributeSubstitutionsOnElementsLoop_keepsStore attrs title h, Resolved.map_ok,
      Element.withResolvedChildren]
  | .OrderedListItem as level style elements, h => by
    rw [Element.keepsStore] at h
    rw [applyAttributeSubstitutionsOnElement,
      applyAttributeSubstitutionsOnElementsLoop_keepsStore attrs elements h, Resolved.map_ok,
      Element.withResolvedChildren]
  | .UnorderedListItem level bullet check as elements, h => by
    rw [Element.keepsStore] at h
    rw [applyAttributeSubstitutionsOnElement,
      applyAttributeSubstitutionsOnElementsLoop_keepsStore attrs elements h, Resolved.map_ok,
      Element.withResolvedChildren]
  | .LabeledListItem term level as elements, h => by
    rw [Element.keepsStore] at h
    rw [applyAttributeSubstitutionsOnElement,
      applyAttributeSubstitutionsOnElementsLoop_keepsStore attrs elements h, Resolved.map_ok,
      Element.withResolvedChildren]
  | .ExampleBlock as elements, h => by
    rw [Element.keepsStore] at h
    rw [applyAttributeSubstitutionsOnElement,
      applyAttributeSubstitutionsOnElementsLoop_keepsStore attrs elements h, Resolved.map_ok,
      Element.withResolvedChildren]
  | .QuoteBlock as elements, h => by
    rw [Element.keepsStore] at h
    rw [applyAttributeSubstitutionsOnElement,
      applyAttributeSubstitutionsOnElementsLoop_keepsStore attrs elements h, Resolved.map_ok,
      Element.withResolvedChildren]
  | .SidebarBlock as elements, h => by
    rw [Element.keepsStore] at h
    rw [applyAttributeSubstitutionsOnElement,
      applyAttributeSubstitutionsOnElementsLoop_keepsStore attrs elements h, Resolved.map_ok,
      Element.withResolvedChildren]
  | .InlineImage scheme path as, h => by
    rw [Element.keepsStore] at h
    rw [applyAttributeSubstitutionsOnElement,
      applyAttributeSubstitutionsOnElementsLoop_keepsStore attrs path h, Resolved.map_ok,
      Element.withResolvedChildren]
  | .InlineLink scheme path as, h => by
    rw [Element.keepsStore] at h
    rw [applyAttributeSubstitutionsOnElement,
      applyAttributeSubstitutionsOnElementsLoop_keepsStore attrs path h, Resolved.map_ok,
      Element.withResolvedChildren]
  | .ExternalCrossReference scheme path label, h => by
    rw [Element.keepsStore] at h
    rw [applyAttributeSubstitutionsOnElement,
      applyAttributeSubstitutionsOnElementsLoop_keepsStore attrs path h, Resolved.map_ok,
      Element.withResolvedChildren]
  | .QuotedText kind elements as, h => by
    rw [Element.keepsStore] at h
    rw [applyAttributeSubstitutionsOnElement,
      applyAttributeSubstitutionsOnElementsLoop_keepsStore attrs elements h, Resolved.map_ok,
      Element.withResolvedChildren]
  | .Paragraph as lines, h => by
    rw [Element.keepsStore] at h
    rw [applyAttributeSubstitutionsOnElement,
      applyAttributeSubstitutionsOnLines_keepsStore attrs lines h, Resolved.map_ok,
      Element.withResolvedChildren]
  | .FencedBlock as lines, h => by
    rw [Element.keepsStore] at h
    rw [applyAttributeSubstitutionsOnElement,
      applyAttributeSubstitutionsOnLines_keepsStore attrs lines h, Resolved.map_ok,
      Element.withResolvedChildren]
  | .ListingBlock as lines, h => by
    rw [Element.keepsStore] at h
    rw [applyAttributeSubstitutionsOnElement,
      applyAttributeSubstitutionsOnLines_keepsStore attrs lines h, Resolved.map_ok,
      Element.withResolvedChildren]
  | .VerseBlock as lines, h => by
    rw [Element.keepsStore] at h
    rw [applyAttributeSubstitutionsOnElement,
      applyAttributeSubstitutionsOnLines_keepsStore attrs lines h, Resolved.map_ok,
      Element.withResolvedChildren]
  | .MarkdownQuoteBlock as lines, h => by
    rw [Element.keepsStore] at h
    rw [applyAttributeSubstitutionsOnElement,
      applyAttributeSubstitutionsOnLines_keepsStore attrs lines h, Resolved.map_ok,
      Element.withResolvedChildren]
  | .PassthroughBlock as lines, h => by
    rw [Element.keepsStore] at h
    rw [applyAttributeSubstitutionsOnElement,
      applyAttributeSubstitutionsOnLines_keepsStore attrs lines h, Resolved.map_ok,
      Element.withResolvedChildren]
  | .CommentBlock as lines, h => by
    rw [Element.keepsStore] at h
    rw [applyAttributeSubstitutionsOnElement,
      applyAttributeSubstitutionsOnLines_keepsStore attrs lines h, Resolved.map_ok,
      Element.withResolvedChildren]
  | .LiteralBlock as lines, h => by
    rw [Element.keepsStore] at h
    rw [applyAttributeSubstitutionsOnElement,
      applyAttributeSubstitutionsOnLines_keepsStore attrs lines h, Resolved.map_ok,
      Element.withResolvedChildren]
  | .ContinuedListItemElement offset element, h => by
    rw [Element.keepsStore] at h
    rw [applyAttributeSubstitutionsOnElement,
      applyAttributeSubstitutionsOnElement_keepsStore attrs element h, Resolved.map_ok,
      Element.withResolvedChildren]
  | .AttributeSubstitution name, _ => by
    rw [applyAttributeSubstitutionsOnElement_reference, Element.withResolvedChildren,
      referenceText]
  | .AttributeDeclaration _ _, h => by simp [Element.keepsStore] at h
  | .AttributeReset _, h => by simp [Element.keepsStore] at h
  | .CounterSubstitution _ _ _, h => by simp [Element.keepsStore] at h
  | .raw _, _ => by
    simp only [applyAttributeSubstitutionsOnElement, Element.withResolvedChildren]
  | .slice _, _ => by
    simp only [applyAttributeSubstitutionsOnElement, Element.withResolvedChildren]
  | .ElementRole _, _ => by
    simp only [applyAttributeSubstitutionsOnElement, Element.withResolvedChildren]
  | .StringElement _, _ => by
    simp only [applyAttributeSubstitutionsOnElement, Element.withResolvedChildren]
  | .SingleLineComment _, _ => by
    simp only [applyAttributeSubstitutionsOnElement, Element.withResolvedChildren]
  | .BlankLine, _ => by
    simp only [applyAttributeSubstitutionsOnElement, Element.withResolvedChildren]
  | .LineBreak, _ => by
    simp only [applyAttributeSubstitutionsOnElement, Element.withResolvedChildren]
  | .SpecialCharacter _, _ => by
    simp only [applyAttributeSubstitutionsOnElement, Element.withResolvedChildren]
  | .ElementPlaceHolder _, _ => by
    simp only [applyAttributeSubstitutionsOnElement, Element.withResolvedChildren]
  | .PredefinedAttribute _, _ => by
    simp only [applyAttributeSubstitutionsOnElement, Element.withResolvedChildren]
  | .InternalCrossReference _ _, _ => by
    simp only [applyAttributeSubstitutionsOnElement, Element.withResolvedChildren]
  | .QuotedString _ _, _ => by
    simp only [applyAttributeSubstitutionsOnElement, Element.withResolvedChildren]
  | .InlinePassthrough _ _, _ => by
    simp only [applyAttributeSubstitutionsOnElement, Element.withResolvedChildren]
  | .IndexTerm _, _ => by
    simp only [applyAttributeSubstitutionsOnElement, Element.withResolvedChildren]
  | .Footnote _ _ _, _ => by
    simp only [applyAttributeSubstitutionsOnElement, Element.withResolvedChildren]
  | .FootnoteReference _ _ _, _ => by
    simp only [applyAttributeSubstitutionsOnElement, Element.withResolvedChildren]

theorem applyAttributeSubstitutionsOnElementsLoop_keepsStore (attrs : AttributesWithOverrides) :
    ∀ (elements : List Element), keepsStore.elements elements = true →
      applyAttributeSubstitutionsOnElementsLoop elements attrs
        = (.ok (withResolvedChildren.elements attrs elements), attrs)
  | [], _ => by
    rw [applyAttributeSubstitutionsOnElementsLoop, withResolvedChildren.elements]
  | element :: rest, h => by
    rw [keepsStore.elements, Bool.and_eq_true] at h
    rw [applyAttributeSubstitutionsOnElementsLoop,
      applyAttributeSubstitutionsOnElement_keepsStore attrs element h.1]
    simp only []
    rw [applyAttributeSubstitutionsOnElementsLoop_keepsStore attrs rest h.2, Resolved.map_ok,
      withResolvedChildren.elements]

theorem applyAttributeSubstitutionsOnLines_keepsStore (attrs : AttributesWithOverrides) :
    ∀ (lines : List (List Element)), keepsStore.lines lines = true →
      applyAttributeSubstitutionsOnLines lines attrs
        = (.ok (withResolvedChildren.lines attrs lines), attrs)
  | [], _ => by
    rw [applyAttributeSubstitutionsOnLines, withResolvedChildren.lines]
  | line :: rest, h => by
    rw [keepsStore.lines, Bool.and_eq_true] at h
    rw [applyAttributeSubstitutionsOnLines,
      applyAttributeSubstitutionsOnElementsLoop_keepsStore attrs line h.1, Resolved.map_ok]
    simp only []
    rw [applyAttributeSubstitutionsOnLines_keepsStore attrs rest h.2, Resolved.map_ok,
      withResolvedChildren.lines]

end

theorem reference_in_sequence (before after : List Element) (name : String)
    (attrs a1 : AttributesWithOverrides) (before1 : List Element)
    (hbefore : applyAttributeSubstitutionsOnElementsLoop before attrs = (.ok before1, a1)) :
    applyAttributeSubstitutionsOnElements (before ++ .AttributeSubstitution name :: after) attrs
      = Resolved.map
          (fun after1 => Merge (before1 ++ .StringElement (referenceText a1 name) :: after1))
          (applyAttributeSubstitutionsOnElementsLoop after a1) := by
  rw [applyAttributeSubstitutionsOnElements, applyAttributeSubstitutionsOnElementsLoop_append,
    hbefore]
  simp only []
  rw [applyAttributeSubstitutionsOnElementsLoop_cons,
    applyAttributeSubstitutionsOnElement_reference]
  simp only [Resolved.map_map]
  rfl

/-- C31, amended: for every store and every element on whose way the resolver
meets no declaration, no reset and no counter reference,
`applyAttributeSubstitutionsOnElement` returns, with the store as it is, the
element with every attribute reference among its owned children replaced by
the text element of its resolved text (the value in the store, or the name
between braces), at any depth: the elements of list items and of example,
quote and sidebar blocks, the lines of paragraphs and of blocks of lines, a
section title, a quoted text, the path of a link, of an image and of a
cross-reference, each resolved and then merged, the other fields being kept,
the label of a cross-reference among them; the same holds for a list of
elements given to `applyAttributeSubstitutionsOnElements`.  In any list of
children, a reference is replaced by its resolved text in the store that the
elements before it leave.  In the resolved children the text of a reference
stands where the reference stood, and an element without a case in the type
switch, a text element among them, is returned as it is, with the store as it
is.  For every container the result is rebuilt from the result of
`applyAttributeSubstitutionsOnElements` (of
`applyAttributeSubstitutionsOnLines` for the blocks of lines) on its
children. -/
theorem resolver_rebuilds_containers (attrs : AttributesWithOverrides) :
    (∀ e : Element, e.keepsStore = true →
      applyAttributeSubstitutionsOnElement e attrs
        = (.ok (e.withResolvedChildren attrs), attrs))
    ∧ (∀ elements : List Element, keepsStore.elements elements = true →
      applyAttributeSubstitutionsOnElements elements attrs
        = (.ok (Merge (withResolvedChildren.elements attrs elements)), attrs))
    ∧ (∀ (before after : List Element) (name : String) (a1 : AttributesWithOverrides)
        (before1 : List Element),
      applyAttributeSubstitutionsOnElementsLoop before attrs = (.ok before1, a1) →
      applyAttributeSubstitutionsOnElements (before ++ .AttributeSubstitution name :: after) attrs
        = Resolved.map
            (fun after1 => Merge (before1 ++ .StringElement (referenceText a1 name) :: after1))
            (applyAttributeSubstitutionsOnElementsLoop after a1))
    ∧ (∀ (before after : List Element) (name : String),
      withResolvedChildren.elements attrs (before ++ .AttributeSubstitution name :: after)
        = withResolvedChildren.elements attrs before
          ++ .StringElement (referenceText attrs name)
            :: withResolvedChildren.elements attrs after)
    ∧ (∀ e : Element, e.hasResolverCase = false → e.withResolvedChildren attrs = e)
    ∧ (∀ name,
      applyAttributeSubstitutionsOnElement (.AttributeSubstitution name) attrs
        = (.ok (.StringElement (if (attrs.GetAsString name).2 then (attrs.GetAsString name).1
            else "\x7b" ++ name ++ "\x7d")), attrs))
    ∧ (∀ e : Element, e.hasResolverCase = false →
      applyAttributeSubstitutionsOnElement e attrs = (.ok e, attrs))
    ∧ (∀ as level style elements,
      applyAttributeSubstitutionsOnElement (.OrderedListItem as level style elements) attrs
        = Resolved.map (.OrderedListItem as level style ·)
            (applyAttributeSubstitutionsOnElements elements attrs))
    ∧ (∀ level bullet check as elements,
      applyAttributeSubstitutionsOnElement (.UnorderedListItem level bullet check as elements)
          attrs
        = Resolved.map (.UnorderedListItem level bullet check as ·)
            (applyAttributeSubstitutionsOnElements elements attrs))
    ∧ (∀ term level as elements,
      applyAttributeSubstitutionsOnElement (.LabeledListItem term level as elements) attrs
        = Resolved.map (.LabeledListItem term level as ·)
            (applyAttributeSubstitutionsOnElements elements attrs))
    ∧ (∀ offset element,
      applyAttributeSubstitutionsOnElement (.ContinuedListItemElement offset element) attrs
        = Resolved.map (.ContinuedListItemElement offset ·)
            (applyAttributeSubstitutionsOnElement element attrs))
    ∧ (∀ as elements,
      applyAttributeSubstitutionsOnElement (.ExampleBlock as elements) attrs
        = Resolved.map (.ExampleBlock as ·)
            (applyAttributeSubstitutionsOnElements elements attrs))
    ∧ (∀ as elements,
      applyAttributeSubstitutionsOnElement (.QuoteBlock as elements) attrs
        = Resolved.map (.QuoteBlock as ·)
            (applyAttributeSubstitutionsOnElements elements attrs))
    ∧ (∀ as elements,
      applyAttributeSubstitutionsOnElement (.SidebarBlock as elements) attrs
        = Resolved.map (.SidebarBlock as ·)
            (applyAttributeSubstitutionsOnElements elements attrs))
    ∧ (∀ as lines,
      applyAttributeSubstitutionsOnElement (.Paragraph as lines) attrs
        = Resolved.map (.Paragraph as ·) (applyAttributeSubstitutionsOnLines lines attrs))
    ∧ (∀ as lines,
      applyAttributeSubstitutionsOnElement (.FencedBlock as lines) attrs
        = Resolved.map (.FencedBlock as ·) (applyAttributeSubstitutionsOnLines lines attrs))
    ∧ (∀ as lines,
      applyAttributeSubstitutionsOnElement (.ListingBlock as lines) attrs
        = Resolved.map (.ListingBlock as ·) (applyAttributeSubstitutionsOnLines lines attrs))
    ∧ (∀ as lines,
      applyAttributeSubstitutionsOnElement (.VerseBlock as lines) attrs
        = Resolved.map (.VerseBlock as ·) (applyAttributeSubstitutionsOnLines lines attrs))
    ∧ (∀ as lines,
      applyAttributeSubstitutionsOnElement (.MarkdownQuoteBlock as lines) attrs
        = Resolved.map (.MarkdownQuoteBlock as ·)
            (applyAttributeSubstitutionsOnLines lines attrs))
    ∧ (∀ as lines,
      applyAttributeSubstitutionsOnElement (.PassthroughBlock as lines) attrs
        = Resolved.map (.PassthroughBlock as ·)
            (applyAttributeSubstitutionsOnLines lines attrs))
    ∧ (∀ as lines,
      applyAttributeSubstitutionsOnElement (.CommentBlock as lines) attrs
        = Resolved.map (.CommentBlock as ·) (applyAttributeSubstitutionsOnLines lines attrs))
    ∧ (∀ as lines,
      applyAttributeSubstitutionsOnElement (.LiteralBlock as lines) attrs
        = Resolved.map (.LiteralBlock as ·) (applyAttributeSubstitutionsOnLines lines attrs))
    ∧ (∀ level as title elements,
      applyAttributeSubstitutionsOnElement (.Section level as title elements) attrs
        = Resolved.map (fun title => .Section level as title elements)
            (applyAttributeSubstitutionsOnElements title attrs))
    ∧ (∀ scheme path as,
      applyAttributeSubstitutionsOnElement (.ImageBlock scheme path as) attrs
        = Resolved.map (fun path => .ImageBlock scheme path as)
            (applyAttributeSubstitutionsOnElements path attrs))
    ∧ (∀ scheme path as,
      applyAttributeSubstitutionsOnElement (.InlineImage scheme path as) attrs
        = Resolved.map (fun path => .InlineImage scheme path as)
            (applyAttributeSubstitutionsOnElements path attrs))
    ∧ (∀ scheme path as,
      applyAttributeSubstitutionsOnElement (.InlineLink scheme path as) attrs
        = Resolved.map (fun path => .InlineLink scheme path as)
            (applyAttributeSubstitutionsOnElements path attrs))
    ∧ (∀ scheme path label,
      applyAttributeSubstitutionsOnElement (.ExternalCrossReference scheme path label) attrs
        = Resolved.map (fun path => .ExternalCrossReference scheme path label)
            (applyAttributeSubstitutionsOnElements path attrs))
    ∧ (∀ kind elements as,
      applyAttributeSubstitutionsOnElement (.QuotedText kind elements as) attrs
        = Resolved.map (fun elements => .QuotedText kind elements as)
            (applyAttributeSubstitutionsOnElements elements attrs)) := by
  refine ⟨fun e h => applyAttributeSubstitutionsOnElement_keepsStore attrs e h, ?_,
    fun before after name a1 before1 h => reference_in_sequence before after name attrs a1
      before1 h, ?_,
    fun e h => Element.withResolvedChildren_default attrs e h,
    fun name => applyAttributeSubstitutionsOnElement_reference name attrs,
    fun e h => applyAttributeSubstitutionsOnElement_default e attrs h,
    ?_, ?_, ?_, ?_, ?_, ?_, ?_, ?_, ?_, ?_, ?_, ?_, ?_, ?_, ?_, ?_, ?_, ?_, ?_, ?_, ?_⟩
  · intro elements h
    rw [applyAttributeSubstitutionsOnElements,
      applyAttributeSubstitutionsOnElementsLoop_keepsStore attrs elements h, Resolved.map_ok]
  · intro before after name
    rw [withResolvedChildren.elements_append, withResolvedChildren.elements,
      Element.withResolvedChildren]
  all_goals
    intros
    rw [applyAttributeSubstitutionsOnElement]
    try rw [applyAttributeSubstitutionsOnElements, Resolved.map_map]

/-- C31, amended, on the repository's tests, with `foo` declared as `bar`:
the reference to `foo` in the paragraph of an ordered, an unordered and a
labeled list item and of an example block, in a quoted text, in the path of
a link, of an image and of a cross-reference is replaced by `bar`, and the
one in the label of the cross-reference is kept; after a declaration of `foo`
in the same list, the reference is replaced by the declared value. -/
theorem resolver_rebuilds_containers_witness :
    applyAttributeSubstitutionsOnElements
        [.OrderedListItem [] 0 "" [.Paragraph [] [[.AttributeSubstitution "foo",
          .StringElement " and more content."]]]]
        ⟨[("foo", .str "bar")], [], []⟩
      = (.ok [.OrderedListItem [] 0 "" [.Paragraph [] [[.StringElement
          "bar and more content."]]]], ⟨[("foo", .str "bar")], [], []⟩)
    ∧ applyAttributeSubstitutionsOnElements
        [.UnorderedListItem 0 "" "" [] [.Paragraph [] [[.AttributeSubstitution "foo",
          .StringElement " and more content."]]]]
        ⟨[("foo", .str "bar")], [], []⟩
      = (.ok [.UnorderedListItem 0 "" "" [] [.Paragraph [] [[.StringElement
          "bar and more content."]]]], ⟨[("foo", .str "bar")], [], []⟩)
    ∧ applyAttributeSubstitutionsOnElements
        [.LabeledListItem [] 0 [] [.Paragraph [] [[.AttributeSubstitution "foo",
          .StringElement " and more content."]]]]
        ⟨[("foo", .str "bar")], [], []⟩
      = (.ok [.LabeledListItem [] 0 [] [.Paragraph [] [[.StringElement
          "bar and more content."]]]], ⟨[("foo", .str "bar")], [], []⟩)
    ∧ applyAttributeSubstitutionsOnElements
        [.ExampleBlock [] [.Paragraph [] [[.AttributeSubstitution "foo",
          .StringElement " and more content."]]]]
        ⟨[("foo", .str "bar")], [], []⟩
      = (.ok [.ExampleBlock [] [.Paragraph [] [[.StringElement "bar and more content."]]]],
          ⟨[("foo", .str "bar")], [], []⟩)
    ∧ applyAttributeSubstitutionsOnElement
        (.ListingBlock [] [[.AttributeSubstitution "foo"], [.StringElement "x"]])
        ⟨[("foo", .str "bar")], [], []⟩
      = (.ok (.ListingBlock [] [[.StringElement "bar"], [.StringElement "x"]]),
          ⟨[("foo", .str "bar")], [], []⟩)
    ∧ applyAttributeSubstitutionsOnElement
        (.QuotedText 0 [.AttributeSubstitution "foo", .StringElement " and more content."] [])
        ⟨[("foo", .str "bar")], [], []⟩
      = (.ok (.QuotedText 0 [.StringElement "bar and more content."] []),
          ⟨[("foo", .str "bar")], [], []⟩)
    ∧ applyAttributeSubstitutionsOnElement
        (.InlineLink "https://" [.StringElement "a/", .AttributeSubstitution "foo"] [])
        ⟨[("foo", .str "bar")], [], []⟩
      = (.ok (.InlineLink "https://" [.StringElement "a/bar"] []),
          ⟨[("foo", .str "bar")], [], []⟩)
    ∧ applyAttributeSubstitutionsOnElement
        (.InlineImage "" [.AttributeSubstitution "foo", .StringElement ".png"] [])
        ⟨[("foo", .str "bar")], [], []⟩
      = (.ok (.InlineImage "" [.StringElement "bar.png"] []), ⟨[("foo", .str "bar")], [], []⟩)
    ∧ applyAttributeSubstitutionsOnElement
        (.ExternalCrossReference "" [.AttributeSubstitution "foo", .StringElement ".adoc"]
          [.AttributeSubstitution "foo"])
        ⟨[("foo", .str "bar")], [], []⟩
      = (.ok (.ExternalCrossReference "" [.StringElement "bar.adoc"]
          [.AttributeSubstitution "foo"]), ⟨[("foo", .str "bar")], [], []⟩)
    ∧ applyAttributeSubstitutionsOnElement
        (.OrderedListItem [] 0 "" [.StringElement "x", .AttributeSubstitution "undefined"])
        ⟨[("foo", .str "bar")], [], []⟩
      = (.ok (.OrderedListItem [] 0 "" [.StringElement "x\x7bundefined\x7d"]),
          ⟨[("foo", .str "bar")], [], []⟩)
    ∧ applyAttributeSubstitutionsOnElements
        ([.AttributeDeclaration "foo" "bar"] ++ .AttributeSubstitution "foo"
          :: [.StringElement "!"]) ⟨[], [], []⟩
      = Resolved.map
          (fun after1 => Merge ([.AttributeDeclaration "foo" "bar"]
            ++ .StringElement (referenceText ⟨[("foo", .str "bar")], [], []⟩ "foo") :: after1))
          (applyAttributeSubstitutionsOnElementsLoop [.StringElement "!"]
            ⟨[("foo", .str "bar")], [], []⟩)
    ∧ applyAttributeSubstitutionsOnElements
        [.AttributeDeclaration "foo" "bar", .AttributeSubstitution "foo", .StringElement "!"]
        ⟨[], [], []⟩
      = (.ok [.AttributeDeclaration "foo" "bar", .StringElement "bar!"],
          ⟨[("foo", .str "bar")], [], []⟩) :=
  ⟨(resolver_rebuilds_containers ⟨[("foo", .str "bar")], [], []⟩).2.1 _ rfl,
    (resolver_rebuilds_containers ⟨[("foo", .str "bar")], [], []⟩).2.1 _ rfl,
    (resolver_rebuilds_containers ⟨[("foo", .str "bar")], [], []⟩).2.1 _ rfl,
    (resolver_rebuilds_containers ⟨[("foo", .str "bar")], [], []⟩).2.1 _ rfl,
    (resolver_rebuilds_containers ⟨[("foo", .str "bar")], [], []⟩).1 _ rfl,
    (resolver_rebuilds_containers ⟨[("foo", .str "bar")], [], []⟩).1 _ rfl,
    (resolver_rebuilds_containers ⟨[("foo", .str "bar")], [], []⟩).1 _ rfl,
    (resolver_rebuilds_containers ⟨[("foo", .str "bar")], [], []⟩).1 _ rfl,
    (resolver_rebuilds_containers ⟨[("foo", .str "bar")], [], []⟩).1 _ rfl,
    (resolver_rebuilds_containers ⟨[("foo", .str "bar")], [], []⟩).1 _ rfl,
    (resolver_rebuilds_containers ⟨[], [], []⟩).2.2.1 [.AttributeDeclaration "foo" "bar"]
      [.StringElement "!"] "foo" ⟨[("foo", .str "bar")], [], []⟩
      [.AttributeDeclaration "foo" "bar"] rfl,
    rfl⟩

end Libasciidoc
